import Mathlib

/-!
Verification of the adVNTR read-matching HMM core against its specification.

Shallow embedding of:
  - `src/advntr/hmm_utils.py`  (profile-HMM assembly and path analysis)
  - `src/vntr_finder.py`       (read recruiting, scoring, genotyping driver)

Modelling conventions:
  * HMM states are represented by the inductive type `RState`; the Python code
    identifies states by their name strings, which are reproduced exactly by
    `RState.name`.  The string predicates used by the source
    (`name.startswith('M')`, `name.split('_')[-1]`, `name.endswith('fix')`, ...)
    are implemented structurally; each definition's doc comment records the
    string operation it implements, and `RState.name` lets the reader check the
    correspondence.
  * Probabilities are rationals (`ℚ`); Python floats are modelled exactly.
  * Python sequence indexing (including negative indices) is modelled by
    `pyStrGet`, which returns a junk character out of range (Python raises
    `IndexError` there); fallible functions whose error path matters to a claim
    return `Except`.
  * pomegranate (a third-party dependency, not part of this repository) is
    modelled by its documented semantics: `add_transition` records an edge
    weight (adding the same edge twice overwrites, since the underlying
    `networkx` graph keys edges by endpoints), `bake(merge=None)` keeps all
    states, `dense_transition_matrix` exposes the recorded weights,
    `concatenate` links the end of one model to the start of the next with
    probability 1, and `Model.from_matrix(mat, ..., starts, ends)` re-wraps the
    same matrix with the designated start/end.  The `Model-start`/`Model-end`
    sentinel silent states of the three sub-models are kept explicitly
    (constructors `suffModelStart` ... `preModelEnd`); the extra pass-through
    sentinels introduced by `from_matrix` re-wrapping carry a single
    probability-1 edge and are collapsed.
-/

namespace AdVNTR

/-- Tag part of a column-state name: `'suffix'`, `'prefix'`, or the repeat-copy
index printed as a decimal numeral (the `%s` in `'M%s_%s' % (i, repeat)`). -/
inductive Tag where
  | suf : Tag
  | pre : Tag
  | rep : ℕ → Tag
deriving DecidableEq, Repr

/-- The string the tag contributes to a state name. -/
def Tag.str : Tag → String
  | .suf => "suffix"
  | .pre => "prefix"
  | .rep k => toString k

/-- States of the models built in `hmm_utils.py`, identified in the source by
their name strings (reproduced by `RState.name`). -/
inductive RState where
  /-- pomegranate sentinel: `model.start` of the suffix matcher,
  named `"Suffix Matcher HMM Model-start"`. -/
  | suffModelStart : RState
  /-- pomegranate sentinel: `model.end` of the suffix matcher. -/
  | suffModelEnd : RState
  /-- pomegranate sentinel: start of the repeats matcher
  (`"Repeating Pattern Matcher HMM Model-start"`). -/
  | repModelStart : RState
  /-- pomegranate sentinel: end of the repeats matcher. -/
  | repModelEnd : RState
  /-- pomegranate sentinel: `model.start` of the prefix matcher. -/
  | preModelStart : RState
  /-- pomegranate sentinel: `model.end` of the prefix matcher — the global end
  of the composed read matcher (`model.end_index` in `get_read_matcher_model`). -/
  | preModelEnd : RState
  /-- Match state `'M%s_%s' % (col, tag)`. -/
  | M (col : ℕ) (tag : Tag) : RState
  /-- Insert state `'I%s_%s' % (col, tag)`. -/
  | I (col : ℕ) (tag : Tag) : RState
  /-- Delete state `'D%s_%s' % (col, tag)`. -/
  | D (col : ℕ) (tag : Tag) : RState
  /-- `'suffix_start_suffix'`. -/
  | sfxStart : RState
  /-- `'suffix_end_suffix'`. -/
  | sfxEnd : RState
  /-- `'prefix_start_prefix'`. -/
  | pfxStart : RState
  /-- `'prefix_end_prefix'`. -/
  | pfxEnd : RState
  /-- `'unit_start_%s' % repeat`. -/
  | unitStart (k : ℕ) : RState
  /-- `'unit_end_%s' % repeat`. -/
  | unitEnd (k : ℕ) : RState
  /-- `'start_repeating_pattern_match'`. -/
  | startRepeating : RState
  /-- `'end_repeating_pattern_match'`. -/
  | endRepeating : RState
  /-- `'start_random_matches'` (from `build_reference_repeat_finder_hmm`). -/
  | startRandomMatches : RState
  /-- `'end_random_matches'` (from `build_reference_repeat_finder_hmm`). -/
  | endRandomMatches : RState
deriving DecidableEq, Repr

/-- The exact name string the source gives each state. -/
def RState.name : RState → String
  | .suffModelStart => "Suffix Matcher HMM Model-start"
  | .suffModelEnd => "Suffix Matcher HMM Model-end"
  | .repModelStart => "Repeating Pattern Matcher HMM Model-start"
  | .repModelEnd => "Repeating Pattern Matcher HMM Model-end"
  | .preModelStart => "Prefix Matcher HMM Model-start"
  | .preModelEnd => "Prefix Matcher HMM Model-end"
  | .M col tag => "M" ++ toString col ++ "_" ++ tag.str
  | .I col tag => "I" ++ toString col ++ "_" ++ tag.str
  | .D col tag => "D" ++ toString col ++ "_" ++ tag.str
  | .sfxStart => "suffix_start_suffix"
  | .sfxEnd => "suffix_end_suffix"
  | .pfxStart => "prefix_start_prefix"
  | .pfxEnd => "prefix_end_prefix"
  | .unitStart k => "unit_start_" ++ toString k
  | .unitEnd k => "unit_end_" ++ toString k
  | .startRepeating => "start_repeating_pattern_match"
  | .endRepeating => "end_repeating_pattern_match"
  | .startRandomMatches => "start_random_matches"
  | .endRandomMatches => "end_random_matches"

/-- `hmm_utils.is_match_state`: `state_name.startswith('M')`.  Only `M`-column
states have a name beginning with the character `M` (the sentinel names begin
with `Suffix`/`Repeating`/`Prefix`). -/
def isMatchState : RState → Bool
  | .M _ _ => true
  | _ => false

/-- `hmm_utils.is_emitting_state`: the name starts with `'M'`, `'I'`,
`'start_random_matches'` or `'end_random_matches'`. -/
def isEmittingState : RState → Bool
  | .M _ _ => true
  | .I _ _ => true
  | .startRandomMatches => true
  | .endRandomMatches => true
  | _ => false

/-- `state.startswith('unit_start')`: true exactly for the `unit_start_<k>`
gateway states. -/
def isUnitStart : RState → Bool
  | .unitStart _ => true
  | _ => false

/-- `state.startswith('unit_end')`: true exactly for the `unit_end_<k>`
gateway states. -/
def isUnitEnd : RState → Bool
  | .unitEnd _ => true
  | _ => false

/-- `state.startswith('I')`: true exactly for insert states. -/
def isInsertState : RState → Bool
  | .I _ _ => true
  | _ => false

/-- `state.startswith('D')`: true exactly for delete states. -/
def isDeleteState : RState → Bool
  | .D _ _ => true
  | _ => false

/-- `visited_states[i].endswith('fix')`: true for column states tagged
`prefix`/`suffix` ("M3_suffix", ...) and for the four flank gateway states
("suffix_start_suffix", "prefix_end_prefix", ...). -/
def endsInFix : RState → Bool
  | .M _ .suf => true
  | .M _ .pre => true
  | .I _ .suf => true
  | .I _ .pre => true
  | .D _ .suf => true
  | .D _ .pre => true
  | .sfxStart => true
  | .sfxEnd => true
  | .pfxStart => true
  | .pfxEnd => true
  | _ => false

/-- `'start' in visited_states[i] or 'end' in visited_states[i]` (substring
test).  Every state name other than the `M`/`I`/`D` column names contains
`start` or `end` as a substring. -/
def nameContainsStartOrEnd : RState → Bool
  | .M _ _ => false
  | .I _ _ => false
  | .D _ _ => false
  | _ => true

/-- `visited_states[i].endswith('prefix')`: column states tagged `prefix` and
the two `prefix_*_prefix` gateways. -/
def endsWithPre : RState → Bool
  | .M _ .pre => true
  | .I _ .pre => true
  | .D _ .pre => true
  | .pfxStart => true
  | .pfxEnd => true
  | _ => false

/-- `visited_states[i].endswith('suffix')`: column states tagged `suffix` and
the two `suffix_*_suffix` gateways. -/
def endsWithSuf : RState → Bool
  | .M _ .suf => true
  | .I _ .suf => true
  | .D _ .suf => true
  | .sfxStart => true
  | .sfxEnd => true
  | _ => false

/-- `int(name.split('_')[0][1:])` — the column number of an `M`/`I`/`D` state.
On any other state the Python expression raises `ValueError`; the source only
evaluates it on column states, so the junk value `0` returned here is never
relied upon. -/
def colOf : RState → ℤ
  | .M i _ => (i : ℤ)
  | .I i _ => (i : ℤ)
  | .D i _ => (i : ℤ)
  | _ => 0

/-- Python string indexing `s[i]` (negative `i` counts from the right).  Out of
range, Python raises `IndexError`; this model returns the junk character `'?'`
there, and every theorem either supplies an in-range hypothesis or compares two
expressions built from the same accessor. -/
def pyStrGet (s : List Char) (i : ℤ) : Char :=
  let j : ℤ := if 0 ≤ i then i else (s.length : ℤ) + i
  if 0 ≤ j ∧ j < (s.length : ℤ) then s.getD j.toNat '?' else '?'

/-- `hmm_utils.get_emitted_basepair_from_visited_states`, inner loop.
`base_pair_idx` is threaded as `idx`; hitting the target state returns
`sequence[base_pair_idx]`, whose Python `IndexError` (sequence too short) is
modelled by `Except.error ()`. -/
def gebGo (state : RState) (sequence : List Char) : List RState → ℕ → Except Unit (Option Char)
  | [], _ => .ok none
  | v :: rest, idx =>
    if v = state then
      match sequence[idx]? with
      | some c => .ok (some c)
      | none => .error ()
    else
      gebGo state sequence rest (idx + (if isEmittingState v then 1 else 0))

/-- `hmm_utils.get_emitted_basepair_from_visited_states(state, visited_states,
sequence)`: walk the visited states counting emitted base pairs; at the first
occurrence of `state` return `sequence[base_pair_idx]`; if `state` never
occurs, return `None` (here `.ok none`). -/
def get_emitted_basepair_from_visited_states (state : RState) (visited : List RState)
    (sequence : List Char) : Except Unit (Option Char) :=
  gebGo state sequence visited 0

/-- Total variant of `get_emitted_basepair_from_visited_states` used where the
source immediately concatenates the result to a string
(`find_frameshift_from_selected_reads` line 218): the state searched for is
always a member of `visited`, and an out-of-range read is junk `'?'`. -/
def emittedBaseAt (state : RState) (visited : List RState) (sequence : List Char) : Char :=
  pyStrGet sequence ((visited.takeWhile (fun v => v ≠ state)).countP isEmittingState : ℤ)

/-- `hmm_utils.get_number_of_repeat_bp_matches_in_vpath`: count interior states
that are emitting and whose name does not end with `'fix'`. -/
def get_number_of_repeat_bp_matches_in_vpath (vs : List RState) : ℕ :=
  (vs.filter (fun s => isEmittingState s && !endsInFix s)).length

/-- `hmm_utils.get_left_flanking_region_size_in_vpath`: count interior states
that are emitting and whose name ends with `'suffix'`. -/
def get_left_flanking_region_size_in_vpath (vs : List RState) : ℕ :=
  (vs.filter (fun s => isEmittingState s && endsWithSuf s)).length

/-- `hmm_utils.get_right_flanking_region_size_in_vpath`: count interior states
that are emitting and whose name ends with `'prefix'`. -/
def get_right_flanking_region_size_in_vpath (vs : List RState) : ℕ :=
  (vs.filter (fun s => isEmittingState s && endsWithPre s)).length

/-- `hmm_utils.get_repeating_pattern_lengths`: for every `unit_end` preceded by
some `unit_start`, record the number of emitting states strictly between the
most recent `unit_start` and that `unit_end`. -/
def getRepeatingPatternLengthsGo : List RState → Option (List RState) → List ℕ
  | [], _ => []
  | s :: rest, acc =>
    let lens :=
      match acc with
      | some seen => if isUnitEnd s then [seen.countP isEmittingState] else []
      | none => []
    let acc' := if isUnitStart s then some [] else acc.map (fun seen => seen ++ [s])
    lens ++ getRepeatingPatternLengthsGo rest acc'

/-- `hmm_utils.get_repeating_pattern_lengths(visited_states)`.  The Python loop
keeps the index `prev_start` of the most recent `unit_start` and, at each
`unit_end` with `prev_start` set, counts emitting states in
`visited_states[prev_start..unit_end)`; the accumulator here carries the states
seen since the most recent `unit_start` instead of the index (`unit_start`
itself is not emitting, so the count is identical). -/
def get_repeating_pattern_lengths (vs : List RState) : List ℕ :=
  getRepeatingPatternLengthsGo vs none

/-! ### Repeat counting (`get_number_of_repeats_in_vpath`, claim C5) -/

/-- Loop state of `get_number_of_repeats_in_vpath`: counters `starts`/`ends`,
the running emitted-bp count `current_bp` (`cb`), and the four recorded event
positions. -/
structure RepAcc where
  starts : ℕ
  ends : ℕ
  cb : ℕ
  firstEnd : Option ℕ
  lastEnd : Option ℕ
  firstStart : Option ℕ
  lastStart : Option ℕ
deriving DecidableEq, Repr

/-- One iteration of the loop in `get_number_of_repeats_in_vpath`
(hmm_utils.py lines 171-183): bump `current_bp` on emitting states, then count
a `unit_start` when `read_length - current_bp >= 3` and a `unit_end` when
`current_bp >= 3`, recording first/last positions. -/
def repStep (readLen : ℕ) (a : RepAcc) (s : RState) : RepAcc :=
  let cb := if isEmittingState s then a.cb + 1 else a.cb
  let a1 := { a with cb := cb }
  let a2 :=
    if isUnitStart s ∧ 3 ≤ readLen - cb then
      { a1 with starts := a1.starts + 1
                firstStart := some (a1.firstStart.getD cb)
                lastStart := some cb }
    else a1
  if isUnitEnd s ∧ 3 ≤ cb then
    { a2 with ends := a2.ends + 1
              firstEnd := some (a2.firstEnd.getD cb)
              lastEnd := some cb }
  else a2

/-- `hmm_utils.get_number_of_repeats_in_vpath(vpath)` on the interior state
list.  `read_length` is the number of emitting states of the whole path;
the result is `max(starts, ends) + delta`. -/
def get_number_of_repeats_in_vpath (vs : List RState) : ℕ :=
  let readLen := (vs.filter isEmittingState).length
  let a := vs.foldl (repStep readLen) ⟨0, 0, 0, none, none, none, none⟩
  let delta :=
    match a.lastStart, a.firstStart, a.lastEnd, a.firstEnd with
    | some ls, some fs, some le, some fe => if fe < fs ∧ ls > le then 1 else 0
    | _, _, _, _ => 0
  max a.starts a.ends + delta

/-- Specification-side view for claim C5: the emitted-bp positions of the
qualifying `unit_start` events — those leaving at least 3 emitted bp of the
read unconsumed (`read_length - current_bp >= 3`).  `cb` is the number of
emitted bp consumed before the remaining states. -/
def startPosList (readLen : ℕ) : ℕ → List RState → List ℕ
  | _, [] => []
  | cb, s :: rest =>
    let cb' := if isEmittingState s then cb + 1 else cb
    if isUnitStart s ∧ 3 ≤ readLen - cb' then cb' :: startPosList readLen cb' rest
    else startPosList readLen cb' rest

/-- Specification-side view for claim C5: the emitted-bp positions of the
qualifying `unit_end` events — those preceded by at least 3 consumed emitted
bp (`current_bp >= 3`). -/
def endPosList (readLen : ℕ) : ℕ → List RState → List ℕ
  | _, [] => []
  | cb, s :: rest =>
    let cb' := if isEmittingState s then cb + 1 else cb
    if isUnitEnd s ∧ 3 ≤ cb' then cb' :: endPosList readLen cb' rest
    else endPosList readLen cb' rest

/-- Claim C5's `delta`: `1` exactly when both kinds of qualifying events occur
and `first_end < first_start` and `last_start > last_end`. -/
def specDelta (startPos endPos : List ℕ) : ℕ :=
  match endPos.head?, startPos.head?, endPos.getLast?, startPos.getLast? with
  | some fe, some fs, some le, some ls => if fe < fs ∧ ls > le then 1 else 0
  | _, _, _, _ => 0

/-! ### Flanking-region match rate (`get_flanking_regions_matching_rate`, claim C7) -/

/-- Pre-scan of `get_flanking_regions_matching_rate` (hmm_utils.py lines
217-222): walk the visited states keeping the previous one; at the first state
containing `'suffix_end_suffix'`, return the column number of the previous
state. -/
def maxHmmIndexGo (prev : RState) : List RState → ℤ
  | [] => -1
  | s :: rest => if s = .sfxEnd then colOf prev else maxHmmIndexGo s rest

/-- `max_hmm_index` of `get_flanking_regions_matching_rate`: `-1` when no state
contains `'suffix_end_suffix'`.  (`prev_state` is initialised to
`visited_states[0]`; Python raises `IndexError` on an empty list, so theorems
assume nonemptiness.) -/
def maxHmmIndex : List RState → ℤ
  | [] => -1
  | v :: rest => maxHmmIndexGo v (v :: rest)

/-- Loop counters of `get_flanking_regions_matching_rate`: right/left flanking
matches and base pairs, and the running sequence index. -/
structure FlankAcc where
  rm : ℕ
  rb : ℕ
  lm : ℕ
  lb : ℕ
  seqIdx : ℕ
deriving DecidableEq, Repr

/-- One iteration of the main loop of `get_flanking_regions_matching_rate`
(hmm_utils.py lines 225-256).  States whose name contains `'start'` or `'end'`
are skipped entirely (including the sequence-index bump).  A `prefix`-tagged
match state matching `right_flank[hmm_state - 1]` bumps `rm`; an emitting
`prefix`-tagged state bumps `rb`; symmetrically for `suffix` against
`left_flank[-(max_hmm_index - hmm_state + 1)]`. -/
def flankStep (seq leftFlank rightFlank : List Char) (maxIdx : ℤ) (a : FlankAcc) (s : RState) :
    FlankAcc :=
  if nameContainsStartOrEnd s then a
  else
    let col := colOf s
    let a1 :=
      if endsWithPre s then
        let b := if isMatchState s ∧ pyStrGet seq (a.seqIdx : ℤ) = pyStrGet rightFlank (col - 1)
                 then { a with rm := a.rm + 1 } else a
        if isEmittingState s then { b with rb := b.rb + 1 } else b
      else a
    let a2 :=
      if endsWithSuf s then
        let b := if isMatchState s ∧
                    pyStrGet seq (a1.seqIdx : ℤ) = pyStrGet leftFlank (-(maxIdx - col + 1))
                 then { a1 with lm := a1.lm + 1 } else a1
        if isEmittingState s then { b with lb := b.lb + 1 } else b
      else a1
    if isEmittingState s then { a2 with seqIdx := a2.seqIdx + 1 } else a2

/-- `hmm_utils.get_flanking_regions_matching_rate(vpath, sequence, left_flank,
right_flank, accuracy_filter)` on the interior state list: each side's rate is
`matches / basepairs`; a side with zero emitted base pairs scores `1` without
the accuracy filter and `epsilon = 0.00001` with it; the result is the minimum
of the two rates. -/
def get_flanking_regions_matching_rate (vs : List RState) (seq leftFlank rightFlank : List Char)
    (accuracyFilter : Bool) : ℚ :=
  let maxIdx := maxHmmIndex vs
  let a := vs.foldl (flankStep seq leftFlank rightFlank maxIdx) ⟨0, 0, 0, 0, 0⟩
  let rightRate : ℚ := if a.rb ≠ 0 then (a.rm : ℚ) / (a.rb : ℚ)
                       else if accuracyFilter then 0.00001 else 1
  let leftRate : ℚ := if a.lb ≠ 0 then (a.lm : ℚ) / (a.lb : ℚ)
                      else if accuracyFilter then 0.00001 else 1
  min rightRate leftRate

/-- Number of emitted bases consumed before position `i` of the visited-state
list: emitting states are counted except those skipped by the
`'start' in name or 'end' in name` guard (which bypasses the index bump). -/
def consumedBefore (vs : List RState) (i : ℕ) : ℕ :=
  ((vs.take i).filter (fun s => isEmittingState s && !nameContainsStartOrEnd s)).length

/-- Specification-side count for claim C7: emitted base pairs on the `prefix`
(right-flank) side — emitting states tagged `prefix`. -/
def specRightBps (vs : List RState) : ℕ :=
  (vs.filter (fun s => !nameContainsStartOrEnd s && endsWithPre s && isEmittingState s)).length

/-- Specification-side count for claim C7: emitted base pairs on the `suffix`
(left-flank) side — emitting states tagged `suffix`. -/
def specLeftBps (vs : List RState) : ℕ :=
  (vs.filter (fun s => !nameContainsStartOrEnd s && endsWithSuf s && isEmittingState s)).length

/-- Claim C7's matching condition on the `prefix` (right-flank) side: a
`prefix`-tagged match state whose emitted base (the `k`-th base of the read)
equals `right_flank[hmm_state - 1]`. -/
def prefixMatchAt (seq rightFlank : List Char) (s : RState) (k : ℕ) : Bool :=
  !nameContainsStartOrEnd s && endsWithPre s && isMatchState s &&
    decide (pyStrGet seq (k : ℤ) = pyStrGet rightFlank (colOf s - 1))

/-- Claim C7's matching condition on the `suffix` (left-flank) side: a
`suffix`-tagged match state whose emitted base equals
`left_flank[-(max_hmm_index - hmm_state + 1)]` (indexed from the right). -/
def suffixMatchAt (seq leftFlank : List Char) (maxIdx : ℤ) (s : RState) (k : ℕ) : Bool :=
  !nameContainsStartOrEnd s && endsWithSuf s && isMatchState s &&
    decide (pyStrGet seq (k : ℤ) = pyStrGet leftFlank (-(maxIdx - colOf s + 1)))

/-- Proof-side recursive counter: the number of positions of `vs` satisfying
the position-dependent condition `p`, where the second argument of `p` is the
number of emitted (non-skipped) bases consumed before the position, starting
from `k`. -/
def flankMatchCount (p : RState → ℕ → Bool) : ℕ → List RState → ℕ
  | _, [] => 0
  | k, s :: rest =>
    (if p s k then 1 else 0) +
      flankMatchCount p (if isEmittingState s && !nameContainsStartOrEnd s then k + 1 else k) rest

/-- Specification-side count for claim C7: positions `i` whose state is a
`prefix`-tagged match state and whose emitted base equals the corresponding
`right_flank` position (offset by column index). -/
def specRightMatches (vs : List RState) (seq rightFlank : List Char) : ℕ :=
  ((List.range vs.length).filter (fun i =>
    prefixMatchAt seq rightFlank (vs.getD i .sfxStart) (consumedBefore vs i))).length

/-- Specification-side count for claim C7: positions `i` whose state is a
`suffix`-tagged match state and whose emitted base equals the corresponding
`left_flank` position indexed from the right. -/
def specLeftMatches (vs : List RState) (seq leftFlank : List Char) (maxIdx : ℤ) : ℕ :=
  ((List.range vs.length).filter (fun i =>
    suffixMatchAt seq leftFlank maxIdx (vs.getD i .sfxStart) (consumedBefore vs i))).length

/-! ### Frameshift detection (`find_frameshift_from_selected_reads`, claim C8) -/

/-- Key of the `mutations` dictionary in `find_frameshift_from_selected_reads`:
the Python code uses the strings `'D<col>'` for deletions and `'I<col><base>'`
for insertions (the emitted base is appended); the rendering is injective, so
the structured key is used here. -/
inductive MutKey where
  | ins (col : ℕ) (base : Char) : MutKey
  | del (col : ℕ) : MutKey
deriving DecidableEq, Repr

/-- Python `dict` increment `mutations[state] += 1` with
`mutations[state] = 0` inserted first when absent: existing keys are updated
in place, new keys are appended (insertion order). -/
def dictIncr (m : List (MutKey × ℕ)) (k : MutKey) : List (MutKey × ℕ) :=
  if m.any (fun p => p.1 = k) then
    m.map (fun p => if p.1 = k then (p.1, p.2 + 1) else p)
  else m ++ [(k, 1)]

/-- Dictionary lookup with default 0 (`mutations.get(k, 0)`). -/
def dictGet (m : List (MutKey × ℕ)) (k : MutKey) : ℕ :=
  ((m.find? (fun p => p.1 = k)).map (fun p => p.2)).getD 0

/-- A read retained by the driver: `(sequence, logp, vpath)`, with `vpath`
already reduced to the interior state list
(`[state.name for idx, state in vpath[1:-1]]`). -/
structure SelRead where
  sequence : List Char
  logp : ℚ
  vpath : List RState

/-- Inner loop of `find_frameshift_from_selected_reads` (vntr_finder.py lines
204-222) over one read's visited states.  `cr` is `current_repeat`; states
ending in `'fix'` or starting with `'M'` are skipped; `unit_start` advances
`current_repeat`; `I`/`D` states inside a unit whose recorded emitted length
differs from `len(pattern)` increment the mutation dictionary, insertions
keyed with the base emitted at the first occurrence of the same state name. -/
def frameshiftReadGo (patLen : ℕ) (lengths : List ℕ) (visitedAll : List RState)
    (sequence : List Char) : Option ℕ → List (MutKey × ℕ) → List RState → List (MutKey × ℕ)
  | _, m, [] => m
  | cr, m, s :: rest =>
    if endsInFix s || isMatchState s then
      frameshiftReadGo patLen lengths visitedAll sequence cr m rest
    else
      let cr' := if isUnitStart s then some ((cr.map (· + 1)).getD 0) else cr
      match cr' with
      | none => frameshiftReadGo patLen lengths visitedAll sequence none m rest
      | some u =>
        if lengths.length ≤ u then
          frameshiftReadGo patLen lengths visitedAll sequence cr' m rest
        else if !(isInsertState s || isDeleteState s) then
          frameshiftReadGo patLen lengths visitedAll sequence cr' m rest
        else
          let key : MutKey :=
            match s with
            | .I col _ => .ins col (emittedBaseAt s visitedAll sequence)
            | .D col _ => .del col
            | _ => .del 0
          let m' := if lengths.getD u 0 ≠ patLen then dictIncr m key else m
          frameshiftReadGo patLen lengths visitedAll sequence cr' m' rest

/-- The mutation dictionary aggregated over all retained reads
(vntr_finder.py lines 195-222). -/
def frameshiftMutations (patLen : ℕ) (reads : List SelRead) : List (MutKey × ℕ) :=
  reads.foldl (fun m r =>
    frameshiftReadGo patLen (get_repeating_pattern_lengths r.vpath) r.vpath r.sequence none m
      r.vpath) []

/-- `repeating_bps_in_data`: sum of `get_number_of_repeat_bp_matches_in_vpath`
over the retained reads. -/
def repeatingBpsInData (reads : List SelRead) : ℕ :=
  (reads.map (fun r => get_number_of_repeat_bp_matches_in_vpath r.vpath)).sum

/-- `vntr_finder.find_frameshift_from_selected_reads`: sort the mutation
dictionary items by occurrence count (Python `sorted` is stable ascending),
take the last as candidate (`(None, 0)` when empty), and report a frameshift
exactly when its count exceeds `avg_bp_coverage / 3` where `avg_bp_coverage =
repeating_bps_in_data / reference_vntr.get_length()`.  Returns the report flag
and the candidate. -/
def find_frameshift_from_selected_reads (patLen vntrLength : ℕ) (reads : List SelRead) :
    Bool × Option (MutKey × ℕ) :=
  let mutations := frameshiftMutations patLen reads
  let sortedMutations := mutations.mergeSort (fun x y => decide (x.2 ≤ y.2))
  let candidate := sortedMutations.getLast?
  let candidateCount : ℕ := ((candidate.map (fun p => p.2)).getD 0)
  let avgBpCoverage : ℚ := (repeatingBpsInData reads : ℚ) / (vntrLength : ℚ)
  (decide ((candidateCount : ℚ) > avgBpCoverage / 3), candidate)

/-- Specification-side view for claim C8: the `(unit index, indel key)` events
of one read — every `I`/`D` state (not tagged `prefix`/`suffix`) encountered
while inside repeat unit `u`, the insertions labeled with the emitted base. -/
def indelEventsGo (visitedAll : List RState) (sequence : List Char) :
    Option ℕ → List RState → List (ℕ × MutKey)
  | _, [] => []
  | cr, s :: rest =>
    if endsInFix s || isMatchState s then indelEventsGo visitedAll sequence cr rest
    else
      let cr' := if isUnitStart s then some ((cr.map (· + 1)).getD 0) else cr
      let ev : List (ℕ × MutKey) :=
        match cr', s with
        | some u, .I col _ => [(u, .ins col (emittedBaseAt s visitedAll sequence))]
        | some u, .D col _ => [(u, .del col)]
        | _, _ => []
      ev ++ indelEventsGo visitedAll sequence cr' rest

/-- The indel events of one retained read. -/
def indelEvents (r : SelRead) : List (ℕ × MutKey) :=
  indelEventsGo r.vpath r.sequence none r.vpath

/-- Specification-side count for claim C8: occurrences of indel event `k`
aggregated over all reads, restricted to repeat units whose recorded emitted
length differs from `len(pattern)`. -/
def specMutCount (patLen : ℕ) (reads : List SelRead) (k : MutKey) : ℕ :=
  (reads.map (fun r =>
    let lengths := get_repeating_pattern_lengths r.vpath
    ((indelEvents r).filter (fun e =>
      decide (e.1 < lengths.length) && decide (lengths.getD e.1 0 ≠ patLen) &&
        decide (e.2 = k))).length)).sum

/-! ### Strand selection (`process_unmapped_read`, claim C9) -/

/-- Watson-Crick complement of an uppercase DNA base (models
`Bio.Seq.reverse_complement` on the `{A,C,G,T}` alphabet; other characters are
left unchanged). -/
def complementBase : Char → Char
  | 'A' => 'T'
  | 'T' => 'A'
  | 'C' => 'G'
  | 'G' => 'C'
  | c => c

/-- `str(read_segment.seq.reverse_complement())`. -/
def reverseComplement (s : List Char) : List Char :=
  (s.map complementBase).reverse

/-- Strand selection in `vntr_finder.process_unmapped_read` (lines 175-181):
score both strands under Viterbi and keep the reverse complement only when its
log-probability is strictly greater (`if logp < rev_logp`). -/
def processUnmappedReadStrand (viterbi : List Char → ℚ × List RState) (seq : List Char) :
    List Char × ℚ × List RState :=
  let fwd := viterbi seq
  let rev := viterbi (reverseComplement seq)
  if fwd.1 < rev.1 then (reverseComplement seq, rev.1, rev.2) else (seq, fwd.1, fwd.2)

/-! ### Reference VNTR and HMM sizing (`get_vntr_matcher_hmm`, claim C4) -/

/-- The reference VNTR description (spec section 3).  The `ReferenceVNTR` class
itself is not under `src/`; the fields and the accessors
`get_repeat_segments()` (returning `repeatSegments`) and `get_length()`
(returning `length`, the length of the VNTR region in the reference) are
modelled from the spec. -/
structure ReferenceVNTR where
  id : ℕ
  chromosome : List Char
  startPoint : ℕ
  pattern : List Char
  repeatSegments : List (List Char)
  leftFlankingRegion : List Char
  rightFlankingRegion : List Char
  length : ℕ

/-- Python 3 `round()`: round half to even (banker's rounding); the tie goes
to the neighbour with `% 2 == 0`. -/
def pyRoundHalfEven (q : ℚ) : ℤ :=
  if q - (⌊q⌋ : ℚ) < 1 / 2 then ⌊q⌋
  else if 1 / 2 < q - (⌊q⌋ : ℚ) then ⌊q⌋ + 1
  else if ⌊q⌋ % 2 = 0 then ⌊q⌋ else ⌊q⌋ + 1

/-- `vntr_finder.get_vntr_matcher_hmm` line 47:
`copies = int(round(float(read_length) / len(self.reference_vntr.pattern) + 0.5))`.
Python 3 `round` rounds half to even; the float division is modelled exactly in
`ℚ` (for read lengths and pattern lengths in range, the double rounding never
crosses a tie). -/
def getVntrMatcherCopies (vntr : ReferenceVNTR) (readLength : ℕ) : ℤ :=
  pyRoundHalfEven ((readLength : ℚ) / (vntr.pattern.length : ℚ) + 0.5)

/-- `vntr_finder.build_vntr_matcher_hmm` line 35:
`patterns = self.reference_vntr.get_repeat_segments() * 100` (Python list
repetition: 100 concatenated copies of the segment list). -/
def buildVntrMatcherPatterns (vntr : ReferenceVNTR) : List (List Char) :=
  (List.replicate 100 vntr.repeatSegments).flatten

/-- The `(copies, patterns)` pair that `get_vntr_matcher_hmm` /
`build_vntr_matcher_hmm` hand to `get_read_matcher_model`. -/
def getVntrMatcherBuildArgs (vntr : ReferenceVNTR) (readLength : ℕ) : ℤ × List (List Char) :=
  (getVntrMatcherCopies vntr readLength, buildVntrMatcherPatterns vntr)

/-! ### Null-score read filtering (`add_false_read_scores_of_chromosome`, claim C6) -/

/-- A record from the aligned-reads source (spec section 6). -/
structure MappedRead where
  isUnmapped : Bool
  referenceStart : ℕ
  referenceEnd : Option ℕ
  seq : List Char
  referenceName : List Char

/-- `read.reference_end if read.reference_end else read_start + len(read.seq)`
— note the Python truthiness test: both `None` and `0` fall back to
`read_start + len(seq)`. -/
def pyReadEnd (r : MappedRead) : ℕ :=
  match r.referenceEnd with
  | some e => if e = 0 then r.referenceStart + r.seq.length else e
  | none => r.referenceStart + r.seq.length

/-- Chromosome-name normalisation (vntr_finder.py lines 114-116): prepend
`'chr'` unless the name already starts with it. -/
def normalizedChrName (n : List Char) : List Char :=
  if ['c', 'h', 'r'].isPrefixOf n then n else ['c', 'h', 'r'] ++ n

/-- Per-read decision of `add_false_read_scores_of_chromosome` (vntr_finder.py
lines 105-123): whether the read reaches Viterbi scoring.  `sampled` is the
outcome of the `random() > SCORE_FINDING_READS_FRACTION` coin (`true` when the
read survives the subsampling).  Unmapped reads, unsampled reads, reads on the
target chromosome whose start lies in `[vntr_start, vntr_end)` or whose end
lies in `(vntr_start, vntr_end]`, and reads containing `'N'` are skipped. -/
def nullReadIsScored (vntr : ReferenceVNTR) (sampled : Bool) (r : MappedRead) : Bool :=
  if r.isUnmapped then false
  else if !sampled then false
  else
    let readStart := r.referenceStart
    let readEnd := pyReadEnd r
    let vntrStart := vntr.startPoint
    let vntrEnd := vntrStart + vntr.length
    let referenceName := normalizedChrName r.referenceName
    if referenceName = vntr.chromosome ∧
        ((vntrStart ≤ readStart ∧ readStart < vntrEnd) ∨
         (vntrStart < readEnd ∧ readEnd ≤ vntrEnd)) then false
    else if 0 < r.seq.count 'N' then false
    else true

/-- Claim C6's notion of overlap: the half-open read interval
`[read_start, read_end)` meets the half-open locus `[vntr_start, vntr_end)`. -/
def overlapsLocus (vntr : ReferenceVNTR) (r : MappedRead) : Bool :=
  decide (r.referenceStart < vntr.startPoint + vntr.length) &&
    decide (vntr.startPoint < pyReadEnd r)

/-! ### Driver aggregation (`find_repeat_count_from_alignment_file`, claim C3) -/

/-- Tail of `vntr_finder.find_repeat_count_from_alignment_file` (lines
423-453), after the recruiting loops have produced `selected_reads`,
`vntr_bp_in_unmapped_reads` and `vntr_bp_in_mapped_reads`.  The flanked and
observed repeat lists are built from the selected reads;
`print('maximum of observed repeats:', max(observed_repeats))` raises
`ValueError` when `observed_repeats` is empty (modelled by `Except.error`);
otherwise the frameshift scan runs and the scaled copy number
`gc_scale(pattern_occurrences / mean_coverage)` is returned.  The coverage
collaborators (spec section 6) are the parameters `meanCoverage` and
`gcScale`. -/
def findRepeatCountAggregate (vntr : ReferenceVNTR) (meanCoverage : ℚ) (gcScale : ℚ → ℚ)
    (selected : List SelRead) (vntrBpUnmapped vntrBpMapped : ℚ) : Except String ℚ :=
  let flankedRepeats := (selected.filter (fun r =>
      decide (5 < get_left_flanking_region_size_in_vpath r.vpath) &&
        decide (5 < get_right_flanking_region_size_in_vpath r.vpath))).map
    (fun r => get_number_of_repeats_in_vpath r.vpath)
  let observedRepeats := selected.map (fun r => get_number_of_repeats_in_vpath r.vpath)
  match observedRepeats.max? with
  | none => .error ("max() arg is an empty sequence")
  | some _ =>
    let _fs := find_frameshift_from_selected_reads vntr.pattern.length vntr.length selected
    let _flanked := flankedRepeats
    let totalCountedVntrBp := vntrBpUnmapped + vntrBpMapped
    let patternOccurrences := totalCountedVntrBp / (vntr.pattern.length : ℚ)
    let observedCopyNumber := patternOccurrences / meanCoverage
    .ok (gcScale observedCopyNumber)

/-! ### The composed read-matcher model (`get_read_matcher_model`, claims C1, C2)

The composed model is `suffix_matcher ⟶ variable repeats matcher ⟶ prefix
matcher`.  The transition weights recorded by the source's `add_transition`
calls (and the dense-matrix edits of `get_variable_number_of_repeats_matcher_hmm`
and `get_read_matcher_model`) are reproduced as a name-indexed matrix; state
order in the dense matrix is irrelevant because the source selects states by
name.  Where the source adds the same edge twice with the same weight (e.g.
`match_states[last] → insert_states[last+1]`, added at lines 331/337, 399/405,
475/481 and their delete/insert counterparts), the duplicate is dropped here:
the underlying `networkx` graph keys edges by endpoints, so the second
`add_transition` overwrites the first with the identical value. -/

/-- `settings.MAX_ERROR_RATE`.  Modelled from the spec: `settings.py` is not
under `src/`; spec section 6 gives the default 0.05. -/
def MAX_ERROR_RATE : ℚ := 0.05

/-- `insert_error = settings.MAX_ERROR_RATE * 2 / 5` (hmm_utils.py line 317). -/
def insertError : ℚ := MAX_ERROR_RATE * 2 / 5

/-- `delete_error = settings.MAX_ERROR_RATE * 1 / 5` (hmm_utils.py line 318). -/
def deleteError : ℚ := MAX_ERROR_RATE * 1 / 5

/-- Repeat-unit profile insert probability.  Modelled from the spec:
`build_profile_hmm_for_repeats` (advntr/profile_hmm.py) is not under `src/`;
spec section 4.1 derives the per-column transition probabilities from
`ε = MAX_ERROR_RATE` as `p_ins = 2ε/5`. -/
def pIns : ℚ := MAX_ERROR_RATE * 2 / 5

/-- Repeat-unit profile delete probability (`p_del = ε/5`, spec section 4.1). -/
def pDel : ℚ := MAX_ERROR_RATE * 1 / 5

/-- Repeat-unit profile match probability (`p_mat = 1 − p_ins − p_del`). -/
def pMat : ℚ := 1 - pIns - pDel

/-- Indicator row entry: weight `w` on target `a`, zero elsewhere.  Each
`ind t a w` summand of a row corresponds to one `add_transition(s, a, w)`
call of the source. -/
def ind (t a : RState) (w : ℚ) : ℚ :=
  if t = a then w else 0

/-- The suffix matcher's fan-in entry (hmm_utils.py lines 388-389):
`unit_start → match_states[i]` with weight `(1 - insert_error - delete_error) /
len(pattern)` for every column `i = 1..F`. -/
def sfxSpread (F : ℕ) (t : RState) : ℚ :=
  match t with
  | .M i .suf => if 1 ≤ i ∧ i ≤ F then (1 - insertError - deleteError) / (F : ℚ) else 0
  | _ => 0

/-- Transition matrix of the concatenated (pre-edit) model
`suffix ⟶ variable repeats ⟶ prefix`, row `s`, column `t`.
`c` = repeat copies, `L` = profile columns of the repeat unit, `F` = left
flank (suffix pattern) length, `R` = right flank (prefix pattern) length.

Sources: `get_suffix_matcher_hmm` (lines 357-418), `get_prefix_matcher_hmm`
(lines 290-351), `get_constant_number_of_repeats_matcher_hmm` (lines 424-497,
per-copy transitions modelled from spec section 4.1 as recorded at `pIns`,
`pDel`, `pMat`), the dense-matrix edits of
`get_variable_number_of_repeats_matcher_hmm` (lines 522-538), and the
probability-1 links added by `Model.concatenate`. -/
def concatTrans (c L F R : ℕ) (s t : RState) : ℚ :=
  match s with
  | .suffModelStart => ind t .sfxStart 1
  | .sfxStart =>
      ind t (.D 1 .suf) deleteError + ind t (.I 0 .suf) insertError + sfxSpread F t
  | .I i .suf =>
      if i = 0 then
        ind t (.I 0 .suf) insertError + ind t (.D 1 .suf) deleteError +
          ind t (.M 1 .suf) (1 - insertError - deleteError)
      else if i = F then
        ind t (.I F .suf) insertError + ind t .sfxEnd (1 - insertError)
      else
        ind t (.I i .suf) insertError + ind t (.M (i + 1) .suf) (1 - insertError - deleteError) +
          ind t (.D (i + 1) .suf) deleteError
  | .M i .suf =>
      if i = F then ind t .sfxEnd (1 - insertError) + ind t (.I F .suf) insertError
      else
        ind t (.I i .suf) insertError + ind t (.M (i + 1) .suf) (1 - insertError - deleteError) +
          ind t (.D (i + 1) .suf) deleteError
  | .D i .suf =>
      if i = F then ind t .sfxEnd (1 - insertError) + ind t (.I F .suf) insertError
      else
        ind t (.I i .suf) insertError + ind t (.D (i + 1) .suf) deleteError +
          ind t (.M (i + 1) .suf) (1 - insertError - deleteError)
  | .sfxEnd => ind t .suffModelEnd 1
  | .suffModelEnd => ind t .repModelStart 1
  | .repModelStart => ind t .startRepeating 1
  | .startRepeating => ind t (.unitStart 0) 1
  | .unitStart r =>
      ind t (.M 1 (.rep r)) pMat + ind t (.D 1 (.rep r)) pDel + ind t (.I 0 (.rep r)) pIns
  | .I i (.rep r) =>
      if i = 0 then
        ind t (.I 0 (.rep r)) pIns + ind t (.D 1 (.rep r)) pDel + ind t (.M 1 (.rep r)) pMat
      else if i = L then
        ind t (.I L (.rep r)) pIns + ind t (.unitEnd r) (1 - pIns)
      else
        ind t (.I i (.rep r)) pIns + ind t (.M (i + 1) (.rep r)) pMat +
          ind t (.D (i + 1) (.rep r)) pDel
  | .M i (.rep r) =>
      if i = L then ind t (.unitEnd r) (1 - pIns) + ind t (.I L (.rep r)) pIns
      else
        ind t (.I i (.rep r)) pIns + ind t (.M (i + 1) (.rep r)) pMat +
          ind t (.D (i + 1) (.rep r)) pDel
  | .D i (.rep r) =>
      if i = L then ind t (.unitEnd r) (1 - pIns) + ind t (.I L (.rep r)) pIns
      else
        ind t (.I i (.rep r)) pIns + ind t (.D (i + 1) (.rep r)) pDel +
          ind t (.M (i + 1) (.rep r)) pMat
  | .unitEnd r =>
      if r + 1 = c then ind t .repModelEnd 0.5 + ind t .endRepeating 0.5
      else ind t (.unitStart (r + 1)) 0.5 + ind t .endRepeating 0.5
  | .endRepeating => ind t .repModelEnd 1
  | .repModelEnd => ind t .preModelStart 1
  | .preModelStart => ind t .pfxStart 1
  | .pfxStart =>
      ind t (.M 1 .pre) (1 - insertError - deleteError) + ind t (.D 1 .pre) deleteError +
        ind t (.I 0 .pre) insertError
  | .I i .pre =>
      if i = 0 then
        ind t (.I 0 .pre) insertError + ind t (.D 1 .pre) deleteError +
          ind t (.M 1 .pre) (1 - insertError - deleteError)
      else if i = R then
        ind t (.I R .pre) insertError + ind t .pfxEnd (1 - insertError)
      else
        ind t (.I i .pre) insertError + ind t (.M (i + 1) .pre) (1 - insertError - deleteError) +
          ind t (.D (i + 1) .pre) deleteError
  | .M i .pre =>
      if i = R then ind t .pfxEnd (1 - insertError) + ind t (.I R .pre) insertError
      else
        ind t (.I i .pre) insertError +
          ind t (.M (i + 1) .pre) (1 - insertError - deleteError - 0.01) +
          ind t (.D (i + 1) .pre) deleteError + ind t .pfxEnd 0.01
  | .D i .pre =>
      if i = R then ind t .pfxEnd (1 - insertError) + ind t (.I R .pre) insertError
      else
        ind t (.I i .pre) insertError + ind t (.D (i + 1) .pre) deleteError +
          ind t (.M (i + 1) .pre) (1 - insertError - deleteError)
  | .pfxEnd => ind t .preModelEnd 1
  | _ => 0

/-- States of the suffix matcher (hmm_utils.py lines 364-377 plus the
pomegranate sentinels). -/
def suffixStates (F : ℕ) : List RState :=
  [.suffModelStart] ++
    ((List.range (F + 1)).map (fun i => .I i .suf)) ++
    ((List.range F).map (fun i => .M (i + 1) .suf)) ++
    ((List.range F).map (fun i => .D (i + 1) .suf)) ++
    [.sfxStart, .sfxEnd, .suffModelEnd]

/-- States of one repeat copy (hmm_utils.py lines 436-452). -/
def copyStates (L r : ℕ) : List RState :=
  ((List.range (L + 1)).map (fun i => .I i (.rep r))) ++
    ((List.range L).map (fun i => .M (i + 1) (.rep r))) ++
    ((List.range L).map (fun i => .D (i + 1) (.rep r))) ++
    [.unitStart r, .unitEnd r]

/-- States of the variable repeats matcher: all copies plus the two gateway
states appended by `get_variable_number_of_repeats_matcher_hmm` and the
pomegranate sentinels. -/
def repeatStates (c L : ℕ) : List RState :=
  [.repModelStart] ++ ((List.range c).map (fun r => copyStates L r)).flatten ++
    [.startRepeating, .endRepeating, .repModelEnd]

/-- States of the prefix matcher (hmm_utils.py lines 297-310 plus the
pomegranate sentinels). -/
def prefixStates (R : ℕ) : List RState :=
  [.preModelStart] ++
    ((List.range (R + 1)).map (fun i => .I i .pre)) ++
    ((List.range R).map (fun i => .M (i + 1) .pre)) ++
    ((List.range R).map (fun i => .D (i + 1) .pre)) ++
    [.pfxStart, .pfxEnd, .preModelEnd]

/-- `model.states` of the composed read matcher. -/
def readMatcherStates (c L F R : ℕ) : List RState :=
  suffixStates F ++ repeatStates c L ++ prefixStates R

/-- `state.name[0] == 'M' and state.name.split('_')[-1] == '0'`
(get_read_matcher_model line 567): a match state whose tag prints as `"0"`,
i.e. any match state of repeat copy 0. -/
def isFirstRepeatMatch : RState → Bool
  | .M _ (.rep 0) => true
  | _ => false

/-- `state.name[0] == 'M' and state.name.split('_')[-1] not in ['prefix',
'suffix']` (get_read_matcher_model line 569): a match state of any repeat
copy. -/
def isRepeatMatchState : RState → Bool
  | .M _ (.rep _) => true
  | _ => false

/-- `first_repeat_matches` (get_read_matcher_model lines 563-568): indices of
states passing `isFirstRepeatMatch`, collected by enumerating `model.states`. -/
def firstRepeatMatches (c L F R : ℕ) : List RState :=
  (readMatcherStates c L F R).filter isFirstRepeatMatch

/-- `repeat_match_states` (get_read_matcher_model lines 564-570). -/
def repeatMatchStates (c L F R : ℕ) : List RState :=
  (readMatcherStates c L F R).filter isRepeatMatchState

/-- Transition matrix of the final read matcher after the two dense-matrix
edits of `get_read_matcher_model` (lines 574-584):

  * internal entry: `mat[start][suffix_start] = 0.3` and
    `mat[start][m] = 0.7 / len(first_repeat_matches)` for every
    `m ∈ first_repeat_matches`;
  * early termination: for every repeat match state, every out-edge is divided
    by `total = 1 + to_end` and `mat[state][end] = to_end / total` where
    `to_end = 0.7 / len(repeat_match_states)` (the pre-edit entry towards the
    global end is 0, and dividing the zero entries is a no-op, so dividing the
    whole row is equivalent to the source's nonzero-only loop).

`from_matrix`/`bake(merge=None)` then re-wrap exactly this matrix with
`starts`/`ends` putting probability 1 on `model.start_index`
(`suffModelStart`) and `model.end_index` (`preModelEnd`). -/
def readMatcherTrans (c L F R : ℕ) (s t : RState) : ℚ :=
  if s = .suffModelStart then
    if t = .sfxStart then 0.3
    else if t ∈ firstRepeatMatches c L F R then
      0.7 / ((firstRepeatMatches c L F R).length : ℚ)
    else concatTrans c L F R s t
  else if s ∈ repeatMatchStates c L F R then
    let toEnd : ℚ := 0.7 / ((repeatMatchStates c L F R).length : ℚ)
    if t = .preModelEnd then toEnd / (1 + toEnd)
    else concatTrans c L F R s t / (1 + toEnd)
  else concatTrans c L F R s t

/-- Sum of the outgoing transition probabilities of state `s` in the baked
read matcher. -/
def rowSum (c L F R : ℕ) (s : RState) : ℚ :=
  ((readMatcherStates c L F R).map (readMatcherTrans c L F R s)).sum

/-! ## Theorems -/

/-- Rounding helper: `pyRoundHalfEven q` is an integer nearest to `q`, and on a
tie (distance exactly 1/2) it is the even one. -/
theorem pyRound_nearest (q : ℚ) :
    (∀ m : ℤ, |q - (pyRoundHalfEven q : ℚ)| ≤ |q - (m : ℚ)|) ∧
      (|q - (pyRoundHalfEven q : ℚ)| = 1 / 2 → Even (pyRoundHalfEven q)) := by
  have hfl : ((⌊q⌋ : ℚ)) ≤ q := Int.floor_le q
  have hfu : q < (⌊q⌋ : ℚ) + 1 := Int.lt_floor_add_one q
  have key : ∀ m : ℤ, m ≤ ⌊q⌋ → (m : ℚ) ≤ q := by
    intro m hm
    exact le_trans (by exact_mod_cast hm) hfl
  have key2 : ∀ m : ℤ, ⌊q⌋ + 1 ≤ m → q < (m : ℚ) := by
    intro m hm
    exact lt_of_lt_of_le hfu (by exact_mod_cast hm)
  unfold pyRoundHalfEven
  split_ifs with h1 h2 h3
  · constructor
    · intro m
      rcases le_or_lt m ⌊q⌋ with hm | hm
      · have h1' : (m : ℚ) ≤ q := key m hm
        have h2' : (m : ℚ) ≤ (⌊q⌋ : ℚ) := by exact_mod_cast hm
        rw [abs_of_nonneg (by linarith), abs_of_nonneg (by linarith)]
        linarith
      · have hm' : ⌊q⌋ + 1 ≤ m := hm
        have h1' : q < (m : ℚ) := key2 m hm'
        have h2' : ((⌊q⌋ : ℚ)) + 1 ≤ (m : ℚ) := by exact_mod_cast hm'
        rw [abs_of_nonneg (by linarith), abs_of_nonpos (by linarith)]
        linarith
    · intro habs
      rw [abs_of_nonneg (by linarith)] at habs
      exfalso; linarith
  · constructor
    · intro m
      rcases le_or_lt m ⌊q⌋ with hm | hm
      · have h1' : (m : ℚ) ≤ q := key m hm
        have h2' : (m : ℚ) ≤ (⌊q⌋ : ℚ) := by exact_mod_cast hm
        rw [abs_of_nonpos (by push_cast; linarith), abs_of_nonneg (by linarith)]
        push_cast
        linarith
      · have hm' : ⌊q⌋ + 1 ≤ m := hm
        have h2' : ((⌊q⌋ : ℚ)) + 1 ≤ (m : ℚ) := by exact_mod_cast hm'
        rw [abs_of_nonpos (by push_cast; linarith), abs_of_nonpos (by linarith)]
        push_cast
        linarith
    · intro habs
      rw [abs_of_nonpos (by push_cast; linarith)] at habs
      exfalso; push_cast at habs; linarith
  · have hq : q - (⌊q⌋ : ℚ) = 1 / 2 := by linarith
    constructor
    · intro m
      rcases le_or_lt m ⌊q⌋ with hm | hm
      · have h1' : (m : ℚ) ≤ (⌊q⌋ : ℚ) := by exact_mod_cast hm
        rw [abs_of_nonneg (by linarith), abs_of_nonneg (by linarith)]
        linarith
      · have h2' : ((⌊q⌋ : ℚ)) + 1 ≤ (m : ℚ) := by exact_mod_cast hm
        rw [abs_of_nonneg (by linarith), abs_of_nonpos (by linarith)]
        linarith
    · intro _
      exact Int.even_iff.mpr h3
  · have hq : q - (⌊q⌋ : ℚ) = 1 / 2 := by linarith
    constructor
    · intro m
      rcases le_or_lt m ⌊q⌋ with hm | hm
      · have h1' : (m : ℚ) ≤ (⌊q⌋ : ℚ) := by exact_mod_cast hm
        rw [abs_of_nonpos (by push_cast; linarith), abs_of_nonneg (by linarith)]
        push_cast
        linarith
      · have h2' : ((⌊q⌋ : ℚ)) + 1 ≤ (m : ℚ) := by exact_mod_cast hm
        rw [abs_of_nonpos (by push_cast; linarith), abs_of_nonpos (by linarith)]
        push_cast
        linarith
    · intro _
      have ho : Odd ⌊q⌋ := Int.odd_iff.mpr (by omega)
      exact ho.add_one

/-- Counting helper: the flattening of `n` copies of a list counts each
element `n` times as often. -/
theorem count_flatten_replicate {α : Type} [BEq α] (n : ℕ) (l : List α) (a : α) :
    ((List.replicate n l).flatten).count a = n * l.count a := by
  induction n with
  | zero => simp
  | succ k ih =>
    rw [List.replicate_succ, List.flatten_cons, List.count_append, ih]
    ring

/-- Claim C3 (code_bug): with no recruited read, `find_repeat_count_from_alignment_file`
does not complete with `pattern_occurrences == 0` and copy number `0` — the
unconditional `print('maximum of observed repeats:', max(observed_repeats))`
(vntr_finder.py line 439) raises `ValueError: max() arg is an empty sequence`
on the empty `observed_repeats` list, so the function aborts before
`pattern_occurrences` is even computed. -/
theorem findRepeatCount_no_recruit_raises (vntr : ReferenceVNTR) (meanCoverage : ℚ)
    (gcScale : ℚ → ℚ) :
    findRepeatCountAggregate vntr meanCoverage gcScale [] 0 0 =
      Except.error ("max() arg is an empty sequence") := rfl

/-- Claim C4 (counterexample): the number of repeat copies is not
`ceil(read_length / len(pattern) + 0.5)`.  With pattern `"ACG"` (length 3) and
`read_length = 6`, Python's `int(round(6/3 + 0.5)) = round(2.5) = 2`
(banker's rounding), while `ceil(2.5) = 3`. -/
theorem copies_not_ceil_counterexample :
    ¬ (getVntrMatcherCopies
        ⟨0, ['c'], 0, ['A', 'C', 'G'], [['A', 'C', 'G']], [], [], 9⟩ 6 =
      Int.ceil ((6 : ℚ) / 3 + 0.5)) := by
  have h1 : getVntrMatcherCopies
      ⟨0, ['c'], 0, ['A', 'C', 'G'], [['A', 'C', 'G']], [], [], 9⟩ 6 = 2 := by
    have hq : ((6 : ℕ) : ℚ) / (([ 'A', 'C', 'G'] : List Char).length : ℚ) + 0.5 = 5 / 2 := by
      norm_num
    unfold getVntrMatcherCopies pyRoundHalfEven
    rw [hq]
    norm_num
  have h2 : Int.ceil ((6 : ℚ) / 3 + 0.5) = 3 := by
    rw [show ((6 : ℚ) / 3 + 0.5) = 5 / 2 by norm_num]
    rw [Int.ceil_eq_iff]
    norm_num
  rw [h1, h2]
  decide

/-- Claim C4 (amended): the number of repeat copies used for the read-matcher
is `round(read_length / len(pattern) + 0.5)` under Python 3 rounding — the
integer nearest to `read_length / len(pattern) + 0.5`, ties to even — and the
pattern list handed to the profile-HMM builder is the observed reference
repeat segments replicated 100 times (every segment occurs 100 times as often
as in the reference list, and the list is the 100-fold concatenation). -/
theorem getVntrMatcherBuild_spec (vntr : ReferenceVNTR) (readLength : ℕ)
    (_hp : vntr.pattern.length ≠ 0) :
    (∀ m : ℤ,
      |((readLength : ℚ) / (vntr.pattern.length : ℚ) + 0.5) -
          ((getVntrMatcherBuildArgs vntr readLength).1 : ℚ)| ≤
        |((readLength : ℚ) / (vntr.pattern.length : ℚ) + 0.5) - (m : ℚ)|) ∧
    (|((readLength : ℚ) / (vntr.pattern.length : ℚ) + 0.5) -
        ((getVntrMatcherBuildArgs vntr readLength).1 : ℚ)| = 1 / 2 →
      Even (getVntrMatcherBuildArgs vntr readLength).1) ∧
    (∀ seg, ((getVntrMatcherBuildArgs vntr readLength).2).count seg =
      100 * vntr.repeatSegments.count seg) ∧
    (getVntrMatcherBuildArgs vntr readLength).2 =
      (List.replicate 100 vntr.repeatSegments).flatten := by
  refine ⟨(pyRound_nearest _).1, (pyRound_nearest _).2, ?_, rfl⟩
  intro seg
  exact count_flatten_replicate 100 vntr.repeatSegments seg

/-- Claim C4 witness: the amended statement at pattern `"ACG"`,
`read_length = 6`. -/
theorem getVntrMatcherBuild_spec_witness :
    (⟨0, ['c'], 0, ['A', 'C', 'G'], [['A', 'C', 'G']], [], [], 9⟩ :
        ReferenceVNTR).pattern.length ≠ 0 ∧
      (∀ m : ℤ,
        |((6 : ℚ) / 3 + 0.5) -
            ((getVntrMatcherBuildArgs
                ⟨0, ['c'], 0, ['A', 'C', 'G'], [['A', 'C', 'G']], [], [], 9⟩ 6).1 : ℚ)| ≤
          |((6 : ℚ) / 3 + 0.5) - (m : ℚ)|) := by
  constructor
  · decide
  · have h := (getVntrMatcherBuild_spec
      ⟨0, ['c'], 0, ['A', 'C', 'G'], [['A', 'C', 'G']], [], [], 9⟩ 6 (by decide)).1
    simpa using h

/-- Claim C9 (confirmed): strand selection in `process_unmapped_read` keeps the
reverse complement exactly when its Viterbi log-probability is strictly
greater than the forward strand's; otherwise — including on a tie — the
forward sequence, score and path are kept, so the result is a deterministic
function of the read. -/
theorem processUnmappedReadStrand_spec (viterbi : List Char → ℚ × List RState)
    (seq : List Char) :
    ((viterbi seq).1 < (viterbi (reverseComplement seq)).1 →
      processUnmappedReadStrand viterbi seq =
        (reverseComplement seq, (viterbi (reverseComplement seq)).1,
          (viterbi (reverseComplement seq)).2)) ∧
    ((viterbi (reverseComplement seq)).1 ≤ (viterbi seq).1 →
      processUnmappedReadStrand viterbi seq = (seq, (viterbi seq).1, (viterbi seq).2)) := by
  unfold processUnmappedReadStrand
  constructor
  · intro h
    rw [if_pos h]
  · intro h
    rw [if_neg (not_lt.mpr h)]

/-- Claim C9 witness: a tie — a Viterbi oracle scoring every strand 0 — keeps
the forward read. -/
theorem processUnmappedReadStrand_spec_witness :
    ((fun _ : List Char => ((0 : ℚ), ([] : List RState))) (reverseComplement ['A', 'C'])).1 ≤
        ((fun _ : List Char => ((0 : ℚ), ([] : List RState))) ['A', 'C']).1 ∧
      processUnmappedReadStrand (fun _ => ((0 : ℚ), ([] : List RState))) ['A', 'C'] =
        (['A', 'C'], (0 : ℚ), ([] : List RState)) :=
  ⟨le_refl 0,
    (processUnmappedReadStrand_spec (fun _ => ((0 : ℚ), ([] : List RState))) ['A', 'C']).2
      (le_refl 0)⟩

/-- Helper for claim C10: behaviour of the inner loop `gebGo` for an arbitrary
starting index. -/
theorem gebGo_spec (state : RState) (sequence : List Char) :
    ∀ (visited : List RState) (idx : ℕ),
      (state ∉ visited → gebGo state sequence visited idx = .ok none) ∧
      (state ∈ visited →
        gebGo state sequence visited idx =
          match sequence[idx + (visited.takeWhile (fun v => v ≠ state)).countP
              isEmittingState]? with
          | some ch => .ok (some ch)
          | none => .error ()) := by
  intro visited
  induction visited with
  | nil => intro idx; exact ⟨fun _ => rfl, fun h => absurd h (List.not_mem_nil state)⟩
  | cons v rest ih =>
    intro idx
    constructor
    · intro hnm
      have hv : ¬ (v = state) := fun h => hnm (h ▸ List.mem_cons_self v rest)
      have hrest : state ∉ rest := fun h => hnm (List.mem_cons_of_mem v h)
      rw [gebGo, if_neg hv]
      exact (ih _).1 hrest
    · intro hm
      by_cases hv : v = state
      · subst hv
        rw [gebGo, if_pos rfl]
        have : (List.takeWhile (fun x => decide ¬(x = v)) (v :: rest)) = [] := by
          simp [List.takeWhile]
        simp only [ne_eq, this, List.countP_nil, Nat.add_zero]
      · have hrest : state ∈ rest := by
          rcases List.mem_cons.mp hm with h | h
          · exact absurd h.symm hv
          · exact h
        rw [gebGo, if_neg hv]
        rw [(ih _).2 hrest]
        have htw : (List.takeWhile (fun x => decide ¬(x = state)) (v :: rest)) =
            v :: List.takeWhile (fun x => decide ¬(x = state)) rest := by
          simp [List.takeWhile, hv]
        simp only [ne_eq, htw, List.countP_cons]
        by_cases he : isEmittingState v = true
        · simp only [he, if_pos rfl]
          norm_num [Nat.add_assoc, Nat.add_comm 1]
        · have he' : isEmittingState v = false := by
            cases hb : isEmittingState v
            · rfl
            · exact absurd hb he
          simp [he']

/-- Claim C10 (confirmed): `get_emitted_basepair_from_visited_states` returns
the sequence base at the position obtained by counting emitting states before
the first occurrence of the target state, and returns `None` when the target
state does not occur among the visited states.  (When the target occurs but
the counted position falls beyond the sequence, Python raises `IndexError`,
modelled by `.error`; the in-range hypothesis rules this out.) -/
theorem get_emitted_basepair_spec (state : RState) (visited : List RState)
    (sequence : List Char) :
    (state ∉ visited →
      get_emitted_basepair_from_visited_states state visited sequence = .ok none) ∧
    (state ∈ visited →
      ∀ h : (visited.takeWhile (fun v => v ≠ state)).countP isEmittingState < sequence.length,
        get_emitted_basepair_from_visited_states state visited sequence =
          .ok (some (sequence.get
            ⟨(visited.takeWhile (fun v => v ≠ state)).countP isEmittingState, h⟩))) := by
  constructor
  · intro h
    exact (gebGo_spec state sequence visited 0).1 h
  · intro hm h
    have := (gebGo_spec state sequence visited 0).2 hm
    rw [get_emitted_basepair_from_visited_states, this]
    rw [Nat.zero_add]
    rw [List.getElem?_eq_getElem h]
    simp [List.get_eq_getElem]

/-- Claim C10 witness: target `M1_0` occurs after one emitting state; the
second sequence base is returned.  A target absent from the path yields
`None`. -/
theorem get_emitted_basepair_spec_witness :
    ((.M 1 (.rep 0) : RState) ∈ [RState.unitStart 0, .I 0 (.rep 0), .M 1 (.rep 0)] ∧
      (([RState.unitStart 0, .I 0 (.rep 0), .M 1 (.rep 0)].takeWhile
          (fun v => v ≠ (.M 1 (.rep 0) : RState))).countP isEmittingState <
        (['A', 'C', 'G'] : List Char).length) ∧
      get_emitted_basepair_from_visited_states (.M 1 (.rep 0))
        [RState.unitStart 0, .I 0 (.rep 0), .M 1 (.rep 0)] ['A', 'C', 'G'] =
          .ok (some 'C')) ∧
    ((.D 2 (.rep 0) : RState) ∉ [RState.unitStart 0, .I 0 (.rep 0), .M 1 (.rep 0)] ∧
      get_emitted_basepair_from_visited_states (.D 2 (.rep 0))
        [RState.unitStart 0, .I 0 (.rep 0), .M 1 (.rep 0)] ['A', 'C', 'G'] = .ok none) := by
  refine ⟨⟨by decide, by decide, ?_⟩, by decide, ?_⟩
  · have := (get_emitted_basepair_spec (.M 1 (.rep 0))
      [RState.unitStart 0, .I 0 (.rep 0), .M 1 (.rep 0)] ['A', 'C', 'G']).2
      (by decide) (by decide)
    simpa using this
  · exact (get_emitted_basepair_spec (.D 2 (.rep 0))
      [RState.unitStart 0, .I 0 (.rep 0), .M 1 (.rep 0)] ['A', 'C', 'G']).1 (by decide)

/-- Claim C6 (counterexample): a mapped, sampled, N-free read on the target
chromosome that strictly contains the VNTR locus — read `[5, 25)` against
locus `[10, 20)` — overlaps the locus yet IS scored: the source's skip test
`vntr_start <= read_start < vntr_end or vntr_start < read_end <= vntr_end`
misses reads containing the locus, so the claim that every overlapping read is
skipped is false. -/
theorem nullScore_overlap_counterexample :
    overlapsLocus ⟨0, ['c', 'h', 'r', '1'], 10, ['A'], [['A']], [], [], 10⟩
        ⟨false, 5, some 25, ['A'], ['c', 'h', 'r', '1']⟩ = true ∧
      normalizedChrName ['c', 'h', 'r', '1'] =
        (⟨0, ['c', 'h', 'r', '1'], 10, ['A'], [['A']], [], [], 10⟩ : ReferenceVNTR).chromosome ∧
      nullReadIsScored ⟨0, ['c', 'h', 'r', '1'], 10, ['A'], [['A']], [], [], 10⟩ true
        ⟨false, 5, some 25, ['A'], ['c', 'h', 'r', '1']⟩ = true := by
  decide

/-- Claim C6 (amended): during null-score collection a read is skipped when it
is unmapped, when the sampling coin rejects it, when it is on the target
chromosome and its start lies in `[vntr_start, vntr_end)` or its end lies in
`(vntr_start, vntr_end]`, and when it contains an `N`; a mapped, sampled,
N-free read that strictly contains the locus is NOT skipped — it is scored. -/
theorem nullReadIsScored_spec (vntr : ReferenceVNTR) (sampled : Bool) (r : MappedRead) :
    (r.isUnmapped = true → nullReadIsScored vntr sampled r = false) ∧
    (sampled = false → nullReadIsScored vntr sampled r = false) ∧
    (normalizedChrName r.referenceName = vntr.chromosome →
      ((vntr.startPoint ≤ r.referenceStart ∧ r.referenceStart < vntr.startPoint + vntr.length) ∨
        (vntr.startPoint < pyReadEnd r ∧ pyReadEnd r ≤ vntr.startPoint + vntr.length)) →
      nullReadIsScored vntr sampled r = false) ∧
    (0 < r.seq.count 'N' → nullReadIsScored vntr sampled r = false) ∧
    (r.isUnmapped = false → sampled = true → r.seq.count 'N' = 0 →
      r.referenceStart < vntr.startPoint → vntr.startPoint + vntr.length < pyReadEnd r →
      nullReadIsScored vntr sampled r = true) := by
  refine ⟨?_, ?_, ?_, ?_, ?_⟩
  · intro h
    simp [nullReadIsScored, h]
  · intro h
    simp [nullReadIsScored, h]
  · intro hch hcond
    simp only [nullReadIsScored]
    split_ifs with h1 h2 h3 <;>
      first
        | rfl
        | exact absurd ⟨hch, hcond⟩ h3
  · intro hn
    simp only [nullReadIsScored]
    have hn' : ¬ r.seq.count 'N' = 0 := by omega
    split_ifs <;> simp_all
  · intro h1 h2 h3 h4 h5
    simp only [nullReadIsScored]
    split_ifs with ha hb hc hd
    · rw [h1] at ha
      exact absurd ha (by simp)
    · rw [h2] at hb
      exact absurd hb (by simp)
    · rcases hc with ⟨_, hcond⟩
      omega
    · omega
    · rfl

/-- Claim C6 witness: a read starting inside the locus (`[12, 18)` against
`[10, 20)`) on the target chromosome is skipped. -/
theorem nullReadIsScored_spec_witness :
    (normalizedChrName ['c', 'h', 'r', '1'] =
        (⟨0, ['c', 'h', 'r', '1'], 10, ['A'], [['A']], [], [], 10⟩ : ReferenceVNTR).chromosome ∧
      (((⟨0, ['c', 'h', 'r', '1'], 10, ['A'], [['A']], [], [], 10⟩ : ReferenceVNTR).startPoint ≤
            (⟨false, 12, some 18, ['A'], ['c', 'h', 'r', '1']⟩ : MappedRead).referenceStart ∧
          (⟨false, 12, some 18, ['A'], ['c', 'h', 'r', '1']⟩ : MappedRead).referenceStart <
            (⟨0, ['c', 'h', 'r', '1'], 10, ['A'], [['A']], [], [], 10⟩ : ReferenceVNTR).startPoint +
              (⟨0, ['c', 'h', 'r', '1'], 10, ['A'], [['A']], [], [], 10⟩ : ReferenceVNTR).length) ∨
        ((⟨0, ['c', 'h', 'r', '1'], 10, ['A'], [['A']], [], [], 10⟩ : ReferenceVNTR).startPoint <
            pyReadEnd ⟨false, 12, some 18, ['A'], ['c', 'h', 'r', '1']⟩ ∧
          pyReadEnd ⟨false, 12, some 18, ['A'], ['c', 'h', 'r', '1']⟩ ≤
            (⟨0, ['c', 'h', 'r', '1'], 10, ['A'], [['A']], [], [], 10⟩ : ReferenceVNTR).startPoint +
              (⟨0, ['c', 'h', 'r', '1'], 10, ['A'], [['A']], [], [], 10⟩ : ReferenceVNTR).length))) ∧
      nullReadIsScored ⟨0, ['c', 'h', 'r', '1'], 10, ['A'], [['A']], [], [], 10⟩ true
        ⟨false, 12, some 18, ['A'], ['c', 'h', 'r', '1']⟩ = false :=
  ⟨⟨by decide, by decide⟩,
    (nullReadIsScored_spec ⟨0, ['c', 'h', 'r', '1'], 10, ['A'], [['A']], [], [], 10⟩ true
        ⟨false, 12, some 18, ['A'], ['c', 'h', 'r', '1']⟩).2.2.1 (by decide) (by decide)⟩

/-- `getLast?` of a cons, phrased through `Option.or`. -/
theorem cons_getLast?_or {α : Type} (x : α) (l : List α) :
    (x :: l).getLast? = l.getLast?.or (some x) := by
  cases l with
  | nil => rfl
  | cons y t =>
    rw [List.getLast?_cons_cons]
    cases h : (y :: t).getLast? with
    | none => exact absurd (List.getLast?_eq_none_iff.mp h) (by simp)
    | some z => rfl

/-- `Option.or` with a `some` in the middle absorbs anything further right. -/
theorem or_some_or {α : Type} (x : Option α) (v : α) (y : Option α) :
    (x.or (some v)).or y = x.or (some v) := by
  cases x <;> rfl

/-- Helper for claim C5: the loop of `get_number_of_repeats_in_vpath`, run
from an arbitrary accumulator, counts exactly the qualifying event positions
of `startPosList`/`endPosList` and records their first/last elements. -/
theorem repFold_spec (readLen : ℕ) :
    ∀ (vs : List RState) (a : RepAcc),
      vs.foldl (repStep readLen) a =
        { starts := a.starts + (startPosList readLen a.cb vs).length,
          ends := a.ends + (endPosList readLen a.cb vs).length,
          cb := a.cb + (vs.filter isEmittingState).length,
          firstEnd := a.firstEnd.or (endPosList readLen a.cb vs).head?,
          lastEnd := ((endPosList readLen a.cb vs).getLast?).or a.lastEnd,
          firstStart := a.firstStart.or (startPosList readLen a.cb vs).head?,
          lastStart := ((startPosList readLen a.cb vs).getLast?).or a.lastStart } := by
  intro vs
  induction vs with
  | nil =>
    intro a
    cases a
    simp [startPosList, endPosList]
  | cons s rest ih =>
    intro a
    rw [List.foldl_cons, ih]
    obtain ⟨starts, ends, cb, fe, le', fs, ls⟩ := a
    simp only [repStep, startPosList, endPosList, List.filter_cons]
    split_ifs with h1 h2 h3 <;>
      cases fe <;> cases fs <;>
        simp_all [cons_getLast?_or, or_some_or, Option.or_some, Option.none_or,
          Option.or_none] <;>
        omega

/-- Claim C5 (confirmed): for every decoded path,
`get_number_of_repeats_in_vpath` returns `max(starts, ends) + delta`, where
`starts` counts `unit_start` events with at least 3 emitted bp of the read
still unconsumed, `ends` counts `unit_end` events preceded by at least 3
consumed emitted bp, and `delta = 1` exactly when both kinds of events occur
with `first_end < first_start` and `last_start > last_end`. -/
theorem get_number_of_repeats_spec (vs : List RState) :
    get_number_of_repeats_in_vpath vs =
      max (startPosList ((vs.filter isEmittingState).length) 0 vs).length
          (endPosList ((vs.filter isEmittingState).length) 0 vs).length +
        specDelta (startPosList ((vs.filter isEmittingState).length) 0 vs)
          (endPosList ((vs.filter isEmittingState).length) 0 vs) := by
  unfold get_number_of_repeats_in_vpath
  dsimp only
  rw [repFold_spec]
  simp only [Option.none_or, Option.or_none, Nat.zero_add]
  unfold specDelta
  cases h1 : (startPosList ((vs.filter isEmittingState).length) 0 vs).head? <;>
    cases h2 : (startPosList ((vs.filter isEmittingState).length) 0 vs).getLast? <;>
    cases h3 : (endPosList ((vs.filter isEmittingState).length) 0 vs).head? <;>
    cases h4 : (endPosList ((vs.filter isEmittingState).length) 0 vs).getLast? <;>
    simp_all [List.head?_eq_none_iff, List.getLast?_eq_none_iff]

/-- `consumedBefore` on a cons, one position later. -/
theorem consumedBefore_cons (s : RState) (rest : List RState) (i : ℕ) :
    consumedBefore (s :: rest) (i + 1) =
      (if isEmittingState s && !nameContainsStartOrEnd s then 1 else 0) +
        consumedBefore rest i := by
  unfold consumedBefore
  rw [List.take_succ_cons, List.filter_cons]
  split_ifs with h
  · simp [h, Nat.add_comm]
  · simp [h]

/-- The recursive counter `flankMatchCount` agrees with the position-indexed
count. -/
theorem flankMatchCount_eq_spec (p : RState → ℕ → Bool) :
    ∀ (vs : List RState) (k : ℕ),
      flankMatchCount p k vs =
        ((List.range vs.length).filter (fun i =>
          p (vs.getD i .sfxStart) (k + consumedBefore vs i))).length := by
  intro vs
  induction vs with
  | nil => intro k; simp [flankMatchCount]
  | cons s rest ih =>
    intro k
    rw [flankMatchCount, ih]
    rw [List.length_cons, List.range_succ_eq_map, List.filter_cons, List.filter_map]
    have h0 : consumedBefore (s :: rest) 0 = 0 := by simp [consumedBefore]
    have hshift : ∀ i : ℕ,
        ((fun i => p ((s :: rest).getD i .sfxStart) (k + consumedBefore (s :: rest) i)) ∘
          Nat.succ) i =
          (fun i => p (rest.getD i .sfxStart)
            ((if isEmittingState s && !nameContainsStartOrEnd s then k + 1 else k) +
              consumedBefore rest i)) i := by
      intro i
      simp only [Function.comp_apply, Nat.succ_eq_add_one, List.getD_cons_succ,
        consumedBefore_cons]
      split_ifs with h <;> (simp [h]; try ring_nf)
    rw [List.filter_congr (fun i _ => hshift i)]
    simp only [List.getD_cons_zero, h0, Nat.add_zero]
    split_ifs with hp <;> simp [List.length_map, Nat.add_comm]

set_option maxHeartbeats 1000000 in
/-- One step of the flanking-rate loop, written as independent field updates. -/
theorem flankStep_eq (seq lf rf : List Char) (mi : ℤ) (s : RState)
    (rm rb lm lb k : ℕ) :
    flankStep seq lf rf mi ⟨rm, rb, lm, lb, k⟩ s =
      ⟨rm + (if prefixMatchAt seq rf s k then 1 else 0),
       rb + (if !nameContainsStartOrEnd s && endsWithPre s && isEmittingState s then 1 else 0),
       lm + (if suffixMatchAt seq lf mi s k then 1 else 0),
       lb + (if !nameContainsStartOrEnd s && endsWithSuf s && isEmittingState s then 1 else 0),
       k + (if isEmittingState s && !nameContainsStartOrEnd s then 1 else 0)⟩ := by
  cases s with
  | M col tag =>
    cases tag with
    | suf =>
      simp only [flankStep, prefixMatchAt, suffixMatchAt, colOf, isMatchState,
        isEmittingState, endsWithPre, endsWithSuf, nameContainsStartOrEnd]
      split_ifs with h <;> simp_all
    | pre =>
      simp only [flankStep, prefixMatchAt, suffixMatchAt, colOf, isMatchState,
        isEmittingState, endsWithPre, endsWithSuf, nameContainsStartOrEnd]
      split_ifs with h <;> simp_all
    | rep r =>
      simp [flankStep, prefixMatchAt, suffixMatchAt, colOf, isMatchState, isEmittingState,
        endsWithPre, endsWithSuf, nameContainsStartOrEnd]
  | I col tag =>
    cases tag <;>
      simp [flankStep, prefixMatchAt, suffixMatchAt, colOf, isMatchState, isEmittingState,
        endsWithPre, endsWithSuf, nameContainsStartOrEnd]
  | D col tag =>
    cases tag <;>
      simp [flankStep, prefixMatchAt, suffixMatchAt, colOf, isMatchState, isEmittingState,
        endsWithPre, endsWithSuf, nameContainsStartOrEnd]
  | suffModelStart =>
    simp [flankStep, prefixMatchAt, suffixMatchAt, isMatchState, isEmittingState,
      endsWithPre, endsWithSuf, nameContainsStartOrEnd]
  | suffModelEnd =>
    simp [flankStep, prefixMatchAt, suffixMatchAt, isMatchState, isEmittingState,
      endsWithPre, endsWithSuf, nameContainsStartOrEnd]
  | repModelStart =>
    simp [flankStep, prefixMatchAt, suffixMatchAt, isMatchState, isEmittingState,
      endsWithPre, endsWithSuf, nameContainsStartOrEnd]
  | repModelEnd =>
    simp [flankStep, prefixMatchAt, suffixMatchAt, isMatchState, isEmittingState,
      endsWithPre, endsWithSuf, nameContainsStartOrEnd]
  | preModelStart =>
    simp [flankStep, prefixMatchAt, suffixMatchAt, isMatchState, isEmittingState,
      endsWithPre, endsWithSuf, nameContainsStartOrEnd]
  | preModelEnd =>
    simp [flankStep, prefixMatchAt, suffixMatchAt, isMatchState, isEmittingState,
      endsWithPre, endsWithSuf, nameContainsStartOrEnd]
  | sfxStart =>
    simp [flankStep, prefixMatchAt, suffixMatchAt, isMatchState, isEmittingState,
      endsWithPre, endsWithSuf, nameContainsStartOrEnd]
  | sfxEnd =>
    simp [flankStep, prefixMatchAt, suffixMatchAt, isMatchState, isEmittingState,
      endsWithPre, endsWithSuf, nameContainsStartOrEnd]
  | pfxStart =>
    simp [flankStep, prefixMatchAt, suffixMatchAt, isMatchState, isEmittingState,
      endsWithPre, endsWithSuf, nameContainsStartOrEnd]
  | pfxEnd =>
    simp [flankStep, prefixMatchAt, suffixMatchAt, isMatchState, isEmittingState,
      endsWithPre, endsWithSuf, nameContainsStartOrEnd]
  | unitStart r =>
    simp [flankStep, prefixMatchAt, suffixMatchAt, isMatchState, isEmittingState,
      endsWithPre, endsWithSuf, nameContainsStartOrEnd]
  | unitEnd r =>
    simp [flankStep, prefixMatchAt, suffixMatchAt, isMatchState, isEmittingState,
      endsWithPre, endsWithSuf, nameContainsStartOrEnd]
  | startRepeating =>
    simp [flankStep, prefixMatchAt, suffixMatchAt, isMatchState, isEmittingState,
      endsWithPre, endsWithSuf, nameContainsStartOrEnd]
  | endRepeating =>
    simp [flankStep, prefixMatchAt, suffixMatchAt, isMatchState, isEmittingState,
      endsWithPre, endsWithSuf, nameContainsStartOrEnd]
  | startRandomMatches =>
    simp [flankStep, prefixMatchAt, suffixMatchAt, isMatchState, isEmittingState,
      endsWithPre, endsWithSuf, nameContainsStartOrEnd]
  | endRandomMatches =>
    simp [flankStep, prefixMatchAt, suffixMatchAt, isMatchState, isEmittingState,
      endsWithPre, endsWithSuf, nameContainsStartOrEnd]

/-- Helper for claim C7: the loop of `get_flanking_regions_matching_rate`, run
from an arbitrary accumulator, produces the four spec-side counters. -/
theorem flankFold_spec (seq lf rf : List Char) (mi : ℤ) :
    ∀ (vs : List RState) (a : FlankAcc),
      vs.foldl (flankStep seq lf rf mi) a =
        { rm := a.rm + flankMatchCount (prefixMatchAt seq rf) a.seqIdx vs,
          rb := a.rb + (vs.filter
            (fun s => !nameContainsStartOrEnd s && endsWithPre s && isEmittingState s)).length,
          lm := a.lm + flankMatchCount (suffixMatchAt seq lf mi) a.seqIdx vs,
          lb := a.lb + (vs.filter
            (fun s => !nameContainsStartOrEnd s && endsWithSuf s && isEmittingState s)).length,
          seqIdx := a.seqIdx + (vs.filter
            (fun s => isEmittingState s && !nameContainsStartOrEnd s)).length } := by
  intro vs
  induction vs with
  | nil =>
    intro a
    cases a
    simp [flankMatchCount]
  | cons s rest ih =>
    intro a
    obtain ⟨rm, rb, lm, lb, k⟩ := a
    rw [List.foldl_cons, flankStep_eq, ih]
    simp only [flankMatchCount, List.filter_cons, FlankAcc.mk.injEq]
    by_cases hc : (isEmittingState s && !nameContainsStartOrEnd s) = true <;>
      by_cases hp : prefixMatchAt seq rf s k = true <;>
      by_cases hs : suffixMatchAt seq lf mi s k = true <;>
      simp_all [Nat.add_assoc, Nat.add_comm, Nat.add_left_comm] <;>
      split_ifs <;>
      simp_all [Nat.add_assoc, Nat.add_comm, Nat.add_left_comm]

/-- Claim C7 (confirmed): for every nonempty decoded path (Python indexes
`visited_states[0]`, so the empty path raises), the flanking-match rate is
`min(right_rate, left_rate)`, where each side's rate is its match count (match
states tagged `prefix` compared against `right_flank` offset by column index,
respectively `suffix` against `left_flank` indexed from the right) divided by
its emitted-bp count, and a side with zero emitted bases scores `1.0` without
the accuracy filter and `epsilon = 1e-5` with it. -/
theorem get_flanking_regions_matching_rate_spec (vs : List RState)
    (seq leftFlank rightFlank : List Char) (accuracyFilter : Bool) (_hvs : vs ≠ []) :
    get_flanking_regions_matching_rate vs seq leftFlank rightFlank accuracyFilter =
      min
        (if specRightBps vs ≠ 0 then
            (specRightMatches vs seq rightFlank : ℚ) / (specRightBps vs : ℚ)
          else if accuracyFilter then 0.00001 else 1)
        (if specLeftBps vs ≠ 0 then
            (specLeftMatches vs seq leftFlank (maxHmmIndex vs) : ℚ) / (specLeftBps vs : ℚ)
          else if accuracyFilter then 0.00001 else 1) := by
  unfold get_flanking_regions_matching_rate
  dsimp only
  rw [flankFold_spec]
  unfold specRightMatches specLeftMatches specRightBps specLeftBps
  rw [flankMatchCount_eq_spec, flankMatchCount_eq_spec]
  simp

/-- Claim C7 witness: the amended statement evaluated on the path
`M1_suffix, suffix_end_suffix, unit_start_0, M1_0, prefix_start_prefix,
M1_prefix` with read `"ACG"`, flanks `"A"`/`"G"`: both sides match fully and
the rate is 1. -/
theorem get_flanking_regions_matching_rate_spec_witness :
    ([RState.M 1 .suf, .sfxEnd, .unitStart 0, .M 1 (.rep 0), .pfxStart, .M 1 .pre] :
        List RState) ≠ [] ∧
      get_flanking_regions_matching_rate
          [RState.M 1 .suf, .sfxEnd, .unitStart 0, .M 1 (.rep 0), .pfxStart, .M 1 .pre]
          ['A', 'C', 'G'] ['A'] ['G'] false =
        min
          (if specRightBps
              [RState.M 1 .suf, .sfxEnd, .unitStart 0, .M 1 (.rep 0), .pfxStart, .M 1 .pre] ≠ 0
            then
              (specRightMatches
                  [RState.M 1 .suf, .sfxEnd, .unitStart 0, .M 1 (.rep 0), .pfxStart, .M 1 .pre]
                  ['A', 'C', 'G'] ['G'] : ℚ) /
                (specRightBps
                  [RState.M 1 .suf, .sfxEnd, .unitStart 0, .M 1 (.rep 0), .pfxStart,
                    .M 1 .pre] : ℚ)
            else if false then 0.00001 else 1)
          (if specLeftBps
              [RState.M 1 .suf, .sfxEnd, .unitStart 0, .M 1 (.rep 0), .pfxStart, .M 1 .pre] ≠ 0
            then
              (specLeftMatches
                  [RState.M 1 .suf, .sfxEnd, .unitStart 0, .M 1 (.rep 0), .pfxStart, .M 1 .pre]
                  ['A', 'C', 'G'] ['A']
                  (maxHmmIndex
                    [RState.M 1 .suf, .sfxEnd, .unitStart 0, .M 1 (.rep 0), .pfxStart,
                      .M 1 .pre]) : ℚ) /
                (specLeftBps
                  [RState.M 1 .suf, .sfxEnd, .unitStart 0, .M 1 (.rep 0), .pfxStart,
                    .M 1 .pre] : ℚ)
            else if false then 0.00001 else 1) :=
  ⟨by decide,
    get_flanking_regions_matching_rate_spec
      [RState.M 1 .suf, .sfxEnd, .unitStart 0, .M 1 (.rep 0), .pfxStart, .M 1 .pre]
      ['A', 'C', 'G'] ['A'] ['G'] false (by decide)⟩

/-- `dictGet` after the in-place update branch of `dictIncr`, at another key. -/
theorem dictGet_map_incr_ne (m : List (MutKey × ℕ)) (k k' : MutKey) (hne : k ≠ k') :
    dictGet (m.map (fun p => if p.1 = k then (p.1, p.2 + 1) else p)) k' = dictGet m k' := by
  induction m with
  | nil => rfl
  | cons p rest ih =>
    have hfst : (if p.1 = k then (p.1, p.2 + 1) else p).1 = p.1 := by split_ifs <;> rfl
    unfold dictGet at ih ⊢
    rw [List.map_cons]
    by_cases hp : p.1 = k'
    · have hpk : ¬ p.1 = k := fun h => hne (h.symm.trans hp)
      rw [@List.find?_cons_of_pos _ (fun q => decide (q.1 = k'))
          (if p.1 = k then (p.1, p.2 + 1) else p) _ (by simp only [hfst]; simp [hp]),
        @List.find?_cons_of_pos _ (fun q => decide (q.1 = k')) p rest (by simp [hp])]
      simp [hpk]
    · rw [@List.find?_cons_of_neg _ (fun q => decide (q.1 = k'))
          (if p.1 = k then (p.1, p.2 + 1) else p) _ (by simp only [hfst]; simp [hp]),
        @List.find?_cons_of_neg _ (fun q => decide (q.1 = k')) p rest (by simp [hp])]
      exact ih

/-- `dictGet` after the in-place update branch of `dictIncr`, at the updated
key: the first matching entry is incremented when one exists. -/
theorem dictGet_map_incr_self (m : List (MutKey × ℕ)) (k : MutKey) :
    dictGet (m.map (fun p => if p.1 = k then (p.1, p.2 + 1) else p)) k =
      dictGet m k + (if m.any (fun p => p.1 = k) then 1 else 0) := by
  induction m with
  | nil => rfl
  | cons p rest ih =>
    have hfst : (if p.1 = k then (p.1, p.2 + 1) else p).1 = p.1 := by split_ifs <;> rfl
    unfold dictGet at ih ⊢
    rw [List.map_cons]
    by_cases hp : p.1 = k
    · rw [@List.find?_cons_of_pos _ (fun q => decide (q.1 = k))
          (if p.1 = k then (p.1, p.2 + 1) else p) _ (by simp only [hfst]; simp [hp]),
        @List.find?_cons_of_pos _ (fun q => decide (q.1 = k)) p rest (by simp [hp])]
      simp [List.any_cons, hp]
    · rw [@List.find?_cons_of_neg _ (fun q => decide (q.1 = k))
          (if p.1 = k then (p.1, p.2 + 1) else p) _ (by simp only [hfst]; simp [hp]),
        @List.find?_cons_of_neg _ (fun q => decide (q.1 = k)) p rest (by simp [hp])]
      rw [ih, List.any_cons, decide_eq_false hp, Bool.false_or]

/-- `dictGet` after the append branch of `dictIncr` (key not present). -/
theorem dictGet_append_single (m : List (MutKey × ℕ)) (k k' : MutKey)
    (hnone : m.any (fun p => p.1 = k) = false) :
    dictGet (m ++ [(k, 1)]) k' = dictGet m k' + (if k = k' then 1 else 0) := by
  unfold dictGet
  rw [List.find?_append]
  cases hf : m.find? (fun p => p.1 = k') with
  | some q =>
    have hq := List.find?_some hf
    have hqm := List.mem_of_find?_eq_some hf
    have hkk : ¬ k = k' := by
      intro h
      subst h
      rw [List.any_eq_false] at hnone
      exact hnone q hqm (by simpa using hq)
    simp [Option.or, hkk]
  | none =>
    by_cases hkk : k = k'
    · subst hkk
      simp [Option.or, List.find?_cons]
    · simp [Option.or, List.find?_cons, hkk]

/-- Python-dict increment law: `dictIncr` bumps exactly the count of its key. -/
theorem dictGet_incr (m : List (MutKey × ℕ)) (k k' : MutKey) :
    dictGet (dictIncr m k) k' = dictGet m k' + (if k = k' then 1 else 0) := by
  unfold dictIncr
  by_cases hany : m.any (fun p => p.1 = k) = true
  · rw [if_pos hany]
    by_cases hkk : k = k'
    · subst hkk
      rw [dictGet_map_incr_self, hany]
      simp
    · rw [dictGet_map_incr_ne m k k' hkk]
      simp [hkk]
  · rw [if_neg hany]
    exact dictGet_append_single m k k' (by rwa [Bool.not_eq_true] at hany)

/-- Helper for claim C8: the inner loop of
`find_frameshift_from_selected_reads` increments the dictionary once per indel
event inside a unit whose recorded emitted length differs from the pattern
length. -/
theorem frameshiftGo_spec (patLen : ℕ) (lengths : List ℕ) (visitedAll : List RState)
    (sequence : List Char) (k : MutKey) :
    ∀ (states : List RState) (cr : Option ℕ) (m : List (MutKey × ℕ)),
      dictGet (frameshiftReadGo patLen lengths visitedAll sequence cr m states) k =
        dictGet m k +
          ((indelEventsGo visitedAll sequence cr states).filter (fun e =>
            decide (e.1 < lengths.length) && decide (lengths.getD e.1 0 ≠ patLen) &&
              decide (e.2 = k))).length := by
  intro states
  induction states with
  | nil =>
    intro cr m
    simp [frameshiftReadGo, indelEventsGo]
  | cons s rest ih =>
    intro cr m
    cases s with
    | M col tag =>
      simp [frameshiftReadGo, indelEventsGo, isMatchState, ih cr m]
    | I col tag =>
      cases tag with
      | suf => simp [frameshiftReadGo, indelEventsGo, endsInFix, isMatchState, ih cr m]
      | pre => simp [frameshiftReadGo, indelEventsGo, endsInFix, isMatchState, ih cr m]
      | rep r =>
        cases cr with
        | none =>
          simp [frameshiftReadGo, indelEventsGo, endsInFix, isMatchState, isUnitStart,
            ih none m]
        | some u =>
          by_cases hlen : lengths.length ≤ u
          · have hnot : ¬ u < lengths.length := not_lt.mpr hlen
            simp [frameshiftReadGo, indelEventsGo, endsInFix, isMatchState, isUnitStart,
              isInsertState, isDeleteState, hlen, hnot, ih (some u) m]
          · have hu : u < lengths.length := lt_of_not_ge hlen
            by_cases hne : lengths.getD u 0 ≠ patLen
            · have hne2 : ¬ lengths[u] = patLen := by
                rw [← List.getD_eq_getElem lengths 0 hu]
                exact hne
              simp only [frameshiftReadGo, indelEventsGo, endsInFix, isMatchState,
                isUnitStart, isInsertState, isDeleteState]
              simp [hlen, hu, hne, hne2, ih (some u), dictGet_incr, List.filter_cons]
              by_cases hkey :
                  (MutKey.ins col (emittedBaseAt (.I col (.rep r)) visitedAll sequence)) = k
              all_goals simp [hkey]
              all_goals omega
            · have hne' : lengths.getD u 0 = patLen := not_not.mp hne
              have hne2 : lengths[u] = patLen := by
                rw [← List.getD_eq_getElem lengths 0 hu]
                exact hne'
              simp only [frameshiftReadGo, indelEventsGo, endsInFix, isMatchState,
                isUnitStart, isInsertState, isDeleteState]
              simp [hlen, hu, hne', hne2, ih (some u), List.filter_cons]
    | D col tag =>
      cases tag with
      | suf => simp [frameshiftReadGo, indelEventsGo, endsInFix, isMatchState, ih cr m]
      | pre => simp [frameshiftReadGo, indelEventsGo, endsInFix, isMatchState, ih cr m]
      | rep r =>
        cases cr with
        | none =>
          simp [frameshiftReadGo, indelEventsGo, endsInFix, isMatchState, isUnitStart,
            ih none m]
        | some u =>
          by_cases hlen : lengths.length ≤ u
          · have hnot : ¬ u < lengths.length := not_lt.mpr hlen
            simp [frameshiftReadGo, indelEventsGo, endsInFix, isMatchState, isUnitStart,
              isInsertState, isDeleteState, hlen, hnot, ih (some u) m]
          · have hu : u < lengths.length := lt_of_not_ge hlen
            by_cases hne : lengths.getD u 0 ≠ patLen
            · have hne2 : ¬ lengths[u] = patLen := by
                rw [← List.getD_eq_getElem lengths 0 hu]
                exact hne
              simp only [frameshiftReadGo, indelEventsGo, endsInFix, isMatchState,
                isUnitStart, isInsertState, isDeleteState]
              simp [hlen, hu, hne, hne2, ih (some u), dictGet_incr, List.filter_cons]
              by_cases hkey : (MutKey.del col = k)
              all_goals simp [hkey]
              all_goals omega
            · have hne' : lengths.getD u 0 = patLen := not_not.mp hne
              have hne2 : lengths[u] = patLen := by
                rw [← List.getD_eq_getElem lengths 0 hu]
                exact hne'
              simp only [frameshiftReadGo, indelEventsGo, endsInFix, isMatchState,
                isUnitStart, isInsertState, isDeleteState]
              simp [hlen, hu, hne', hne2, ih (some u), List.filter_cons]
    | unitStart j =>
      cases cr with
      | none =>
        simp [frameshiftReadGo, indelEventsGo, endsInFix, isMatchState, isUnitStart,
          isInsertState, isDeleteState, ih (some 0) m]
      | some u =>
        simp [frameshiftReadGo, indelEventsGo, endsInFix, isMatchState, isUnitStart,
          isInsertState, isDeleteState, ih (some (u + 1)) m]
    | unitEnd j =>
      cases cr <;>
        simp [frameshiftReadGo, indelEventsGo, endsInFix, isMatchState, isUnitStart,
          isInsertState, isDeleteState, ih]
    | suffModelStart =>
      cases cr <;>
        simp [frameshiftReadGo, indelEventsGo, endsInFix, isMatchState, isUnitStart,
          isInsertState, isDeleteState, ih]
    | suffModelEnd =>
      cases cr <;>
        simp [frameshiftReadGo, indelEventsGo, endsInFix, isMatchState, isUnitStart,
          isInsertState, isDeleteState, ih]
    | repModelStart =>
      cases cr <;>
        simp [frameshiftReadGo, indelEventsGo, endsInFix, isMatchState, isUnitStart,
          isInsertState, isDeleteState, ih]
    | repModelEnd =>
      cases cr <;>
        simp [frameshiftReadGo, indelEventsGo, endsInFix, isMatchState, isUnitStart,
          isInsertState, isDeleteState, ih]
    | preModelStart =>
      cases cr <;>
        simp [frameshiftReadGo, indelEventsGo, endsInFix, isMatchState, isUnitStart,
          isInsertState, isDeleteState, ih]
    | preModelEnd =>
      cases cr <;>
        simp [frameshiftReadGo, indelEventsGo, endsInFix, isMatchState, isUnitStart,
          isInsertState, isDeleteState, ih]
    | sfxStart =>
      simp [frameshiftReadGo, indelEventsGo, endsInFix, ih cr m]
    | sfxEnd =>
      simp [frameshiftReadGo, indelEventsGo, endsInFix, ih cr m]
    | pfxStart =>
      simp [frameshiftReadGo, indelEventsGo, endsInFix, ih cr m]
    | pfxEnd =>
      simp [frameshiftReadGo, indelEventsGo, endsInFix, ih cr m]
    | startRepeating =>
      cases cr <;>
        simp [frameshiftReadGo, indelEventsGo, endsInFix, isMatchState, isUnitStart,
          isInsertState, isDeleteState, ih]
    | endRepeating =>
      cases cr <;>
        simp [frameshiftReadGo, indelEventsGo, endsInFix, isMatchState, isUnitStart,
          isInsertState, isDeleteState, ih]
    | startRandomMatches =>
      cases cr <;>
        simp [frameshiftReadGo, indelEventsGo, endsInFix, isMatchState, isUnitStart,
          isInsertState, isDeleteState, ih]
    | endRandomMatches =>
      cases cr <;>
        simp [frameshiftReadGo, indelEventsGo, endsInFix, isMatchState, isUnitStart,
          isInsertState, isDeleteState, ih]

/-- Helper for claim C8: the mutation dictionary aggregated over all reads
counts exactly the spec-side events. -/
theorem frameshiftMutations_spec (patLen : ℕ) (reads : List SelRead) (k : MutKey) :
    dictGet (frameshiftMutations patLen reads) k = specMutCount patLen reads k := by
  suffices h : ∀ (rs : List SelRead) (m0 : List (MutKey × ℕ)),
      dictGet (rs.foldl (fun m r =>
        frameshiftReadGo patLen (get_repeating_pattern_lengths r.vpath) r.vpath r.sequence
          none m r.vpath) m0) k = dictGet m0 k + specMutCount patLen rs k by
    simpa [frameshiftMutations, dictGet] using h reads []
  intro rs
  induction rs with
  | nil =>
    intro m0
    simp [specMutCount]
  | cons r rest ih =>
    intro m0
    rw [List.foldl_cons, ih, frameshiftGo_spec]
    simp only [specMutCount, indelEvents, List.map_cons, List.sum_cons]
    omega

/-- An element equal to `getLast?` is a member of the list. -/
theorem getLast?_mem_of_eq {α : Type} {l : List α} {a : α} (h : l.getLast? = some a) :
    a ∈ l := by
  rcases List.mem_getLast?_eq_getLast (l := l) (x := a) h with ⟨hne, rfl⟩
  exact List.getLast_mem hne

/-- In a list sorted by occurrence count, the last element has the greatest
count. -/
theorem pairwise_getLast_ge :
    ∀ (l : List (MutKey × ℕ)), List.Pairwise (fun a b => a.2 ≤ b.2) l →
      ∀ q, l.getLast? = some q → ∀ p ∈ l, p.2 ≤ q.2 := by
  intro l
  induction l with
  | nil =>
    intro _ q hq
    simp at hq
  | cons a t ih =>
    intro hp q hq p hp'
    cases t with
    | nil =>
      simp at hq
      rcases List.mem_singleton.mp hp' with rfl
      rw [hq]
    | cons b t' =>
      rw [List.getLast?_cons_cons] at hq
      rcases List.mem_cons.mp hp' with rfl | hmem
      · exact (List.pairwise_cons.mp hp).1 q (getLast?_mem_of_eq hq)
      · exact ih (List.pairwise_cons.mp hp).2 q hq p hmem

/-- The candidate picked by `sorted(mutations.items(), key=count)[-1]` has the
maximal occurrence count. -/
theorem mutations_candidate_max (l : List (MutKey × ℕ)) :
    ∀ p ∈ l, p.2 ≤
      ((((l.mergeSort (fun x y => decide (x.2 ≤ y.2))).getLast?).map
        (fun q => q.2)).getD 0) := by
  intro p hp
  have hperm := List.mergeSort_perm l (fun x y => decide (x.2 ≤ y.2))
  have hmem : p ∈ l.mergeSort (fun x y => decide (x.2 ≤ y.2)) := hperm.mem_iff.mpr hp
  have hsorted := @List.sorted_mergeSort (MutKey × ℕ) (fun x y => decide (x.2 ≤ y.2))
    (by intro a b c hab hbc; simp only [decide_eq_true_eq] at hab hbc ⊢; omega)
    (by intro a b; simp only [Bool.or_eq_true, decide_eq_true_eq]; omega) l
  have hsorted' : List.Pairwise (fun a b : MutKey × ℕ => a.2 ≤ b.2)
      (l.mergeSort (fun x y => decide (x.2 ≤ y.2))) :=
    hsorted.imp (fun h => by simpa using h)
  cases hlast : (l.mergeSort (fun x y => decide (x.2 ≤ y.2))).getLast? with
  | none =>
    rw [List.getLast?_eq_none_iff] at hlast
    rw [hlast] at hmem
    exact absurd hmem (List.not_mem_nil p)
  | some q =>
    simpa using pairwise_getLast_ge _ hsorted' q hlast p hmem

/-- Claim C8 (confirmed): `find_frameshift_from_selected_reads` aggregates
insertion/deletion occurrences only from repeat units whose emitted length
differs from `len(pattern)` (first conjunct: the dictionary equals the
spec-side count of such events, insertions labeled with the emitted base);
the candidate is an element of the dictionary with the highest occurrence
count (`none` exactly when no event was aggregated); and a frameshift is
reported exactly when the candidate count exceeds
`(repeating_bps_in_data / vntr_length) / 3`. -/
theorem find_frameshift_spec (patLen vntrLength : ℕ) (reads : List SelRead) :
    (∀ k, dictGet (frameshiftMutations patLen reads) k = specMutCount patLen reads k) ∧
    (∀ p ∈ frameshiftMutations patLen reads,
      p.2 ≤ (((find_frameshift_from_selected_reads patLen vntrLength reads).2.map
        (fun q => q.2)).getD 0)) ∧
    ((find_frameshift_from_selected_reads patLen vntrLength reads).2 = none ↔
      frameshiftMutations patLen reads = []) ∧
    (∀ p, (find_frameshift_from_selected_reads patLen vntrLength reads).2 = some p →
      p ∈ frameshiftMutations patLen reads) ∧
    ((find_frameshift_from_selected_reads patLen vntrLength reads).1 =
      decide (((((find_frameshift_from_selected_reads patLen vntrLength reads).2.map
          (fun q => q.2)).getD 0 : ℕ) : ℚ) >
        ((repeatingBpsInData reads : ℚ) / (vntrLength : ℚ)) / 3)) := by
  refine ⟨frameshiftMutations_spec patLen reads, ?_, ?_, ?_, ?_⟩
  · intro p hp
    simpa [find_frameshift_from_selected_reads] using
      mutations_candidate_max (frameshiftMutations patLen reads) p hp
  · simp only [find_frameshift_from_selected_reads]
    rw [List.getLast?_eq_none_iff]
    constructor
    · intro h
      have hperm := List.mergeSort_perm (frameshiftMutations patLen reads)
        (fun x y => decide (x.2 ≤ y.2))
      rw [h] at hperm
      exact hperm.symm.eq_nil
    · intro h
      rw [h]
      exact List.mergeSort_nil
  · intro p hp
    simp only [find_frameshift_from_selected_reads] at hp
    have hperm := List.mergeSort_perm (frameshiftMutations patLen reads)
      (fun x y => decide (x.2 ≤ y.2))
    exact hperm.mem_iff.mp (getLast?_mem_of_eq hp)
  · rfl

/-- Summing an indicator row over a state list counts the target's
multiplicity. -/
theorem sum_map_ind (l : List RState) (a : RState) (w : ℚ) :
    (l.map (fun t => ind t a w)).sum = w * (l.count a : ℚ) := by
  induction l with
  | nil => simp [ind]
  | cons x xs ih =>
    rw [List.map_cons, List.sum_cons, ih, List.count_cons]
    by_cases h : x = a
    · subst h
      simp only [ind, if_pos rfl, beq_self_eq_true, if_true]
      push_cast
      ring
    · have h2 : ¬ ((x == a) = true) := by
        simp only [beq_iff_eq]
        exact h
      rw [if_neg h2]
      simp [ind, h]

/-- Multiplicity of `j` in `range n`. -/
theorem count_range_eq (n j : ℕ) : (List.range n).count j = if j < n then 1 else 0 := by
  by_cases h : j < n
  · rw [if_pos h]
    exact List.count_eq_one_of_mem (List.nodup_range n) (List.mem_range.mpr h)
  · rw [if_neg h, List.count_eq_zero]
    simpa [List.mem_range] using h

/-- Multiplicity of `f j` in the image of `range n` under an injective map. -/
theorem count_map_range (f : ℕ → RState) (hf : Function.Injective f) (n j : ℕ) (t : RState)
    (ht : t = f j) : ((List.range n).map f).count t = if j < n then 1 else 0 := by
  subst ht
  rw [List.count_map_of_injective _ f hf, count_range_eq]

/-- A target missed by the map has multiplicity zero. -/
theorem count_map_range_zero (f : ℕ → RState) (n : ℕ) (t : RState) (h : ∀ i, f i ≠ t) :
    ((List.range n).map f).count t = 0 := by
  rw [List.count_eq_zero]
  simp only [List.mem_map, List.mem_range, not_exists]
  rintro x ⟨_, hx⟩
  exact h x hx

/-- Pointwise sums of rows distribute over the state list. -/
theorem sum_map_addQ (l : List RState) (f g : RState → ℚ) :
    (l.map (fun t => f t + g t)).sum = (l.map f).sum + (l.map g).sum := by
  induction l with
  | nil => simp
  | cons x xs ih =>
    simp only [List.map_cons, List.sum_cons, ih]
    ring

/-- Summing a Boolean-gated constant over a state list counts the predicate. -/
theorem sum_map_indP (l : List RState) (p : RState → Bool) (w : ℚ) :
    (l.map (fun t => if p t then w else 0)).sum = w * (l.countP p : ℚ) := by
  induction l with
  | nil => simp
  | cons x xs ih =>
    rw [List.map_cons, List.sum_cons, ih, List.countP_cons]
    by_cases h : p x <;> simp [h] <;> push_cast <;> ring

/-- A row that vanishes on every listed state sums to zero. -/
theorem sum_map_zeroQ (l : List RState) (f : RState → ℚ) (h : ∀ t ∈ l, f t = 0) :
    (l.map f).sum = 0 := by
  apply List.sum_eq_zero
  intro x hx
  obtain ⟨t, ht, rfl⟩ := List.mem_map.mp hx
  exact h t ht

/-- Summing the indicator of one copy index over `range c`. -/
theorem sum_range_ite_eq (c r : ℕ) :
    ((List.range c).map (fun x => if x = r then 1 else 0)).sum = if r < c then 1 else 0 := by
  induction c with
  | zero => simp
  | succ n ih =>
    rw [List.range_succ, List.map_append, List.sum_append, ih]
    simp only [List.map_cons, List.map_nil, List.sum_cons, List.sum_nil]
    split_ifs <;> omega

/-- Copy-index indicator with a side condition independent of the index. -/
theorem sum_range_ite_and (c r : ℕ) (P : Prop) [Decidable P] :
    ((List.range c).map (fun x => if x = r ∧ P then 1 else 0)).sum =
      if r < c ∧ P then 1 else 0 := by
  by_cases hP : P
  · simp only [hP, and_true]
    exact sum_range_ite_eq c r
  · simp [hP]

/-- Multiplicity of an insert state inside one repeat copy. -/
theorem count_copy_I (L r r' j : ℕ) :
    (copyStates L r').count (RState.I j (.rep r)) = if r' = r ∧ j < L + 1 then 1 else 0 := by
  by_cases hr : r' = r
  · rw [hr]
    unfold copyStates
    rw [List.count_append, List.count_append, List.count_append,
      count_map_range (fun i => RState.I i (.rep r)) (fun a b hab => by simpa using hab)
        (L + 1) j _ rfl,
      count_map_range_zero (fun i => RState.M (i + 1) (.rep r)) L (RState.I j (.rep r))
        (fun i => by simp),
      count_map_range_zero (fun i => RState.D (i + 1) (.rep r)) L (RState.I j (.rep r))
        (fun i => by simp)]
    simp
  · unfold copyStates
    rw [List.count_append, List.count_append, List.count_append,
      count_map_range_zero (fun i => RState.I i (.rep r')) (L + 1) (RState.I j (.rep r))
        (fun i => by simp [hr]),
      count_map_range_zero (fun i => RState.M (i + 1) (.rep r')) L (RState.I j (.rep r))
        (fun i => by simp),
      count_map_range_zero (fun i => RState.D (i + 1) (.rep r')) L (RState.I j (.rep r))
        (fun i => by simp)]
    simp [hr]

/-- Multiplicity of a match state inside one repeat copy. -/
theorem count_copy_M (L r r' j : ℕ) :
    (copyStates L r').count (RState.M j (.rep r)) =
      if r' = r ∧ 1 ≤ j ∧ j ≤ L then 1 else 0 := by
  by_cases hr : r' = r
  · rw [hr]
    unfold copyStates
    rw [List.count_append, List.count_append, List.count_append,
      count_map_range_zero (fun i => RState.I i (.rep r)) (L + 1) (RState.M j (.rep r))
        (fun i => by simp),
      count_map_range_zero (fun i => RState.D (i + 1) (.rep r)) L (RState.M j (.rep r))
        (fun i => by simp)]
    cases j with
    | zero =>
      rw [count_map_range_zero (fun i => RState.M (i + 1) (.rep r)) L (RState.M 0 (.rep r))
        (fun i => by simp)]
      simp
    | succ m =>
      rw [count_map_range (fun i => RState.M (i + 1) (.rep r)) (fun a b hab => by simpa using hab)
        L m _ rfl]
      simp only [List.count_cons, List.count_nil]
      split_ifs <;> simp_all <;> omega
  · unfold copyStates
    rw [List.count_append, List.count_append, List.count_append,
      count_map_range_zero (fun i => RState.I i (.rep r')) (L + 1) (RState.M j (.rep r))
        (fun i => by simp),
      count_map_range_zero (fun i => RState.M (i + 1) (.rep r')) L (RState.M j (.rep r))
        (fun i => by simp [hr]),
      count_map_range_zero (fun i => RState.D (i + 1) (.rep r')) L (RState.M j (.rep r))
        (fun i => by simp)]
    simp [hr]

/-- Multiplicity of a delete state inside one repeat copy. -/
theorem count_copy_D (L r r' j : ℕ) :
    (copyStates L r').count (RState.D j (.rep r)) =
      if r' = r ∧ 1 ≤ j ∧ j ≤ L then 1 else 0 := by
  by_cases hr : r' = r
  · rw [hr]
    unfold copyStates
    rw [List.count_append, List.count_append, List.count_append,
      count_map_range_zero (fun i => RState.I i (.rep r)) (L + 1) (RState.D j (.rep r))
        (fun i => by simp),
      count_map_range_zero (fun i => RState.M (i + 1) (.rep r)) L (RState.D j (.rep r))
        (fun i => by simp)]
    cases j with
    | zero =>
      rw [count_map_range_zero (fun i => RState.D (i + 1) (.rep r)) L (RState.D 0 (.rep r))
        (fun i => by simp)]
      simp
    | succ m =>
      rw [count_map_range (fun i => RState.D (i + 1) (.rep r)) (fun a b hab => by simpa using hab)
        L m _ rfl]
      simp only [List.count_cons, List.count_nil]
      split_ifs <;> simp_all <;> omega
  · unfold copyStates
    rw [List.count_append, List.count_append, List.count_append,
      count_map_range_zero (fun i => RState.I i (.rep r')) (L + 1) (RState.D j (.rep r))
        (fun i => by simp),
      count_map_range_zero (fun i => RState.M (i + 1) (.rep r')) L (RState.D j (.rep r))
        (fun i => by simp),
      count_map_range_zero (fun i => RState.D (i + 1) (.rep r')) L (RState.D j (.rep r))
        (fun i => by simp [hr])]
    simp [hr]

/-- Multiplicity of a unit-start gateway inside one repeat copy. -/
theorem count_copy_unitStart (L r r' : ℕ) :
    (copyStates L r').count (RState.unitStart r) = if r' = r then 1 else 0 := by
  unfold copyStates
  rw [List.count_append, List.count_append, List.count_append,
    count_map_range_zero (fun i => RState.I i (.rep r')) (L + 1) (RState.unitStart r)
      (fun i => by simp),
    count_map_range_zero (fun i => RState.M (i + 1) (.rep r')) L (RState.unitStart r)
      (fun i => by simp),
    count_map_range_zero (fun i => RState.D (i + 1) (.rep r')) L (RState.unitStart r)
      (fun i => by simp)]
  by_cases hr : r' = r
  · simp [hr]
  · simp [List.count_cons, hr, (fun h => hr h.symm : ¬ r = r')]

/-- Multiplicity of a unit-end gateway inside one repeat copy. -/
theorem count_copy_unitEnd (L r r' : ℕ) :
    (copyStates L r').count (RState.unitEnd r) = if r' = r then 1 else 0 := by
  unfold copyStates
  rw [List.count_append, List.count_append, List.count_append,
    count_map_range_zero (fun i => RState.I i (.rep r')) (L + 1) (RState.unitEnd r)
      (fun i => by simp),
    count_map_range_zero (fun i => RState.M (i + 1) (.rep r')) L (RState.unitEnd r)
      (fun i => by simp),
    count_map_range_zero (fun i => RState.D (i + 1) (.rep r')) L (RState.unitEnd r)
      (fun i => by simp)]
  by_cases hr : r' = r
  · simp [hr]
  · simp [List.count_cons, hr, (fun h => hr h.symm : ¬ r = r')]

/-- A state that is not a repeat-copy state never occurs inside a copy. -/
theorem count_copy_notRep (L r' : ℕ) (t : RState)
    (h : ∀ i r, t ≠ .I i (.rep r) ∧ t ≠ .M i (.rep r) ∧ t ≠ .D i (.rep r) ∧
      t ≠ .unitStart r ∧ t ≠ .unitEnd r) :
    (copyStates L r').count t = 0 := by
  rw [List.count_eq_zero]
  intro hm
  unfold copyStates at hm
  rcases List.mem_append.mp hm with hm | hm
  · rcases List.mem_append.mp hm with hm | hm
    · rcases List.mem_append.mp hm with hm | hm
      · obtain ⟨i, _, hi⟩ := List.mem_map.mp hm
        exact (h i r').1 hi.symm
      · obtain ⟨i, _, hi⟩ := List.mem_map.mp hm
        exact (h (i + 1) r').2.1 hi.symm
    · obtain ⟨i, _, hi⟩ := List.mem_map.mp hm
      exact (h (i + 1) r').2.2.1 hi.symm
  · rcases List.mem_cons.mp hm with hm | hm
    · exact (h 0 r').2.2.2.1 hm
    · exact (h 0 r').2.2.2.2 (List.mem_singleton.mp hm)

/-- Multiplicity in the flattened copy block, given the per-copy multiplicity. -/
theorem count_flatten_copies (c L : ℕ) (t : RState) (g : ℕ → ℕ)
    (hg : ∀ r', (copyStates L r').count t = g r') :
    (((List.range c).map (fun r => copyStates L r)).flatten).count t =
      ((List.range c).map g).sum := by
  rw [List.count_flatten, List.map_map]
  exact congrArg List.sum (List.map_congr_left (fun r _ => hg r))

/-- A state foreign to every copy never occurs in the flattened copy block. -/
theorem count_flatten_copies_zero (c L : ℕ) (t : RState)
    (h : ∀ i r, t ≠ .I i (.rep r) ∧ t ≠ .M i (.rep r) ∧ t ≠ .D i (.rep r) ∧
      t ≠ .unitStart r ∧ t ≠ .unitEnd r) :
    (((List.range c).map (fun r => copyStates L r)).flatten).count t = 0 := by
  rw [count_flatten_copies c L t (fun _ => 0) (fun r' => count_copy_notRep L r' t h)]
  simp

/-- The named state `sfxStart` occurs exactly once among the read matcher's states. -/
theorem count_states_sfxStart (c L F R : ℕ) :
    (readMatcherStates c L F R).count RState.sfxStart = 1 := by
  unfold readMatcherStates suffixStates repeatStates prefixStates
  simp only [List.count_append]
  rw [count_map_range_zero (fun i => RState.I i .suf) (F + 1) RState.sfxStart
        (fun i => by simp),
      count_map_range_zero (fun i => RState.M (i + 1) .suf) F RState.sfxStart
        (fun i => by simp),
      count_map_range_zero (fun i => RState.D (i + 1) .suf) F RState.sfxStart
        (fun i => by simp),
      count_flatten_copies_zero c L RState.sfxStart (fun i r => by simp),
      count_map_range_zero (fun i => RState.I i .pre) (R + 1) RState.sfxStart
        (fun i => by simp),
      count_map_range_zero (fun i => RState.M (i + 1) .pre) R RState.sfxStart
        (fun i => by simp),
      count_map_range_zero (fun i => RState.D (i + 1) .pre) R RState.sfxStart
        (fun i => by simp)]
  simp

/-- The named state `sfxEnd` occurs exactly once among the read matcher's states. -/
theorem count_states_sfxEnd (c L F R : ℕ) :
    (readMatcherStates c L F R).count RState.sfxEnd = 1 := by
  unfold readMatcherStates suffixStates repeatStates prefixStates
  simp only [List.count_append]
  rw [count_map_range_zero (fun i => RState.I i .suf) (F + 1) RState.sfxEnd
        (fun i => by simp),
      count_map_range_zero (fun i => RState.M (i + 1) .suf) F RState.sfxEnd
        (fun i => by simp),
      count_map_range_zero (fun i => RState.D (i + 1) .suf) F RState.sfxEnd
        (fun i => by simp),
      count_flatten_copies_zero c L RState.sfxEnd (fun i r => by simp),
      count_map_range_zero (fun i => RState.I i .pre) (R + 1) RState.sfxEnd
        (fun i => by simp),
      count_map_range_zero (fun i => RState.M (i + 1) .pre) R RState.sfxEnd
        (fun i => by simp),
      count_map_range_zero (fun i => RState.D (i + 1) .pre) R RState.sfxEnd
        (fun i => by simp)]
  simp

/-- The named state `suffModelStart` occurs exactly once among the read matcher's states. -/
theorem count_states_suffModelStart (c L F R : ℕ) :
    (readMatcherStates c L F R).count RState.suffModelStart = 1 := by
  unfold readMatcherStates suffixStates repeatStates prefixStates
  simp only [List.count_append]
  rw [count_map_range_zero (fun i => RState.I i .suf) (F + 1) RState.suffModelStart
        (fun i => by simp),
      count_map_range_zero (fun i => RState.M (i + 1) .suf) F RState.suffModelStart
        (fun i => by simp),
      count_map_range_zero (fun i => RState.D (i + 1) .suf) F RState.suffModelStart
        (fun i => by simp),
      count_flatten_copies_zero c L RState.suffModelStart (fun i r => by simp),
      count_map_range_zero (fun i => RState.I i .pre) (R + 1) RState.suffModelStart
        (fun i => by simp),
      count_map_range_zero (fun i => RState.M (i + 1) .pre) R RState.suffModelStart
        (fun i => by simp),
      count_map_range_zero (fun i => RState.D (i + 1) .pre) R RState.suffModelStart
        (fun i => by simp)]
  simp

/-- The named state `suffModelEnd` occurs exactly once among the read matcher's states. -/
theorem count_states_suffModelEnd (c L F R : ℕ) :
    (readMatcherStates c L F R).count RState.suffModelEnd = 1 := by
  unfold readMatcherStates suffixStates repeatStates prefixStates
  simp only [List.count_append]
  rw [count_map_range_zero (fun i => RState.I i .suf) (F + 1) RState.suffModelEnd
        (fun i => by simp),
      count_map_range_zero (fun i => RState.M (i + 1) .suf) F RState.suffModelEnd
        (fun i => by simp),
      count_map_range_zero (fun i => RState.D (i + 1) .suf) F RState.suffModelEnd
        (fun i => by simp),
      count_flatten_copies_zero c L RState.suffModelEnd (fun i r => by simp),
      count_map_range_zero (fun i => RState.I i .pre) (R + 1) RState.suffModelEnd
        (fun i => by simp),
      count_map_range_zero (fun i => RState.M (i + 1) .pre) R RState.suffModelEnd
        (fun i => by simp),
      count_map_range_zero (fun i => RState.D (i + 1) .pre) R RState.suffModelEnd
        (fun i => by simp)]
  simp

/-- The named state `repModelStart` occurs exactly once among the read matcher's states. -/
theorem count_states_repModelStart (c L F R : ℕ) :
    (readMatcherStates c L F R).count RState.repModelStart = 1 := by
  unfold readMatcherStates suffixStates repeatStates prefixStates
  simp only [List.count_append]
  rw [count_map_range_zero (fun i => RState.I i .suf) (F + 1) RState.repModelStart
        (fun i => by simp),
      count_map_range_zero (fun i => RState.M (i + 1) .suf) F RState.repModelStart
        (fun i => by simp),
      count_map_range_zero (fun i => RState.D (i + 1) .suf) F RState.repModelStart
        (fun i => by simp),
      count_flatten_copies_zero c L RState.repModelStart (fun i r => by simp),
      count_map_range_zero (fun i => RState.I i .pre) (R + 1) RState.repModelStart
        (fun i => by simp),
      count_map_range_zero (fun i => RState.M (i + 1) .pre) R RState.repModelStart
        (fun i => by simp),
      count_map_range_zero (fun i => RState.D (i + 1) .pre) R RState.repModelStart
        (fun i => by simp)]
  simp

/-- The named state `startRepeating` occurs exactly once among the read matcher's states. -/
theorem count_states_startRepeating (c L F R : ℕ) :
    (readMatcherStates c L F R).count RState.startRepeating = 1 := by
  unfold readMatcherStates suffixStates repeatStates prefixStates
  simp only [List.count_append]
  rw [count_map_range_zero (fun i => RState.I i .suf) (F + 1) RState.startRepeating
        (fun i => by simp),
      count_map_range_zero (fun i => RState.M (i + 1) .suf) F RState.startRepeating
        (fun i => by simp),
      count_map_range_zero (fun i => RState.D (i + 1) .suf) F RState.startRepeating
        (fun i => by simp),
      count_flatten_copies_zero c L RState.startRepeating (fun i r => by simp),
      count_map_range_zero (fun i => RState.I i .pre) (R + 1) RState.startRepeating
        (fun i => by simp),
      count_map_range_zero (fun i => RState.M (i + 1) .pre) R RState.startRepeating
        (fun i => by simp),
      count_map_range_zero (fun i => RState.D (i + 1) .pre) R RState.startRepeating
        (fun i => by simp)]
  simp

/-- The named state `endRepeating` occurs exactly once among the read matcher's states. -/
theorem count_states_endRepeating (c L F R : ℕ) :
    (readMatcherStates c L F R).count RState.endRepeating = 1 := by
  unfold readMatcherStates suffixStates repeatStates prefixStates
  simp only [List.count_append]
  rw [count_map_range_zero (fun i => RState.I i .suf) (F + 1) RState.endRepeating
        (fun i => by simp),
      count_map_range_zero (fun i => RState.M (i + 1) .suf) F RState.endRepeating
        (fun i => by simp),
      count_map_range_zero (fun i => RState.D (i + 1) .suf) F RState.endRepeating
        (fun i => by simp),
      count_flatten_copies_zero c L RState.endRepeating (fun i r => by simp),
      count_map_range_zero (fun i => RState.I i .pre) (R + 1) RState.endRepeating
        (fun i => by simp),
      count_map_range_zero (fun i => RState.M (i + 1) .pre) R RState.endRepeating
        (fun i => by simp),
      count_map_range_zero (fun i => RState.D (i + 1) .pre) R RState.endRepeating
        (fun i => by simp)]
  simp

/-- The named state `repModelEnd` occurs exactly once among the read matcher's states. -/
theorem count_states_repModelEnd (c L F R : ℕ) :
    (readMatcherStates c L F R).count RState.repModelEnd = 1 := by
  unfold readMatcherStates suffixStates repeatStates prefixStates
  simp only [List.count_append]
  rw [count_map_range_zero (fun i => RState.I i .suf) (F + 1) RState.repModelEnd
        (fun i => by simp),
      count_map_range_zero (fun i => RState.M (i + 1) .suf) F RState.repModelEnd
        (fun i => by simp),
      count_map_range_zero (fun i => RState.D (i + 1) .suf) F RState.repModelEnd
        (fun i => by simp),
      count_flatten_copies_zero c L RState.repModelEnd (fun i r => by simp),
      count_map_range_zero (fun i => RState.I i .pre) (R + 1) RState.repModelEnd
        (fun i => by simp),
      count_map_range_zero (fun i => RState.M (i + 1) .pre) R RState.repModelEnd
        (fun i => by simp),
      count_map_range_zero (fun i => RState.D (i + 1) .pre) R RState.repModelEnd
        (fun i => by simp)]
  simp

/-- The named state `preModelStart` occurs exactly once among the read matcher's states. -/
theorem count_states_preModelStart (c L F R : ℕ) :
    (readMatcherStates c L F R).count RState.preModelStart = 1 := by
  unfold readMatcherStates suffixStates repeatStates prefixStates
  simp only [List.count_append]
  rw [count_map_range_zero (fun i => RState.I i .suf) (F + 1) RState.preModelStart
        (fun i => by simp),
      count_map_range_zero (fun i => RState.M (i + 1) .suf) F RState.preModelStart
        (fun i => by simp),
      count_map_range_zero (fun i => RState.D (i + 1) .suf) F RState.preModelStart
        (fun i => by simp),
      count_flatten_copies_zero c L RState.preModelStart (fun i r => by simp),
      count_map_range_zero (fun i => RState.I i .pre) (R + 1) RState.preModelStart
        (fun i => by simp),
      count_map_range_zero (fun i => RState.M (i + 1) .pre) R RState.preModelStart
        (fun i => by simp),
      count_map_range_zero (fun i => RState.D (i + 1) .pre) R RState.preModelStart
        (fun i => by simp)]
  simp

/-- The named state `pfxStart` occurs exactly once among the read matcher's states. -/
theorem count_states_pfxStart (c L F R : ℕ) :
    (readMatcherStates c L F R).count RState.pfxStart = 1 := by
  unfold readMatcherStates suffixStates repeatStates prefixStates
  simp only [List.count_append]
  rw [count_map_range_zero (fun i => RState.I i .suf) (F + 1) RState.pfxStart
        (fun i => by simp),
      count_map_range_zero (fun i => RState.M (i + 1) .suf) F RState.pfxStart
        (fun i => by simp),
      count_map_range_zero (fun i => RState.D (i + 1) .suf) F RState.pfxStart
        (fun i => by simp),
      count_flatten_copies_zero c L RState.pfxStart (fun i r => by simp),
      count_map_range_zero (fun i => RState.I i .pre) (R + 1) RState.pfxStart
        (fun i => by simp),
      count_map_range_zero (fun i => RState.M (i + 1) .pre) R RState.pfxStart
        (fun i => by simp),
      count_map_range_zero (fun i => RState.D (i + 1) .pre) R RState.pfxStart
        (fun i => by simp)]
  simp

/-- The named state `pfxEnd` occurs exactly once among the read matcher's states. -/
theorem count_states_pfxEnd (c L F R : ℕ) :
    (readMatcherStates c L F R).count RState.pfxEnd = 1 := by
  unfold readMatcherStates suffixStates repeatStates prefixStates
  simp only [List.count_append]
  rw [count_map_range_zero (fun i => RState.I i .suf) (F + 1) RState.pfxEnd
        (fun i => by simp),
      count_map_range_zero (fun i => RState.M (i + 1) .suf) F RState.pfxEnd
        (fun i => by simp),
      count_map_range_zero (fun i => RState.D (i + 1) .suf) F RState.pfxEnd
        (fun i => by simp),
      count_flatten_copies_zero c L RState.pfxEnd (fun i r => by simp),
      count_map_range_zero (fun i => RState.I i .pre) (R + 1) RState.pfxEnd
        (fun i => by simp),
      count_map_range_zero (fun i => RState.M (i + 1) .pre) R RState.pfxEnd
        (fun i => by simp),
      count_map_range_zero (fun i => RState.D (i + 1) .pre) R RState.pfxEnd
        (fun i => by simp)]
  simp

/-- The named state `preModelEnd` occurs exactly once among the read matcher's states. -/
theorem count_states_preModelEnd (c L F R : ℕ) :
    (readMatcherStates c L F R).count RState.preModelEnd = 1 := by
  unfold readMatcherStates suffixStates repeatStates prefixStates
  simp only [List.count_append]
  rw [count_map_range_zero (fun i => RState.I i .suf) (F + 1) RState.preModelEnd
        (fun i => by simp),
      count_map_range_zero (fun i => RState.M (i + 1) .suf) F RState.preModelEnd
        (fun i => by simp),
      count_map_range_zero (fun i => RState.D (i + 1) .suf) F RState.preModelEnd
        (fun i => by simp),
      count_flatten_copies_zero c L RState.preModelEnd (fun i r => by simp),
      count_map_range_zero (fun i => RState.I i .pre) (R + 1) RState.preModelEnd
        (fun i => by simp),
      count_map_range_zero (fun i => RState.M (i + 1) .pre) R RState.preModelEnd
        (fun i => by simp),
      count_map_range_zero (fun i => RState.D (i + 1) .pre) R RState.preModelEnd
        (fun i => by simp)]
  simp



/-- Multiplicity of a suffix insert state in the read matcher's state list. -/
theorem count_states_I_suf (c L F R j : ℕ) :
    (readMatcherStates c L F R).count (RState.I j .suf) = if j < F + 1 then 1 else 0 := by
  unfold readMatcherStates suffixStates repeatStates prefixStates
  simp only [List.count_append]
  rw [count_map_range (fun i => RState.I i .suf) (fun a b hab => by simpa using hab)
        (F + 1) j _ rfl,
      count_map_range_zero (fun i => RState.M (i + 1) .suf) F (RState.I j .suf)
        (fun i => by simp),
      count_map_range_zero (fun i => RState.D (i + 1) .suf) F (RState.I j .suf)
        (fun i => by simp),
      count_flatten_copies_zero c L (RState.I j .suf) (fun i r => by simp),
      count_map_range_zero (fun i => RState.I i .pre) (R + 1) (RState.I j .suf)
        (fun i => by simp),
      count_map_range_zero (fun i => RState.M (i + 1) .pre) R (RState.I j .suf)
        (fun i => by simp),
      count_map_range_zero (fun i => RState.D (i + 1) .pre) R (RState.I j .suf)
        (fun i => by simp)]
  simp

/-- Multiplicity of a suffix match state in the read matcher's state list. -/
theorem count_states_M_suf (c L F R j : ℕ) :
    (readMatcherStates c L F R).count (RState.M j .suf) = if 1 ≤ j ∧ j ≤ F then 1 else 0 := by
  unfold readMatcherStates suffixStates repeatStates prefixStates
  simp only [List.count_append]
  rw [count_map_range_zero (fun i => RState.I i .suf) (F + 1) (RState.M j .suf)
        (fun i => by simp),
      count_map_range_zero (fun i => RState.D (i + 1) .suf) F (RState.M j .suf)
        (fun i => by simp),
      count_flatten_copies_zero c L (RState.M j .suf) (fun i r => by simp),
      count_map_range_zero (fun i => RState.I i .pre) (R + 1) (RState.M j .suf)
        (fun i => by simp),
      count_map_range_zero (fun i => RState.M (i + 1) .pre) R (RState.M j .suf)
        (fun i => by simp),
      count_map_range_zero (fun i => RState.D (i + 1) .pre) R (RState.M j .suf)
        (fun i => by simp)]
  cases j with
  | zero =>
    rw [count_map_range_zero (fun i => RState.M (i + 1) .suf) F (RState.M 0 .suf)
      (fun i => by simp)]
    simp
  | succ m =>
    rw [count_map_range (fun i => RState.M (i + 1) .suf) (fun a b hab => by simpa using hab)
      F m _ rfl]
    simp
    split_ifs <;> omega

/-- Multiplicity of a suffix delete state in the read matcher's state list. -/
theorem count_states_D_suf (c L F R j : ℕ) :
    (readMatcherStates c L F R).count (RState.D j .suf) = if 1 ≤ j ∧ j ≤ F then 1 else 0 := by
  unfold readMatcherStates suffixStates repeatStates prefixStates
  simp only [List.count_append]
  rw [count_map_range_zero (fun i => RState.I i .suf) (F + 1) (RState.D j .suf)
        (fun i => by simp),
      count_map_range_zero (fun i => RState.M (i + 1) .suf) F (RState.D j .suf)
        (fun i => by simp),
      count_flatten_copies_zero c L (RState.D j .suf) (fun i r => by simp),
      count_map_range_zero (fun i => RState.I i .pre) (R + 1) (RState.D j .suf)
        (fun i => by simp),
      count_map_range_zero (fun i => RState.M (i + 1) .pre) R (RState.D j .suf)
        (fun i => by simp),
      count_map_range_zero (fun i => RState.D (i + 1) .pre) R (RState.D j .suf)
        (fun i => by simp)]
  cases j with
  | zero =>
    rw [count_map_range_zero (fun i => RState.D (i + 1) .suf) F (RState.D 0 .suf)
      (fun i => by simp)]
    simp
  | succ m =>
    rw [count_map_range (fun i => RState.D (i + 1) .suf) (fun a b hab => by simpa using hab)
      F m _ rfl]
    simp
    split_ifs <;> omega

/-- Multiplicity of a prefix insert state in the read matcher's state list. -/
theorem count_states_I_pre (c L F R j : ℕ) :
    (readMatcherStates c L F R).count (RState.I j .pre) = if j < R + 1 then 1 else 0 := by
  unfold readMatcherStates suffixStates repeatStates prefixStates
  simp only [List.count_append]
  rw [count_map_range_zero (fun i => RState.I i .suf) (F + 1) (RState.I j .pre)
        (fun i => by simp),
      count_map_range_zero (fun i => RState.M (i + 1) .suf) F (RState.I j .pre)
        (fun i => by simp),
      count_map_range_zero (fun i => RState.D (i + 1) .suf) F (RState.I j .pre)
        (fun i => by simp),
      count_flatten_copies_zero c L (RState.I j .pre) (fun i r => by simp),
      count_map_range (fun i => RState.I i .pre) (fun a b hab => by simpa using hab)
        (R + 1) j _ rfl,
      count_map_range_zero (fun i => RState.M (i + 1) .pre) R (RState.I j .pre)
        (fun i => by simp),
      count_map_range_zero (fun i => RState.D (i + 1) .pre) R (RState.I j .pre)
        (fun i => by simp)]
  simp

/-- Multiplicity of a prefix match state in the read matcher's state list. -/
theorem count_states_M_pre (c L F R j : ℕ) :
    (readMatcherStates c L F R).count (RState.M j .pre) = if 1 ≤ j ∧ j ≤ R then 1 else 0 := by
  unfold readMatcherStates suffixStates repeatStates prefixStates
  simp only [List.count_append]
  rw [count_map_range_zero (fun i => RState.I i .suf) (F + 1) (RState.M j .pre)
        (fun i => by simp),
      count_map_range_zero (fun i => RState.M (i + 1) .suf) F (RState.M j .pre)
        (fun i => by simp),
      count_map_range_zero (fun i => RState.D (i + 1) .suf) F (RState.M j .pre)
        (fun i => by simp),
      count_flatten_copies_zero c L (RState.M j .pre) (fun i r => by simp),
      count_map_range_zero (fun i => RState.I i .pre) (R + 1) (RState.M j .pre)
        (fun i => by simp),
      count_map_range_zero (fun i => RState.D (i + 1) .pre) R (RState.M j .pre)
        (fun i => by simp)]
  cases j with
  | zero =>
    rw [count_map_range_zero (fun i => RState.M (i + 1) .pre) R (RState.M 0 .pre)
      (fun i => by simp)]
    simp
  | succ m =>
    rw [count_map_range (fun i => RState.M (i + 1) .pre) (fun a b hab => by simpa using hab)
      R m _ rfl]
    simp
    split_ifs <;> omega

/-- Multiplicity of a prefix delete state in the read matcher's state list. -/
theorem count_states_D_pre (c L F R j : ℕ) :
    (readMatcherStates c L F R).count (RState.D j .pre) = if 1 ≤ j ∧ j ≤ R then 1 else 0 := by
  unfold readMatcherStates suffixStates repeatStates prefixStates
  simp only [List.count_append]
  rw [count_map_range_zero (fun i => RState.I i .suf) (F + 1) (RState.D j .pre)
        (fun i => by simp),
      count_map_range_zero (fun i => RState.M (i + 1) .suf) F (RState.D j .pre)
        (fun i => by simp),
      count_map_range_zero (fun i => RState.D (i + 1) .suf) F (RState.D j .pre)
        (fun i => by simp),
      count_flatten_copies_zero c L (RState.D j .pre) (fun i r => by simp),
      count_map_range_zero (fun i => RState.I i .pre) (R + 1) (RState.D j .pre)
        (fun i => by simp),
      count_map_range_zero (fun i => RState.M (i + 1) .pre) R (RState.D j .pre)
        (fun i => by simp)]
  cases j with
  | zero =>
    rw [count_map_range_zero (fun i => RState.D (i + 1) .pre) R (RState.D 0 .pre)
      (fun i => by simp)]
    simp
  | succ m =>
    rw [count_map_range (fun i => RState.D (i + 1) .pre) (fun a b hab => by simpa using hab)
      R m _ rfl]
    simp
    split_ifs <;> omega

/-- Multiplicity of a repeat insert state in the read matcher's state list. -/
theorem count_states_I_rep (c L F R r j : ℕ) :
    (readMatcherStates c L F R).count (RState.I j (.rep r)) =
      if r < c ∧ j < L + 1 then 1 else 0 := by
  unfold readMatcherStates suffixStates repeatStates prefixStates
  simp only [List.count_append]
  rw [count_map_range_zero (fun i => RState.I i .suf) (F + 1) (RState.I j (.rep r))
        (fun i => by simp),
      count_map_range_zero (fun i => RState.M (i + 1) .suf) F (RState.I j (.rep r))
        (fun i => by simp),
      count_map_range_zero (fun i => RState.D (i + 1) .suf) F (RState.I j (.rep r))
        (fun i => by simp),
      count_flatten_copies c L (RState.I j (.rep r))
        (fun q => if q = r ∧ j < L + 1 then 1 else 0) (fun q => count_copy_I L r q j),
      sum_range_ite_and c r (j < L + 1),
      count_map_range_zero (fun i => RState.I i .pre) (R + 1) (RState.I j (.rep r))
        (fun i => by simp),
      count_map_range_zero (fun i => RState.M (i + 1) .pre) R (RState.I j (.rep r))
        (fun i => by simp),
      count_map_range_zero (fun i => RState.D (i + 1) .pre) R (RState.I j (.rep r))
        (fun i => by simp)]
  simp

/-- Multiplicity of a repeat match state in the read matcher's state list. -/
theorem count_states_M_rep (c L F R r j : ℕ) :
    (readMatcherStates c L F R).count (RState.M j (.rep r)) =
      if r < c ∧ 1 ≤ j ∧ j ≤ L then 1 else 0 := by
  unfold readMatcherStates suffixStates repeatStates prefixStates
  simp only [List.count_append]
  rw [count_map_range_zero (fun i => RState.I i .suf) (F + 1) (RState.M j (.rep r))
        (fun i => by simp),
      count_map_range_zero (fun i => RState.M (i + 1) .suf) F (RState.M j (.rep r))
        (fun i => by simp),
      count_map_range_zero (fun i => RState.D (i + 1) .suf) F (RState.M j (.rep r))
        (fun i => by simp),
      count_flatten_copies c L (RState.M j (.rep r))
        (fun q => if q = r ∧ 1 ≤ j ∧ j ≤ L then 1 else 0) (fun q => count_copy_M L r q j),
      sum_range_ite_and c r (1 ≤ j ∧ j ≤ L),
      count_map_range_zero (fun i => RState.I i .pre) (R + 1) (RState.M j (.rep r))
        (fun i => by simp),
      count_map_range_zero (fun i => RState.M (i + 1) .pre) R (RState.M j (.rep r))
        (fun i => by simp),
      count_map_range_zero (fun i => RState.D (i + 1) .pre) R (RState.M j (.rep r))
        (fun i => by simp)]
  simp

/-- Multiplicity of a repeat delete state in the read matcher's state list. -/
theorem count_states_D_rep (c L F R r j : ℕ) :
    (readMatcherStates c L F R).count (RState.D j (.rep r)) =
      if r < c ∧ 1 ≤ j ∧ j ≤ L then 1 else 0 := by
  unfold readMatcherStates suffixStates repeatStates prefixStates
  simp only [List.count_append]
  rw [count_map_range_zero (fun i => RState.I i .suf) (F + 1) (RState.D j (.rep r))
        (fun i => by simp),
      count_map_range_zero (fun i => RState.M (i + 1) .suf) F (RState.D j (.rep r))
        (fun i => by simp),
      count_map_range_zero (fun i => RState.D (i + 1) .suf) F (RState.D j (.rep r))
        (fun i => by simp),
      count_flatten_copies c L (RState.D j (.rep r))
        (fun q => if q = r ∧ 1 ≤ j ∧ j ≤ L then 1 else 0) (fun q => count_copy_D L r q j),
      sum_range_ite_and c r (1 ≤ j ∧ j ≤ L),
      count_map_range_zero (fun i => RState.I i .pre) (R + 1) (RState.D j (.rep r))
        (fun i => by simp),
      count_map_range_zero (fun i => RState.M (i + 1) .pre) R (RState.D j (.rep r))
        (fun i => by simp),
      count_map_range_zero (fun i => RState.D (i + 1) .pre) R (RState.D j (.rep r))
        (fun i => by simp)]
  simp

/-- Multiplicity of a `unitStart` gateway in the read matcher's state list. -/
theorem count_states_unitStart (c L F R r : ℕ) :
    (readMatcherStates c L F R).count (RState.unitStart r) = if r < c then 1 else 0 := by
  unfold readMatcherStates suffixStates repeatStates prefixStates
  simp only [List.count_append]
  rw [count_map_range_zero (fun i => RState.I i .suf) (F + 1) (RState.unitStart r)
        (fun i => by simp),
      count_map_range_zero (fun i => RState.M (i + 1) .suf) F (RState.unitStart r)
        (fun i => by simp),
      count_map_range_zero (fun i => RState.D (i + 1) .suf) F (RState.unitStart r)
        (fun i => by simp),
      count_flatten_copies c L (RState.unitStart r)
        (fun q => if q = r then 1 else 0) (fun q => count_copy_unitStart L r q),
      sum_range_ite_eq c r,
      count_map_range_zero (fun i => RState.I i .pre) (R + 1) (RState.unitStart r)
        (fun i => by simp),
      count_map_range_zero (fun i => RState.M (i + 1) .pre) R (RState.unitStart r)
        (fun i => by simp),
      count_map_range_zero (fun i => RState.D (i + 1) .pre) R (RState.unitStart r)
        (fun i => by simp)]
  simp

/-- Multiplicity of a `unitEnd` gateway in the read matcher's state list. -/
theorem count_states_unitEnd (c L F R r : ℕ) :
    (readMatcherStates c L F R).count (RState.unitEnd r) = if r < c then 1 else 0 := by
  unfold readMatcherStates suffixStates repeatStates prefixStates
  simp only [List.count_append]
  rw [count_map_range_zero (fun i => RState.I i .suf) (F + 1) (RState.unitEnd r)
        (fun i => by simp),
      count_map_range_zero (fun i => RState.M (i + 1) .suf) F (RState.unitEnd r)
        (fun i => by simp),
      count_map_range_zero (fun i => RState.D (i + 1) .suf) F (RState.unitEnd r)
        (fun i => by simp),
      count_flatten_copies c L (RState.unitEnd r)
        (fun q => if q = r then 1 else 0) (fun q => count_copy_unitEnd L r q),
      sum_range_ite_eq c r,
      count_map_range_zero (fun i => RState.I i .pre) (R + 1) (RState.unitEnd r)
        (fun i => by simp),
      count_map_range_zero (fun i => RState.M (i + 1) .pre) R (RState.unitEnd r)
        (fun i => by simp),
      count_map_range_zero (fun i => RState.D (i + 1) .pre) R (RState.unitEnd r)
        (fun i => by simp)]
  simp

/-- The fan-in spread vanishes on every repeat-copy state. -/
theorem sfxSpread_copy_zero (F L r' : ℕ) (t : RState) (h : t ∈ copyStates L r') :
    sfxSpread F t = 0 := by
  unfold copyStates at h
  rcases List.mem_append.mp h with h | h
  · rcases List.mem_append.mp h with h | h
    · rcases List.mem_append.mp h with h | h
      · obtain ⟨i, _, rfl⟩ := List.mem_map.mp h
        rfl
      · obtain ⟨i, _, rfl⟩ := List.mem_map.mp h
        rfl
    · obtain ⟨i, _, rfl⟩ := List.mem_map.mp h
      rfl
  · rcases List.mem_cons.mp h with rfl | h
    · rfl
    · rw [List.mem_singleton.mp h]
      rfl

/-- The suffix fan-in weights over the whole state list sum to the probability
mass they spread (hmm_utils.py lines 388-389 put `(1 - insert_error -
delete_error) / len(pattern)` on each of the `F` suffix match columns). -/
theorem sum_sfxSpread (c L F R : ℕ) (hF : 1 ≤ F) :
    ((readMatcherStates c L F R).map (sfxSpread F)).sum =
      1 - insertError - deleteError := by
  have hF' : (F : ℚ) ≠ 0 := Nat.cast_ne_zero.mpr (by omega)
  unfold readMatcherStates suffixStates repeatStates prefixStates
  simp only [List.map_append, List.sum_append]
  rw [sum_map_zeroQ [RState.suffModelStart] _ (by intro t ht; rw [List.mem_singleton.mp ht]; rfl),
    sum_map_zeroQ ((List.range (F + 1)).map (fun i => RState.I i .suf)) _
      (by intro t ht; obtain ⟨i, _, rfl⟩ := List.mem_map.mp ht; rfl),
    sum_map_zeroQ ((List.range F).map (fun i => RState.D (i + 1) .suf)) _
      (by intro t ht; obtain ⟨i, _, rfl⟩ := List.mem_map.mp ht; rfl),
    sum_map_zeroQ [RState.sfxStart, RState.sfxEnd, RState.suffModelEnd] _
      (by intro t ht
          rcases List.mem_cons.mp ht with rfl | ht
          · rfl
          rcases List.mem_cons.mp ht with rfl | ht
          · rfl
          rw [List.mem_singleton.mp ht]
          rfl),
    sum_map_zeroQ [RState.repModelStart] _ (by intro t ht; rw [List.mem_singleton.mp ht]; rfl),
    sum_map_zeroQ (((List.range c).map (fun r => copyStates L r)).flatten) _
      (by intro t ht
          obtain ⟨l, hl, hmem⟩ := List.mem_flatten.mp ht
          obtain ⟨r', _, rfl⟩ := List.mem_map.mp hl
          exact sfxSpread_copy_zero F L r' t hmem),
    sum_map_zeroQ [RState.startRepeating, RState.endRepeating, RState.repModelEnd] _
      (by intro t ht
          rcases List.mem_cons.mp ht with rfl | ht
          · rfl
          rcases List.mem_cons.mp ht with rfl | ht
          · rfl
          rw [List.mem_singleton.mp ht]
          rfl),
    sum_map_zeroQ [RState.preModelStart] _ (by intro t ht; rw [List.mem_singleton.mp ht]; rfl),
    sum_map_zeroQ ((List.range (R + 1)).map (fun i => RState.I i .pre)) _
      (by intro t ht; obtain ⟨i, _, rfl⟩ := List.mem_map.mp ht; rfl),
    sum_map_zeroQ ((List.range R).map (fun i => RState.M (i + 1) .pre)) _
      (by intro t ht; obtain ⟨i, _, rfl⟩ := List.mem_map.mp ht; rfl),
    sum_map_zeroQ ((List.range R).map (fun i => RState.D (i + 1) .pre)) _
      (by intro t ht; obtain ⟨i, _, rfl⟩ := List.mem_map.mp ht; rfl),
    sum_map_zeroQ [RState.pfxStart, RState.pfxEnd, RState.preModelEnd] _
      (by intro t ht
          rcases List.mem_cons.mp ht with rfl | ht
          · rfl
          rcases List.mem_cons.mp ht with rfl | ht
          · rfl
          rw [List.mem_singleton.mp ht]
          rfl),
    List.map_map,
    List.map_congr_left (by
      intro i hi
      have hred : sfxSpread F (RState.M (i + 1) .suf) =
          if 1 ≤ i + 1 ∧ i + 1 ≤ F then (1 - insertError - deleteError) / (F : ℚ) else 0 := rfl
      rw [Function.comp_apply, hred, if_pos ⟨by omega, List.mem_range.mp hi⟩]),
    List.map_const', List.sum_replicate, List.length_range, nsmul_eq_mul]
  field_simp

/-- Row with two `add_transition` targets. -/
theorem sum_map_ind2 (l : List RState) (a₁ a₂ : RState) (w₁ w₂ : ℚ) :
    (l.map (fun t => ind t a₁ w₁ + ind t a₂ w₂)).sum =
      w₁ * (l.count a₁ : ℚ) + w₂ * (l.count a₂ : ℚ) := by
  rw [sum_map_addQ l (fun t => ind t a₁ w₁) (fun t => ind t a₂ w₂), sum_map_ind, sum_map_ind]

/-- Row with three `add_transition` targets. -/
theorem sum_map_ind3 (l : List RState) (a₁ a₂ a₃ : RState) (w₁ w₂ w₃ : ℚ) :
    (l.map (fun t => ind t a₁ w₁ + ind t a₂ w₂ + ind t a₃ w₃)).sum =
      w₁ * (l.count a₁ : ℚ) + w₂ * (l.count a₂ : ℚ) + w₃ * (l.count a₃ : ℚ) := by
  rw [sum_map_addQ l (fun t => ind t a₁ w₁ + ind t a₂ w₂) (fun t => ind t a₃ w₃),
    sum_map_ind2, sum_map_ind]

/-- Row with four `add_transition` targets. -/
theorem sum_map_ind4 (l : List RState) (a₁ a₂ a₃ a₄ : RState) (w₁ w₂ w₃ w₄ : ℚ) :
    (l.map (fun t => ind t a₁ w₁ + ind t a₂ w₂ + ind t a₃ w₃ + ind t a₄ w₄)).sum =
      w₁ * (l.count a₁ : ℚ) + w₂ * (l.count a₂ : ℚ) + w₃ * (l.count a₃ : ℚ) +
        w₄ * (l.count a₄ : ℚ) := by
  rw [sum_map_addQ l (fun t => ind t a₁ w₁ + ind t a₂ w₂ + ind t a₃ w₃)
    (fun t => ind t a₄ w₄), sum_map_ind3, sum_map_ind]

/-- Row with two `add_transition` targets plus the suffix fan-in spread. -/
theorem sum_map_ind2_spread (c L F R : ℕ) (a₁ a₂ : RState) (w₁ w₂ : ℚ) (hF : 1 ≤ F) :
    ((readMatcherStates c L F R).map
      (fun t => ind t a₁ w₁ + ind t a₂ w₂ + sfxSpread F t)).sum =
      w₁ * ((readMatcherStates c L F R).count a₁ : ℚ) +
        w₂ * ((readMatcherStates c L F R).count a₂ : ℚ) +
        (1 - insertError - deleteError) := by
  rw [sum_map_addQ _ (fun t => ind t a₁ w₁ + ind t a₂ w₂) (sfxSpread F),
    sum_map_ind2, sum_sfxSpread c L F R hF]

/-- Out-probabilities of `suffix_start_suffix` in the concatenated model sum
to one. -/
theorem concatRow_sfxStart (c L F R : ℕ) (hF : 1 ≤ F) :
    ((readMatcherStates c L F R).map (concatTrans c L F R .sfxStart)).sum = 1 := by
  have h0 : (readMatcherStates c L F R).map (concatTrans c L F R .sfxStart) =
      (readMatcherStates c L F R).map (fun t =>
        ind t (.D 1 .suf) deleteError + ind t (.I 0 .suf) insertError + sfxSpread F t) := rfl
  rw [h0, sum_map_ind2_spread c L F R _ _ _ _ hF]
  simp only [count_states_D_suf, count_states_I_suf]
  norm_num [hF, insertError, deleteError, MAX_ERROR_RATE]

/-- Out-probabilities of a suffix match state in the concatenated model sum
to one. -/
theorem concatRow_M_suf (c L F R i : ℕ) (h1 : 1 ≤ i) (h2 : i ≤ F) :
    ((readMatcherStates c L F R).map (concatTrans c L F R (.M i .suf))).sum = 1 := by
  by_cases hiF : i = F
  · have h0 : (readMatcherStates c L F R).map (concatTrans c L F R (.M i .suf)) =
        (readMatcherStates c L F R).map (fun t =>
          if i = F then ind t .sfxEnd (1 - insertError) + ind t (.I F .suf) insertError
          else ind t (.I i .suf) insertError +
            ind t (.M (i + 1) .suf) (1 - insertError - deleteError) +
            ind t (.D (i + 1) .suf) deleteError) := rfl
    rw [h0]
    simp only [if_pos hiF]
    rw [sum_map_ind2]
    simp only [count_states_sfxEnd, count_states_I_suf]
    norm_num [insertError, MAX_ERROR_RATE]
  · have hi3 : i + 1 ≤ F := by omega
    have h0 : (readMatcherStates c L F R).map (concatTrans c L F R (.M i .suf)) =
        (readMatcherStates c L F R).map (fun t =>
          if i = F then ind t .sfxEnd (1 - insertError) + ind t (.I F .suf) insertError
          else ind t (.I i .suf) insertError +
            ind t (.M (i + 1) .suf) (1 - insertError - deleteError) +
            ind t (.D (i + 1) .suf) deleteError) := rfl
    rw [h0]
    simp only [if_neg hiF]
    rw [sum_map_ind3]
    simp only [count_states_I_suf, count_states_M_suf, count_states_D_suf]
    norm_num [h2, hi3, Nat.lt_succ_of_le h2, insertError, deleteError, MAX_ERROR_RATE]

/-- Out-probabilities of `suffModelStart` in the concatenated model sum to one. -/
theorem concatRow_suffModelStart (c L F R : ℕ) :
    ((readMatcherStates c L F R).map (concatTrans c L F R RState.suffModelStart)).sum = 1 := by
  have h0 : (readMatcherStates c L F R).map (concatTrans c L F R RState.suffModelStart) =
      (readMatcherStates c L F R).map (fun t => ind t RState.sfxStart 1) := rfl
  rw [h0, sum_map_ind]
  simp only [count_states_sfxStart]
  norm_num

/-- Out-probabilities of `sfxEnd` in the concatenated model sum to one. -/
theorem concatRow_sfxEnd (c L F R : ℕ) :
    ((readMatcherStates c L F R).map (concatTrans c L F R RState.sfxEnd)).sum = 1 := by
  have h0 : (readMatcherStates c L F R).map (concatTrans c L F R RState.sfxEnd) =
      (readMatcherStates c L F R).map (fun t => ind t RState.suffModelEnd 1) := rfl
  rw [h0, sum_map_ind]
  simp only [count_states_suffModelEnd]
  norm_num

/-- Out-probabilities of `suffModelEnd` in the concatenated model sum to one. -/
theorem concatRow_suffModelEnd (c L F R : ℕ) :
    ((readMatcherStates c L F R).map (concatTrans c L F R RState.suffModelEnd)).sum = 1 := by
  have h0 : (readMatcherStates c L F R).map (concatTrans c L F R RState.suffModelEnd) =
      (readMatcherStates c L F R).map (fun t => ind t RState.repModelStart 1) := rfl
  rw [h0, sum_map_ind]
  simp only [count_states_repModelStart]
  norm_num

/-- Out-probabilities of `repModelStart` in the concatenated model sum to one. -/
theorem concatRow_repModelStart (c L F R : ℕ) :
    ((readMatcherStates c L F R).map (concatTrans c L F R RState.repModelStart)).sum = 1 := by
  have h0 : (readMatcherStates c L F R).map (concatTrans c L F R RState.repModelStart) =
      (readMatcherStates c L F R).map (fun t => ind t RState.startRepeating 1) := rfl
  rw [h0, sum_map_ind]
  simp only [count_states_startRepeating]
  norm_num

/-- Out-probabilities of `startRepeating` in the concatenated model sum to one. -/
theorem concatRow_startRepeating (c L F R : ℕ) (hc : 1 ≤ c) :
    ((readMatcherStates c L F R).map (concatTrans c L F R RState.startRepeating)).sum = 1 := by
  have h0 : (readMatcherStates c L F R).map (concatTrans c L F R RState.startRepeating) =
      (readMatcherStates c L F R).map (fun t => ind t (RState.unitStart 0) 1) := rfl
  rw [h0, sum_map_ind]
  simp only [count_states_unitStart]
  rw [if_pos (by omega : 0 < c)]
  norm_num

/-- Out-probabilities of `endRepeating` in the concatenated model sum to one. -/
theorem concatRow_endRepeating (c L F R : ℕ) :
    ((readMatcherStates c L F R).map (concatTrans c L F R RState.endRepeating)).sum = 1 := by
  have h0 : (readMatcherStates c L F R).map (concatTrans c L F R RState.endRepeating) =
      (readMatcherStates c L F R).map (fun t => ind t RState.repModelEnd 1) := rfl
  rw [h0, sum_map_ind]
  simp only [count_states_repModelEnd]
  norm_num

/-- Out-probabilities of `repModelEnd2` in the concatenated model sum to one. -/
theorem concatRow_repModelEnd2 (c L F R : ℕ) :
    ((readMatcherStates c L F R).map (concatTrans c L F R RState.repModelEnd)).sum = 1 := by
  have h0 : (readMatcherStates c L F R).map (concatTrans c L F R RState.repModelEnd) =
      (readMatcherStates c L F R).map (fun t => ind t RState.preModelStart 1) := rfl
  rw [h0, sum_map_ind]
  simp only [count_states_preModelStart]
  norm_num

/-- Out-probabilities of `preModelStart` in the concatenated model sum to one. -/
theorem concatRow_preModelStart (c L F R : ℕ) :
    ((readMatcherStates c L F R).map (concatTrans c L F R RState.preModelStart)).sum = 1 := by
  have h0 : (readMatcherStates c L F R).map (concatTrans c L F R RState.preModelStart) =
      (readMatcherStates c L F R).map (fun t => ind t RState.pfxStart 1) := rfl
  rw [h0, sum_map_ind]
  simp only [count_states_pfxStart]
  norm_num

/-- Out-probabilities of `pfxEnd` in the concatenated model sum to one. -/
theorem concatRow_pfxEnd (c L F R : ℕ) :
    ((readMatcherStates c L F R).map (concatTrans c L F R RState.pfxEnd)).sum = 1 := by
  have h0 : (readMatcherStates c L F R).map (concatTrans c L F R RState.pfxEnd) =
      (readMatcherStates c L F R).map (fun t => ind t RState.preModelEnd 1) := rfl
  rw [h0, sum_map_ind]
  simp only [count_states_preModelEnd]
  norm_num

/-- Out-probabilities of a suffix insert state in the concatenated model sum
to one. -/
theorem concatRow_I_suf (c L F R i : ℕ) (hi : i ≤ F) (hF : 1 ≤ F) :
    ((readMatcherStates c L F R).map (concatTrans c L F R (.I i .suf))).sum = 1 := by
  have h0 : (readMatcherStates c L F R).map (concatTrans c L F R (.I i .suf)) =
      (readMatcherStates c L F R).map (fun t =>
        if i = 0 then
          ind t (.I 0 .suf) insertError + ind t (.D 1 .suf) deleteError +
            ind t (.M 1 .suf) (1 - insertError - deleteError)
        else if i = F then
          ind t (.I F .suf) insertError + ind t .sfxEnd (1 - insertError)
        else
          ind t (.I i .suf) insertError +
            ind t (.M (i + 1) .suf) (1 - insertError - deleteError) +
            ind t (.D (i + 1) .suf) deleteError) := rfl
  rw [h0]
  by_cases hi0 : i = 0
  · simp only [if_pos hi0]
    rw [sum_map_ind3]
    simp only [count_states_I_suf, count_states_D_suf, count_states_M_suf]
    norm_num [hF, insertError, deleteError, MAX_ERROR_RATE]
  · by_cases hiF : i = F
    · simp only [if_neg hi0, if_pos hiF]
      rw [sum_map_ind2]
      simp only [count_states_I_suf, count_states_sfxEnd]
      norm_num [insertError, MAX_ERROR_RATE]
    · have hi3 : i + 1 ≤ F := by omega
      simp only [if_neg hi0, if_neg hiF]
      rw [sum_map_ind3]
      simp only [count_states_I_suf, count_states_M_suf, count_states_D_suf]
      norm_num [hi3, Nat.lt_succ_of_le hi, insertError, deleteError, MAX_ERROR_RATE]

/-- Out-probabilities of a suffix delete state in the concatenated model sum
to one. -/
theorem concatRow_D_suf (c L F R i : ℕ) (h1 : 1 ≤ i) (h2 : i ≤ F) :
    ((readMatcherStates c L F R).map (concatTrans c L F R (.D i .suf))).sum = 1 := by
  have h0 : (readMatcherStates c L F R).map (concatTrans c L F R (.D i .suf)) =
      (readMatcherStates c L F R).map (fun t =>
        if i = F then ind t .sfxEnd (1 - insertError) + ind t (.I F .suf) insertError
        else
          ind t (.I i .suf) insertError + ind t (.D (i + 1) .suf) deleteError +
            ind t (.M (i + 1) .suf) (1 - insertError - deleteError)) := rfl
  rw [h0]
  by_cases hiF : i = F
  · simp only [if_pos hiF]
    rw [sum_map_ind2]
    simp only [count_states_sfxEnd, count_states_I_suf]
    norm_num [insertError, MAX_ERROR_RATE]
  · have hi3 : i + 1 ≤ F := by omega
    simp only [if_neg hiF]
    rw [sum_map_ind3]
    simp only [count_states_I_suf, count_states_M_suf, count_states_D_suf]
    norm_num [h2, hi3, Nat.lt_succ_of_le h2, insertError, deleteError, MAX_ERROR_RATE]

/-- Out-probabilities of a unit-start gateway in the concatenated model sum
to one. -/
theorem concatRow_unitStart (c L F R r : ℕ) (hr : r < c) (hL : 1 ≤ L) :
    ((readMatcherStates c L F R).map (concatTrans c L F R (.unitStart r))).sum = 1 := by
  have h0 : (readMatcherStates c L F R).map (concatTrans c L F R (.unitStart r)) =
      (readMatcherStates c L F R).map (fun t =>
        ind t (.M 1 (.rep r)) pMat + ind t (.D 1 (.rep r)) pDel +
          ind t (.I 0 (.rep r)) pIns) := rfl
  rw [h0, sum_map_ind3]
  simp only [count_states_M_rep, count_states_D_rep, count_states_I_rep]
  norm_num [hr, hL, pMat, pDel, pIns, MAX_ERROR_RATE]

/-- Out-probabilities of a repeat insert state in the concatenated model sum
to one. -/
theorem concatRow_I_rep (c L F R r i : ℕ) (hr : r < c) (hi : i ≤ L) (hL : 1 ≤ L) :
    ((readMatcherStates c L F R).map (concatTrans c L F R (.I i (.rep r)))).sum = 1 := by
  have h0 : (readMatcherStates c L F R).map (concatTrans c L F R (.I i (.rep r))) =
      (readMatcherStates c L F R).map (fun t =>
        if i = 0 then
          ind t (.I 0 (.rep r)) pIns + ind t (.D 1 (.rep r)) pDel +
            ind t (.M 1 (.rep r)) pMat
        else if i = L then
          ind t (.I L (.rep r)) pIns + ind t (.unitEnd r) (1 - pIns)
        else
          ind t (.I i (.rep r)) pIns + ind t (.M (i + 1) (.rep r)) pMat +
            ind t (.D (i + 1) (.rep r)) pDel) := rfl
  rw [h0]
  by_cases hi0 : i = 0
  · simp only [if_pos hi0]
    rw [sum_map_ind3]
    simp only [count_states_I_rep, count_states_D_rep, count_states_M_rep]
    norm_num [hr, hL, pIns, pDel, pMat, MAX_ERROR_RATE]
  · by_cases hiL : i = L
    · simp only [if_neg hi0, if_pos hiL]
      rw [sum_map_ind2]
      simp only [count_states_I_rep, count_states_unitEnd]
      norm_num [hr, pIns, MAX_ERROR_RATE]
    · have hi3 : i + 1 ≤ L := by omega
      simp only [if_neg hi0, if_neg hiL]
      rw [sum_map_ind3]
      simp only [count_states_I_rep, count_states_M_rep, count_states_D_rep]
      norm_num [hr, hi3, Nat.lt_succ_of_le hi, pIns, pDel, pMat, MAX_ERROR_RATE]

/-- Out-probabilities of a repeat match state in the concatenated model sum
to one. -/
theorem concatRow_M_rep (c L F R r i : ℕ) (hr : r < c) (h1 : 1 ≤ i) (h2 : i ≤ L) :
    ((readMatcherStates c L F R).map (concatTrans c L F R (.M i (.rep r)))).sum = 1 := by
  have h0 : (readMatcherStates c L F R).map (concatTrans c L F R (.M i (.rep r))) =
      (readMatcherStates c L F R).map (fun t =>
        if i = L then ind t (.unitEnd r) (1 - pIns) + ind t (.I L (.rep r)) pIns
        else
          ind t (.I i (.rep r)) pIns + ind t (.M (i + 1) (.rep r)) pMat +
            ind t (.D (i + 1) (.rep r)) pDel) := rfl
  rw [h0]
  by_cases hiL : i = L
  · simp only [if_pos hiL]
    rw [sum_map_ind2]
    simp only [count_states_unitEnd, count_states_I_rep]
    norm_num [hr, pIns, MAX_ERROR_RATE]
  · have hi3 : i + 1 ≤ L := by omega
    simp only [if_neg hiL]
    rw [sum_map_ind3]
    simp only [count_states_I_rep, count_states_M_rep, count_states_D_rep]
    norm_num [hr, h2, hi3, Nat.lt_succ_of_le h2, pIns, pDel, pMat, MAX_ERROR_RATE]

/-- Out-probabilities of a repeat delete state in the concatenated model sum
to one. -/
theorem concatRow_D_rep (c L F R r i : ℕ) (hr : r < c) (h1 : 1 ≤ i) (h2 : i ≤ L) :
    ((readMatcherStates c L F R).map (concatTrans c L F R (.D i (.rep r)))).sum = 1 := by
  have h0 : (readMatcherStates c L F R).map (concatTrans c L F R (.D i (.rep r))) =
      (readMatcherStates c L F R).map (fun t =>
        if i = L then ind t (.unitEnd r) (1 - pIns) + ind t (.I L (.rep r)) pIns
        else
          ind t (.I i (.rep r)) pIns + ind t (.D (i + 1) (.rep r)) pDel +
            ind t (.M (i + 1) (.rep r)) pMat) := rfl
  rw [h0]
  by_cases hiL : i = L
  · simp only [if_pos hiL]
    rw [sum_map_ind2]
    simp only [count_states_unitEnd, count_states_I_rep]
    norm_num [hr, pIns, MAX_ERROR_RATE]
  · have hi3 : i + 1 ≤ L := by omega
    simp only [if_neg hiL]
    rw [sum_map_ind3]
    simp only [count_states_I_rep, count_states_M_rep, count_states_D_rep]
    norm_num [hr, h2, hi3, Nat.lt_succ_of_le h2, pIns, pDel, pMat, MAX_ERROR_RATE]

/-- Out-probabilities of a unit-end gateway in the concatenated model sum
to one. -/
theorem concatRow_unitEnd (c L F R r : ℕ) (hr : r < c) :
    ((readMatcherStates c L F R).map (concatTrans c L F R (.unitEnd r))).sum = 1 := by
  have h0 : (readMatcherStates c L F R).map (concatTrans c L F R (.unitEnd r)) =
      (readMatcherStates c L F R).map (fun t =>
        if r + 1 = c then ind t .repModelEnd 0.5 + ind t .endRepeating 0.5
        else ind t (.unitStart (r + 1)) 0.5 + ind t .endRepeating 0.5) := rfl
  rw [h0]
  by_cases hrc : r + 1 = c
  · simp only [if_pos hrc]
    rw [sum_map_ind2]
    simp only [count_states_repModelEnd, count_states_endRepeating]
    norm_num
  · have hr2 : r + 1 < c := by omega
    simp only [if_neg hrc]
    rw [sum_map_ind2]
    simp only [count_states_unitStart, count_states_endRepeating]
    norm_num [hr2]

/-- Out-probabilities of `prefix_start_prefix` in the concatenated model sum
to one. -/
theorem concatRow_pfxStart (c L F R : ℕ) (hR : 1 ≤ R) :
    ((readMatcherStates c L F R).map (concatTrans c L F R .pfxStart)).sum = 1 := by
  have h0 : (readMatcherStates c L F R).map (concatTrans c L F R .pfxStart) =
      (readMatcherStates c L F R).map (fun t =>
        ind t (.M 1 .pre) (1 - insertError - deleteError) + ind t (.D 1 .pre) deleteError +
          ind t (.I 0 .pre) insertError) := rfl
  rw [h0, sum_map_ind3]
  simp only [count_states_M_pre, count_states_D_pre, count_states_I_pre]
  norm_num [hR, insertError, deleteError, MAX_ERROR_RATE]

/-- Out-probabilities of a prefix insert state in the concatenated model sum
to one. -/
theorem concatRow_I_pre (c L F R i : ℕ) (hi : i ≤ R) (hR : 1 ≤ R) :
    ((readMatcherStates c L F R).map (concatTrans c L F R (.I i .pre))).sum = 1 := by
  have h0 : (readMatcherStates c L F R).map (concatTrans c L F R (.I i .pre)) =
      (readMatcherStates c L F R).map (fun t =>
        if i = 0 then
          ind t (.I 0 .pre) insertError + ind t (.D 1 .pre) deleteError +
            ind t (.M 1 .pre) (1 - insertError - deleteError)
        else if i = R then
          ind t (.I R .pre) insertError + ind t .pfxEnd (1 - insertError)
        else
          ind t (.I i .pre) insertError +
            ind t (.M (i + 1) .pre) (1 - insertError - deleteError) +
            ind t (.D (i + 1) .pre) deleteError) := rfl
  rw [h0]
  by_cases hi0 : i = 0
  · simp only [if_pos hi0]
    rw [sum_map_ind3]
    simp only [count_states_I_pre, count_states_D_pre, count_states_M_pre]
    norm_num [hR, insertError, deleteError, MAX_ERROR_RATE]
  · by_cases hiR : i = R
    · simp only [if_neg hi0, if_pos hiR]
      rw [sum_map_ind2]
      simp only [count_states_I_pre, count_states_pfxEnd]
      norm_num [insertError, MAX_ERROR_RATE]
    · have hi3 : i + 1 ≤ R := by omega
      simp only [if_neg hi0, if_neg hiR]
      rw [sum_map_ind3]
      simp only [count_states_I_pre, count_states_M_pre, count_states_D_pre]
      norm_num [hi3, Nat.lt_succ_of_le hi, insertError, deleteError, MAX_ERROR_RATE]

/-- Out-probabilities of a prefix match state in the concatenated model sum
to one; the interior rows include the 0.01 early-exit leak to `prefix_end`. -/
theorem concatRow_M_pre (c L F R i : ℕ) (h1 : 1 ≤ i) (h2 : i ≤ R) :
    ((readMatcherStates c L F R).map (concatTrans c L F R (.M i .pre))).sum = 1 := by
  have h0 : (readMatcherStates c L F R).map (concatTrans c L F R (.M i .pre)) =
      (readMatcherStates c L F R).map (fun t =>
        if i = R then ind t .pfxEnd (1 - insertError) + ind t (.I R .pre) insertError
        else
          ind t (.I i .pre) insertError +
            ind t (.M (i + 1) .pre) (1 - insertError - deleteError - 0.01) +
            ind t (.D (i + 1) .pre) deleteError + ind t .pfxEnd 0.01) := rfl
  rw [h0]
  by_cases hiR : i = R
  · simp only [if_pos hiR]
    rw [sum_map_ind2]
    simp only [count_states_pfxEnd, count_states_I_pre]
    norm_num [insertError, MAX_ERROR_RATE]
  · have hi3 : i + 1 ≤ R := by omega
    simp only [if_neg hiR]
    rw [sum_map_ind4]
    simp only [count_states_I_pre, count_states_M_pre, count_states_D_pre, count_states_pfxEnd]
    norm_num [h2, hi3, Nat.lt_succ_of_le h2, insertError, deleteError, MAX_ERROR_RATE]

/-- Out-probabilities of a prefix delete state in the concatenated model sum
to one. -/
theorem concatRow_D_pre (c L F R i : ℕ) (h1 : 1 ≤ i) (h2 : i ≤ R) :
    ((readMatcherStates c L F R).map (concatTrans c L F R (.D i .pre))).sum = 1 := by
  have h0 : (readMatcherStates c L F R).map (concatTrans c L F R (.D i .pre)) =
      (readMatcherStates c L F R).map (fun t =>
        if i = R then ind t .pfxEnd (1 - insertError) + ind t (.I R .pre) insertError
        else
          ind t (.I i .pre) insertError + ind t (.D (i + 1) .pre) deleteError +
            ind t (.M (i + 1) .pre) (1 - insertError - deleteError)) := rfl
  rw [h0]
  by_cases hiR : i = R
  · simp only [if_pos hiR]
    rw [sum_map_ind2]
    simp only [count_states_pfxEnd, count_states_I_pre]
    norm_num [insertError, MAX_ERROR_RATE]
  · have hi3 : i + 1 ≤ R := by omega
    simp only [if_neg hiR]
    rw [sum_map_ind3]
    simp only [count_states_I_pre, count_states_M_pre, count_states_D_pre]
    norm_num [h2, hi3, Nat.lt_succ_of_le h2, insertError, deleteError, MAX_ERROR_RATE]

/-- Summing a value gated on one copy index over `range c`. -/
theorem sum_range_ite_val (c r v : ℕ) :
    ((List.range c).map (fun x => if x = r then v else 0)).sum = if r < c then v else 0 := by
  induction c with
  | zero => simp
  | succ n ih =>
    rw [List.range_succ, List.map_append, List.sum_append, ih]
    simp only [List.map_cons, List.map_nil, List.sum_cons, List.sum_nil]
    split_ifs <;> omega

/-- Only copy 0 contributes states passing the `first_repeat_matches` name
test, and it contributes its `L` match columns. -/
theorem countP_copy_firstMatch (L r' : ℕ) :
    (copyStates L r').countP isFirstRepeatMatch = if r' = 0 then L else 0 := by
  by_cases hr : r' = 0
  · subst hr
    rw [if_pos rfl]
    unfold copyStates
    simp only [List.countP_append]
    rw [List.countP_eq_zero.mpr (by
        intro a ha
        obtain ⟨i, _, rfl⟩ := List.mem_map.mp ha
        simp [isFirstRepeatMatch]),
      List.countP_eq_length.mpr (by
        intro a ha
        obtain ⟨i, _, rfl⟩ := List.mem_map.mp ha
        rfl),
      List.countP_eq_zero.mpr (by
        intro a ha
        obtain ⟨i, _, rfl⟩ := List.mem_map.mp ha
        simp [isFirstRepeatMatch]),
      List.countP_eq_zero.mpr (by
        intro a ha
        rcases List.mem_cons.mp ha with rfl | ha
        · simp [isFirstRepeatMatch]
        · rw [List.mem_singleton.mp ha]
          simp [isFirstRepeatMatch])]
    simp
  · rw [if_neg hr, List.countP_eq_zero.mpr]
    intro a ha
    unfold copyStates at ha
    obtain ⟨m, rfl⟩ : ∃ m, r' = m + 1 := ⟨r' - 1, by omega⟩
    rcases List.mem_append.mp ha with ha | ha
    · rcases List.mem_append.mp ha with ha | ha
      · rcases List.mem_append.mp ha with ha | ha
        · obtain ⟨i, _, rfl⟩ := List.mem_map.mp ha
          simp [isFirstRepeatMatch]
        · obtain ⟨i, _, rfl⟩ := List.mem_map.mp ha
          simp [isFirstRepeatMatch]
      · obtain ⟨i, _, rfl⟩ := List.mem_map.mp ha
        simp [isFirstRepeatMatch]
    · rcases List.mem_cons.mp ha with rfl | ha
      · simp [isFirstRepeatMatch]
      · rw [List.mem_singleton.mp ha]
        simp [isFirstRepeatMatch]

/-- The `first_repeat_matches` list collected by `get_read_matcher_model`
(lines 563-568) has exactly one entry per match column of the repeat unit. -/
theorem firstRepeatMatches_length (c L F R : ℕ) (hc : 1 ≤ c) :
    (firstRepeatMatches c L F R).length = L := by
  unfold firstRepeatMatches
  rw [← List.countP_eq_length_filter]
  unfold readMatcherStates suffixStates repeatStates prefixStates
  simp only [List.countP_append]
  rw [List.countP_eq_zero.mpr (by intro a ha; rw [List.mem_singleton.mp ha]; simp [isFirstRepeatMatch]),
    List.countP_eq_zero.mpr (by
      intro a ha
      obtain ⟨i, _, rfl⟩ := List.mem_map.mp ha
      simp [isFirstRepeatMatch]),
    List.countP_eq_zero.mpr (by
      intro a ha
      obtain ⟨i, _, rfl⟩ := (List.mem_map.mp ha : ∃ x, x ∈ List.range F ∧ RState.M (x + 1) .suf = a)
      simp [isFirstRepeatMatch]),
    List.countP_eq_zero.mpr (by
      intro a ha
      obtain ⟨i, _, rfl⟩ := (List.mem_map.mp ha : ∃ x, x ∈ List.range F ∧ RState.D (x + 1) .suf = a)
      simp [isFirstRepeatMatch]),
    List.countP_eq_zero.mpr (by
      intro a ha
      rcases List.mem_cons.mp ha with rfl | ha
      · simp [isFirstRepeatMatch]
      rcases List.mem_cons.mp ha with rfl | ha
      · simp [isFirstRepeatMatch]
      rw [List.mem_singleton.mp ha]
      simp [isFirstRepeatMatch]),
    List.countP_eq_zero.mpr (by intro a ha; rw [List.mem_singleton.mp ha]; simp [isFirstRepeatMatch]),
    List.countP_flatten, List.map_map,
    List.map_congr_left (by
      intro q hq
      rw [Function.comp_apply, countP_copy_firstMatch]),
    sum_range_ite_val,
    List.countP_eq_zero.mpr (by
      intro a ha
      rcases List.mem_cons.mp ha with rfl | ha
      · simp [isFirstRepeatMatch]
      rcases List.mem_cons.mp ha with rfl | ha
      · simp [isFirstRepeatMatch]
      rw [List.mem_singleton.mp ha]
      simp [isFirstRepeatMatch]),
    List.countP_eq_zero.mpr (by intro a ha; rw [List.mem_singleton.mp ha]; simp [isFirstRepeatMatch]),
    List.countP_eq_zero.mpr (by
      intro a ha
      obtain ⟨i, _, rfl⟩ := (List.mem_map.mp ha : ∃ x, x ∈ List.range (R + 1) ∧ RState.I x .pre = a)
      simp [isFirstRepeatMatch]),
    List.countP_eq_zero.mpr (by
      intro a ha
      obtain ⟨i, _, rfl⟩ := (List.mem_map.mp ha : ∃ x, x ∈ List.range R ∧ RState.M (x + 1) .pre = a)
      simp [isFirstRepeatMatch]),
    List.countP_eq_zero.mpr (by
      intro a ha
      obtain ⟨i, _, rfl⟩ := (List.mem_map.mp ha : ∃ x, x ∈ List.range R ∧ RState.D (x + 1) .pre = a)
      simp [isFirstRepeatMatch]),
    List.countP_eq_zero.mpr (by
      intro a ha
      rcases List.mem_cons.mp ha with rfl | ha
      · simp [isFirstRepeatMatch]
      rcases List.mem_cons.mp ha with rfl | ha
      · simp [isFirstRepeatMatch]
      rw [List.mem_singleton.mp ha]
      simp [isFirstRepeatMatch])]
  rw [if_pos (by omega : 0 < c)]
  simp

/-- The two dense-matrix edits of `get_read_matcher_model` leave every row
other than the global start and the repeat match states untouched. -/
theorem rowSum_eq_concat (c L F R : ℕ) (s : RState) (hs : s ≠ .suffModelStart)
    (hp : isRepeatMatchState s = false) :
    rowSum c L F R s = ((readMatcherStates c L F R).map (concatTrans c L F R s)).sum := by
  have hnm : s ∉ repeatMatchStates c L F R := by
    intro hmem
    have h2 := (List.mem_filter.mp hmem).2
    rw [hp] at h2
    exact absurd h2 (by simp)
  unfold rowSum
  apply congrArg List.sum
  apply List.map_congr_left
  intro t ht
  unfold readMatcherTrans
  rw [if_neg hs, if_neg hnm]

/-- Out-probabilities of the global start state after the internal-entry edit
sum to one: the 0.3 entry to `suffix_start` plus `len(first_repeat_matches)`
entries of `0.7 / len(first_repeat_matches)` each. -/
theorem rowSum_start (c L F R : ℕ) (hc : 1 ≤ c) (hL : 1 ≤ L) :
    rowSum c L F R .suffModelStart = 1 := by
  have hcnt := count_states_M_rep c L F R 0 1
  rw [if_pos ⟨by omega, by omega, hL⟩] at hcnt
  have hmem1 : RState.M 1 (.rep 0) ∈ readMatcherStates c L F R :=
    List.count_pos_iff.mp (by rw [hcnt]; norm_num)
  have hfm : RState.M 1 (.rep 0) ∈ firstRepeatMatches c L F R :=
    List.mem_filter.mpr ⟨hmem1, rfl⟩
  have hlen : (((firstRepeatMatches c L F R).length : ℚ)) ≠ 0 := by
    rw [Nat.cast_ne_zero]
    intro h
    rw [List.length_eq_zero] at h
    rw [h] at hfm
    exact absurd hfm (List.not_mem_nil _)
  have hptw : ∀ t ∈ readMatcherStates c L F R,
      readMatcherTrans c L F R .suffModelStart t =
        ind t .sfxStart 0.3 +
          (if isFirstRepeatMatch t then
            0.7 / ((firstRepeatMatches c L F R).length : ℚ) else 0) := by
    intro t ht
    unfold readMatcherTrans
    rw [if_pos rfl]
    by_cases h1 : t = .sfxStart
    · subst h1
      rw [if_pos rfl]
      simp [ind, isFirstRepeatMatch]
    · rw [if_neg h1]
      by_cases h2 : isFirstRepeatMatch t
      · rw [if_pos (show t ∈ firstRepeatMatches c L F R from List.mem_filter.mpr ⟨ht, h2⟩)]
        simp [ind, h1, h2]
      · rw [if_neg (show ¬ t ∈ firstRepeatMatches c L F R from
          fun hm => h2 (List.mem_filter.mp hm).2)]
        have hred : concatTrans c L F R .suffModelStart t = ind t .sfxStart 1 := rfl
        rw [hred]
        simp [ind, h1, h2]
  unfold rowSum
  rw [List.map_congr_left hptw,
    sum_map_addQ _ (fun t => ind t .sfxStart 0.3)
      (fun t => if isFirstRepeatMatch t then
        0.7 / ((firstRepeatMatches c L F R).length : ℚ) else 0),
    sum_map_ind, sum_map_indP, count_states_sfxStart,
    List.countP_eq_length_filter]
  have hflt : ((readMatcherStates c L F R).filter isFirstRepeatMatch).length =
      (firstRepeatMatches c L F R).length := rfl
  rw [hflt, div_mul_cancel₀ _ hlen]
  norm_num

/-- Out-probabilities of a repeat match state after the early-termination edit
sum to one: the fresh `to_end / (1 + to_end)` entry to the global end plus the
original row scaled by `1 / (1 + to_end)`. -/
theorem rowSum_M_rep (c L F R r i : ℕ) (hr : r < c) (h1 : 1 ≤ i) (h2 : i ≤ L) :
    rowSum c L F R (.M i (.rep r)) = 1 := by
  have hcnt := count_states_M_rep c L F R r i
  rw [if_pos ⟨hr, h1, h2⟩] at hcnt
  have hmem : RState.M i (.rep r) ∈ readMatcherStates c L F R :=
    List.count_pos_iff.mp (by rw [hcnt]; norm_num)
  have hrms : RState.M i (.rep r) ∈ repeatMatchStates c L F R :=
    List.mem_filter.mpr ⟨hmem, rfl⟩
  have hlen : (((repeatMatchStates c L F R).length : ℚ)) ≠ 0 := by
    rw [Nat.cast_ne_zero]
    intro h
    rw [List.length_eq_zero] at h
    rw [h] at hrms
    exact absurd hrms (List.not_mem_nil _)
  have hlen0 : (0 : ℚ) ≤ ((repeatMatchStates c L F R).length : ℚ) := Nat.cast_nonneg _
  have htot : (1 : ℚ) + 0.7 / ((repeatMatchStates c L F R).length : ℚ) ≠ 0 := by
    have : (0 : ℚ) ≤ 0.7 / ((repeatMatchStates c L F R).length : ℚ) :=
      div_nonneg (by norm_num) hlen0
    intro h
    rw [← h] at this
    nlinarith [this]
  have hconc : concatTrans c L F R (.M i (.rep r)) .preModelEnd = 0 := by
    have hred : concatTrans c L F R (.M i (.rep r)) .preModelEnd =
        if i = L then
          ind RState.preModelEnd (.unitEnd r) (1 - pIns) +
            ind RState.preModelEnd (.I L (.rep r)) pIns
        else
          ind RState.preModelEnd (.I i (.rep r)) pIns +
            ind RState.preModelEnd (.M (i + 1) (.rep r)) pMat +
            ind RState.preModelEnd (.D (i + 1) (.rep r)) pDel := rfl
    rw [hred]
    split_ifs <;> simp [ind]
  have hptw : ∀ t ∈ readMatcherStates c L F R,
      readMatcherTrans c L F R (.M i (.rep r)) t =
        ind t .preModelEnd
          ((0.7 / ((repeatMatchStates c L F R).length : ℚ)) /
            (1 + 0.7 / ((repeatMatchStates c L F R).length : ℚ))) +
          concatTrans c L F R (.M i (.rep r)) t /
            (1 + 0.7 / ((repeatMatchStates c L F R).length : ℚ)) := by
    intro t ht
    unfold readMatcherTrans
    rw [if_neg (by simp), if_pos hrms]
    show (if t = RState.preModelEnd then
        (0.7 / ((repeatMatchStates c L F R).length : ℚ)) /
          (1 + 0.7 / ((repeatMatchStates c L F R).length : ℚ))
      else concatTrans c L F R (.M i (.rep r)) t /
          (1 + 0.7 / ((repeatMatchStates c L F R).length : ℚ))) = _
    by_cases h3 : t = .preModelEnd
    · rw [if_pos h3, h3, hconc]
      simp [ind]
    · rw [if_neg h3]
      simp [ind, h3]
  unfold rowSum
  rw [List.map_congr_left hptw,
    sum_map_addQ _ (fun t => ind t .preModelEnd
        ((0.7 / ((repeatMatchStates c L F R).length : ℚ)) /
          (1 + 0.7 / ((repeatMatchStates c L F R).length : ℚ))))
      (fun t => concatTrans c L F R (.M i (.rep r)) t /
        (1 + 0.7 / ((repeatMatchStates c L F R).length : ℚ))),
    sum_map_ind, count_states_preModelEnd,
    List.map_congr_left (fun t _ => div_eq_mul_inv
      (concatTrans c L F R (.M i (.rep r)) t)
      (1 + 0.7 / ((repeatMatchStates c L F R).length : ℚ))),
    List.sum_map_mul_right, concatRow_M_rep c L F R r i hr h1 h2]
  have htot7 : ((repeatMatchStates c L F R).length : ℚ) + 0.7 ≠ 0 := by
    intro h
    nlinarith [hlen0]
  rw [Nat.cast_one, mul_one, one_mul]
  field_simp
  ring

/-- The reference-repeat-finder sentinel `start_random_matches` never occurs
in the read matcher. -/
theorem count_states_startRandomMatches (c L F R : ℕ) :
    (readMatcherStates c L F R).count RState.startRandomMatches = 0 := by
  unfold readMatcherStates suffixStates repeatStates prefixStates
  simp only [List.count_append]
  rw [count_map_range_zero (fun i => RState.I i .suf) (F + 1) RState.startRandomMatches
        (fun i => by simp),
      count_map_range_zero (fun i => RState.M (i + 1) .suf) F RState.startRandomMatches
        (fun i => by simp),
      count_map_range_zero (fun i => RState.D (i + 1) .suf) F RState.startRandomMatches
        (fun i => by simp),
      count_flatten_copies_zero c L RState.startRandomMatches (fun i r => by simp),
      count_map_range_zero (fun i => RState.I i .pre) (R + 1) RState.startRandomMatches
        (fun i => by simp),
      count_map_range_zero (fun i => RState.M (i + 1) .pre) R RState.startRandomMatches
        (fun i => by simp),
      count_map_range_zero (fun i => RState.D (i + 1) .pre) R RState.startRandomMatches
        (fun i => by simp)]
  simp

/-- The reference-repeat-finder sentinel `end_random_matches` never occurs in
the read matcher. -/
theorem count_states_endRandomMatches (c L F R : ℕ) :
    (readMatcherStates c L F R).count RState.endRandomMatches = 0 := by
  unfold readMatcherStates suffixStates repeatStates prefixStates
  simp only [List.count_append]
  rw [count_map_range_zero (fun i => RState.I i .suf) (F + 1) RState.endRandomMatches
        (fun i => by simp),
      count_map_range_zero (fun i => RState.M (i + 1) .suf) F RState.endRandomMatches
        (fun i => by simp),
      count_map_range_zero (fun i => RState.D (i + 1) .suf) F RState.endRandomMatches
        (fun i => by simp),
      count_flatten_copies_zero c L RState.endRandomMatches (fun i r => by simp),
      count_map_range_zero (fun i => RState.I i .pre) (R + 1) RState.endRandomMatches
        (fun i => by simp),
      count_map_range_zero (fun i => RState.M (i + 1) .pre) R RState.endRandomMatches
        (fun i => by simp),
      count_map_range_zero (fun i => RState.D (i + 1) .pre) R RState.endRandomMatches
        (fun i => by simp)]
  simp

/-- Claim C2 (amended): in the read matcher baked by `get_read_matcher_model`,
with at least one repeat copy, one repeat-unit column, and nonempty flanking
patterns, every state except the global end `preModelEnd` has outgoing
transition probabilities summing exactly to 1 — in particular within 1e-9 of
1 — including the global start after the internal-entry edit and every repeat
match state after the early-termination renormalisation.  The claim as
written fails only at `preModelEnd`, whose outgoing row is identically zero. -/
theorem readMatcher_rowSums (c L F R : ℕ) (hc : 1 ≤ c) (hL : 1 ≤ L)
    (hF : 1 ≤ F) (hR : 1 ≤ R) :
    ∀ s ∈ readMatcherStates c L F R, s ≠ .preModelEnd → rowSum c L F R s = 1 := by
  intro s hs hne
  have hcnt := List.count_pos_iff.mpr hs
  cases s with
  | suffModelStart => exact rowSum_start c L F R hc hL
  | suffModelEnd =>
    rw [rowSum_eq_concat c L F R RState.suffModelEnd (by simp) rfl]
    exact concatRow_suffModelEnd c L F R
  | repModelStart =>
    rw [rowSum_eq_concat c L F R RState.repModelStart (by simp) rfl]
    exact concatRow_repModelStart c L F R
  | repModelEnd =>
    rw [rowSum_eq_concat c L F R RState.repModelEnd (by simp) rfl]
    exact concatRow_repModelEnd2 c L F R
  | preModelStart =>
    rw [rowSum_eq_concat c L F R RState.preModelStart (by simp) rfl]
    exact concatRow_preModelStart c L F R
  | preModelEnd => exact absurd rfl hne
  | M col tag =>
    cases tag with
    | suf =>
      rw [count_states_M_suf] at hcnt
      have hb : 1 ≤ col ∧ col ≤ F := by
        by_contra hb
        rw [if_neg hb] at hcnt
        exact absurd hcnt (lt_irrefl 0)
      rw [rowSum_eq_concat c L F R (RState.M col .suf) (by simp) rfl]
      exact concatRow_M_suf c L F R col hb.1 hb.2
    | pre =>
      rw [count_states_M_pre] at hcnt
      have hb : 1 ≤ col ∧ col ≤ R := by
        by_contra hb
        rw [if_neg hb] at hcnt
        exact absurd hcnt (lt_irrefl 0)
      rw [rowSum_eq_concat c L F R (RState.M col .pre) (by simp) rfl]
      exact concatRow_M_pre c L F R col hb.1 hb.2
    | rep r =>
      rw [count_states_M_rep] at hcnt
      have hb : r < c ∧ 1 ≤ col ∧ col ≤ L := by
        by_contra hb
        rw [if_neg hb] at hcnt
        exact absurd hcnt (lt_irrefl 0)
      exact rowSum_M_rep c L F R r col hb.1 hb.2.1 hb.2.2
  | I col tag =>
    cases tag with
    | suf =>
      rw [count_states_I_suf] at hcnt
      have hb : col < F + 1 := by
        by_contra hb
        rw [if_neg hb] at hcnt
        exact absurd hcnt (lt_irrefl 0)
      rw [rowSum_eq_concat c L F R (RState.I col .suf) (by simp) rfl]
      exact concatRow_I_suf c L F R col (by omega) hF
    | pre =>
      rw [count_states_I_pre] at hcnt
      have hb : col < R + 1 := by
        by_contra hb
        rw [if_neg hb] at hcnt
        exact absurd hcnt (lt_irrefl 0)
      rw [rowSum_eq_concat c L F R (RState.I col .pre) (by simp) rfl]
      exact concatRow_I_pre c L F R col (by omega) hR
    | rep r =>
      rw [count_states_I_rep] at hcnt
      have hb : r < c ∧ col < L + 1 := by
        by_contra hb
        rw [if_neg hb] at hcnt
        exact absurd hcnt (lt_irrefl 0)
      rw [rowSum_eq_concat c L F R (RState.I col (.rep r)) (by simp) rfl]
      exact concatRow_I_rep c L F R r col hb.1 (by omega) hL
  | D col tag =>
    cases tag with
    | suf =>
      rw [count_states_D_suf] at hcnt
      have hb : 1 ≤ col ∧ col ≤ F := by
        by_contra hb
        rw [if_neg hb] at hcnt
        exact absurd hcnt (lt_irrefl 0)
      rw [rowSum_eq_concat c L F R (RState.D col .suf) (by simp) rfl]
      exact concatRow_D_suf c L F R col hb.1 hb.2
    | pre =>
      rw [count_states_D_pre] at hcnt
      have hb : 1 ≤ col ∧ col ≤ R := by
        by_contra hb
        rw [if_neg hb] at hcnt
        exact absurd hcnt (lt_irrefl 0)
      rw [rowSum_eq_concat c L F R (RState.D col .pre) (by simp) rfl]
      exact concatRow_D_pre c L F R col hb.1 hb.2
    | rep r =>
      rw [count_states_D_rep] at hcnt
      have hb : r < c ∧ 1 ≤ col ∧ col ≤ L := by
        by_contra hb
        rw [if_neg hb] at hcnt
        exact absurd hcnt (lt_irrefl 0)
      rw [rowSum_eq_concat c L F R (RState.D col (.rep r)) (by simp) rfl]
      exact concatRow_D_rep c L F R r col hb.1 hb.2.1 hb.2.2
  | sfxStart =>
    rw [rowSum_eq_concat c L F R RState.sfxStart (by simp) rfl]
    exact concatRow_sfxStart c L F R hF
  | sfxEnd =>
    rw [rowSum_eq_concat c L F R RState.sfxEnd (by simp) rfl]
    exact concatRow_sfxEnd c L F R
  | pfxStart =>
    rw [rowSum_eq_concat c L F R RState.pfxStart (by simp) rfl]
    exact concatRow_pfxStart c L F R hR
  | pfxEnd =>
    rw [rowSum_eq_concat c L F R RState.pfxEnd (by simp) rfl]
    exact concatRow_pfxEnd c L F R
  | unitStart r =>
    rw [count_states_unitStart] at hcnt
    have hb : r < c := by
      by_contra hb
      rw [if_neg hb] at hcnt
      exact absurd hcnt (lt_irrefl 0)
    rw [rowSum_eq_concat c L F R (RState.unitStart r) (by simp) rfl]
    exact concatRow_unitStart c L F R r hb hL
  | unitEnd r =>
    rw [count_states_unitEnd] at hcnt
    have hb : r < c := by
      by_contra hb
      rw [if_neg hb] at hcnt
      exact absurd hcnt (lt_irrefl 0)
    rw [rowSum_eq_concat c L F R (RState.unitEnd r) (by simp) rfl]
    exact concatRow_unitEnd c L F R r hb
  | startRepeating =>
    rw [rowSum_eq_concat c L F R RState.startRepeating (by simp) rfl]
    exact concatRow_startRepeating c L F R hc
  | endRepeating =>
    rw [rowSum_eq_concat c L F R RState.endRepeating (by simp) rfl]
    exact concatRow_endRepeating c L F R
  | startRandomMatches =>
    rw [count_states_startRandomMatches] at hcnt
    exact absurd hcnt (lt_irrefl 0)
  | endRandomMatches =>
    rw [count_states_endRandomMatches] at hcnt
    exact absurd hcnt (lt_irrefl 0)

/-- Witness for the amended row-sum law at the repeat match state `M1_0` of a
concrete model with 2 copies, 3 columns and flank lengths 2. -/
theorem readMatcher_rowSums_witness :
    ((1 : ℕ) ≤ 2 ∧ (1 : ℕ) ≤ 3) ∧ rowSum 2 3 2 2 (RState.M 1 (.rep 0)) = 1 :=
  ⟨⟨by norm_num, by norm_num⟩,
    readMatcher_rowSums 2 3 2 2 (by norm_num) (by norm_num) (by norm_num) (by norm_num)
      (RState.M 1 (.rep 0)) (by decide) (by decide)⟩

/-- Counterexample to claim C2 as written: the global end state `preModelEnd`
of the baked read matcher has out-row identically zero, so its row sum 0 is
not within 1e-9 of 1. -/
theorem rowSum_end_counterexample :
    ¬ (∀ s ∈ readMatcherStates 1 1 1 1, |rowSum 1 1 1 1 s - 1| ≤ 1 / 1000000000) := by
  intro h
  have h2 := h .preModelEnd (by decide)
  have h3 : rowSum 1 1 1 1 .preModelEnd = 0 := by
    rw [rowSum_eq_concat 1 1 1 1 .preModelEnd (by simp) rfl]
    exact sum_map_zeroQ _ _ (fun t _ => rfl)
  rw [h3] at h2
  norm_num at h2

/-- Counterexample to claim C1 as written: with 2 repeat copies and a
single-column unit, the claim predicts `start → M1_1 = 0.7 / 2`, but the code
only routes the 0.7 mass to the match states of copy 0, so `start → M1_1`
is 0. -/
theorem readMatcherStart_counterexample :
    ¬ (readMatcherTrans 2 1 1 1 .suffModelStart (.M 1 (.rep 1)) = 0.7 / 2) := by
  have h : readMatcherTrans 2 1 1 1 .suffModelStart (.M 1 (.rep 1)) = 0 := by
    unfold readMatcherTrans
    rw [if_pos rfl, if_neg (by simp), if_neg (by decide)]
    rfl
  rw [h]
  norm_num

/-- Claim C1 (amended): the internal-entry edit of `get_read_matcher_model`
gives the global start probability 0.3 to `suffix_start` and splits 0.7
equally over `first_repeat_matches` — the `L` match states `M1_0 … ML_0` of
the FIRST repeat copy only (the name test `split('_')[-1] == '0'` selects
exactly the states of copy 0), each receiving `0.7 / L`; every match state of
a later copy receives 0 from the start. -/
theorem readMatcherStart_spec (c L F R : ℕ) (hc : 1 ≤ c) (hL : 1 ≤ L) :
    readMatcherTrans c L F R .suffModelStart .sfxStart = 0.3 ∧
    (firstRepeatMatches c L F R).length = L ∧
    (∀ j, 1 ≤ j → j ≤ L →
      readMatcherTrans c L F R .suffModelStart (.M j (.rep 0)) = 0.7 / (L : ℚ)) ∧
    (∀ j r, 1 ≤ r → readMatcherTrans c L F R .suffModelStart (.M j (.rep r)) = 0) := by
  refine ⟨?_, firstRepeatMatches_length c L F R hc, ?_, ?_⟩
  · unfold readMatcherTrans
    rw [if_pos rfl, if_pos rfl]
  · intro j hj1 hj2
    have hcnt := count_states_M_rep c L F R 0 j
    rw [if_pos ⟨by omega, hj1, hj2⟩] at hcnt
    have hmem : RState.M j (.rep 0) ∈ readMatcherStates c L F R :=
      List.count_pos_iff.mp (by rw [hcnt]; norm_num)
    unfold readMatcherTrans
    rw [if_pos rfl, if_neg (by simp),
      if_pos (show RState.M j (.rep 0) ∈ firstRepeatMatches c L F R from
        List.mem_filter.mpr ⟨hmem, rfl⟩),
      firstRepeatMatches_length c L F R hc]
  · intro j r hr
    obtain ⟨m, rfl⟩ : ∃ m, r = m + 1 := ⟨r - 1, by omega⟩
    unfold readMatcherTrans
    rw [if_pos rfl, if_neg (by simp),
      if_neg (show ¬ RState.M j (.rep (m + 1)) ∈ firstRepeatMatches c L F R from
        fun hm => by simpa [isFirstRepeatMatch] using (List.mem_filter.mp hm).2)]
    simp [concatTrans, ind]

/-- Witness for the amended start-row law at the second match column of copy 0
in a concrete model with 2 copies and 3 columns. -/
theorem readMatcherStart_spec_witness :
    ((1 : ℕ) ≤ 2 ∧ (1 : ℕ) ≤ 3) ∧
      readMatcherTrans 2 3 2 2 .suffModelStart (.M 2 (.rep 0)) = 0.7 / ((3 : ℕ) : ℚ) :=
  ⟨⟨by norm_num, by norm_num⟩,
    (readMatcherStart_spec 2 3 2 2 (by norm_num) (by norm_num)).2.2.1 2
      (by norm_num) (by norm_num)⟩

end AdVNTR
